import Mathlib

/-!
Verification development for the pi-seed-messenger repository.

Shallow embedding of the parts of the code relevant to the checked
properties:

* `Messenger.pathMatchesReservation` — src/config.ts, `pathMatchesReservation`.
* `Messenger.executeReserve` / `Messenger.executeRelease` — src/handlers.ts.
* `Messenger.dispatch` — the action dispatcher in src/index.ts (`execute`).
* `Messenger.isEchoLoop` / `Messenger.deliverMessage` — src/index.ts.
* `Crew.*` — the crew store operations in the crew store module
  (epic/task CRUD, ready set, checkpoints) and the `epic.close` handler.

Conventions of the embedding:

* The filesystem state owned by a component is an explicit record of
  association lists (one entry per file); `writeJson`/`writeText` become
  replace-or-append on those lists.
* Timestamps produced by `Date.now()` are `Nat` parameters, ISO timestamps
  produced by `new Date().toISOString()` are `String` parameters, threaded
  into each operation as an explicit `now` argument.
* Reads of external state (the presence registry) are passed in as
  arguments at the call sites that perform them.
-/

namespace Messenger

/-! ### Path matching (src/config.ts, lines 487–492)

```ts
export function pathMatchesReservation(filePath: string, pattern: string): boolean {
  if (pattern.endsWith("/")) {
    return filePath.startsWith(pattern) || filePath + "/" === pattern;
  }
  return filePath === pattern;
}
```
-/

/-- `String.startsWith`, character-wise (extensionally the built-in, which
is not kernel-reducible). -/
def strStartsWith (s p : String) : Bool := p.data.isPrefixOf s.data

/-- `String.endsWith`, character-wise. -/
def strEndsWith (s p : String) : Bool := p.data.isSuffixOf s.data

def pathMatchesReservation (filePath pattern : String) : Bool :=
  if strEndsWith pattern "/" then
    strStartsWith filePath pattern || (filePath ++ "/" == pattern)
  else
    filePath == pattern

/-- The matching relation exactly as the specification words it, for
comparison with the code: the pattern ends with `/` and P equals it or
starts with it, or the pattern does not end with `/` and P equals it
exactly. -/
def specPathMatches (P pat : String) : Prop :=
  (strEndsWith pat "/" = true ∧ (P = pat ∨ strStartsWith P pat = true)) ∨
    (strEndsWith pat "/" = false ∧ P = pat)

instance (P pat : String) : Decidable (specPathMatches P pat) := by
  unfold specPathMatches
  infer_instance

/-! ### Reservations (src/handlers.ts, `executeReserve` / `executeRelease`)

The relevant mutable state is `state.registered` and `state.reservations`.
`store.updateRegistration` only mirrors the list into the presence file and
is omitted.  Result texts are abstracted to the `details.mode` /
`details.error` tags the handlers attach.
-/

structure Reservation where
  pattern : String
  reason : Option String
  since : String
deriving DecidableEq, Repr

structure ReserveState where
  registered : Bool
  reservations : List Reservation
deriving DecidableEq, Repr

/-- Result tag of a handler: `details.mode` and the optional `details.error`. -/
structure HandlerTag where
  mode : String
  error : Option String
deriving DecidableEq, Repr

/-- One iteration of the `for (const pattern of patterns)` loop in
`executeReserve`: drop entries with the same pattern, then push the fresh
entry. -/
def reserveStep (reason : Option String) (now : String)
    (l : List Reservation) (p : String) : List Reservation :=
  l.filter (fun r => r.pattern != p) ++ [⟨p, reason, now⟩]

/-- The loop of `executeReserve` over all requested patterns. -/
def reserveLoop (reason : Option String) (now : String)
    (l : List Reservation) (ps : List String) : List Reservation :=
  ps.foldl (reserveStep reason now) l

/-- src/handlers.ts lines 360–388. -/
def executeReserve (st : ReserveState) (patterns : List String)
    (reason : Option String) (now : String) : ReserveState × HandlerTag :=
  if ¬ st.registered then
    (st, ⟨"error", some "not_registered"⟩)
  else if patterns.isEmpty then
    (st, ⟨"reserve", some "empty_patterns"⟩)
  else
    ({ st with reservations := reserveLoop reason now st.reservations patterns },
     ⟨"reserve", none⟩)

/-- src/handlers.ts lines 390–418.  `release = none` models the `true`
argument (release everything); `release = some ps` models an explicit
pattern list. -/
def executeRelease (st : ReserveState) (release : Option (List String)) :
    ReserveState × HandlerTag :=
  if ¬ st.registered then
    (st, ⟨"error", some "not_registered"⟩)
  else
    match release with
    | none => ({ st with reservations := [] }, ⟨"release", none⟩)
    | some ps =>
        ({ st with reservations :=
            st.reservations.filter (fun r => !(ps.contains r.pattern)) },
         ⟨"release", none⟩)

/-- Reservation-affecting operations available through the dispatcher, used
to quantify over call sequences. -/
inductive ResOp where
  | reserve (ps : List String) (reason : Option String) (now : String)
  | release (ps : Option (List String))
deriving DecidableEq, Repr

def applyResOp (st : ReserveState) : ResOp → ReserveState
  | .reserve ps reason now => (executeReserve st ps reason now).1
  | .release ps => (executeRelease st ps).1

def applyResOps (st : ReserveState) (ops : List ResOp) : ReserveState :=
  ops.foldl applyResOp st

/-- The state right after extension start-up (src/index.ts line 63:
`reservations: []`), for either value of the registration flag. -/
def initialReserveState (registered : Bool) : ReserveState :=
  { registered := registered, reservations := [] }

/-- At most one reservation entry per pattern. -/
def atMostOnePerPattern (l : List Reservation) : Prop :=
  ∀ p, l.countP (fun r => r.pattern == p) ≤ 1

/-! ### The action dispatcher (src/index.ts, `execute`, lines 360–481)

The dispatcher receives a parameter record, reads `params.action`, and
routes.  Only the parameter fields that the dispatcher itself inspects are
modelled; the branches that pass control to a handler are represented by a
`delegate` value naming that handler, while results constructed inline in
`execute` (parameter-validation errors, the unknown-action result) and the
two-line body of `executeStatus` (src/handlers.ts lines 114–117: the
not-registered guard, otherwise a result with `details.mode = "status"`)
are represented by their `details.mode` / `details.error` tags. -/

structure DispatchParams where
  action : Option String
  autoRegisterPath : Option String
  name : Option String
  spec : Option String
  paths : Option (List String)
  taskId : Option String
deriving DecidableEq, Repr

inductive DispatchResult where
  | delegate (handlerName : String)
  | immediate (mode : String) (error : Option String)
deriving DecidableEq, Repr

/-- Tag of the result of `handlers.executeStatus` (src/handlers.ts
lines 114–158): the not-registered error, else the status view. -/
def statusResult (registered : Bool) : DispatchResult :=
  if registered then .immediate "status" none
  else .immediate "error" (some "not_registered")

/-- The `switch (action)` of src/index.ts `execute`, including the
pre-switch branches (the `if (!action)` guard — true both for an omitted
action and for the falsy empty string — then `join`, `autoRegisterPath`,
the registration gate) and the per-action parameter checks done inline. -/
def dispatch (registered : Bool) (p : DispatchParams) : DispatchResult :=
  match p.action with
  | none => statusResult registered
  | some a =>
    if a = "" then statusResult registered
    else if a = "join" then .delegate "executeJoin"
    else if a = "autoRegisterPath" then
      match p.autoRegisterPath with
      | none => .immediate "autoRegisterPath" (some "missing_value")
      | some _ => .delegate "executeAutoRegisterPath"
    else if ¬ registered then .immediate "error" (some "not_registered")
    else if a = "status" then statusResult registered
    else if a = "list" then .delegate "executeList"
    else if a = "whois" then
      match p.name with
      | none => .immediate "whois" (some "missing_name")
      | some _ => .delegate "executeWhois"
    else if a = "set_status" then .delegate "executeSetStatus"
    else if a = "feed" then .delegate "executeFeed"
    else if a = "spec" then
      match p.spec with
      | none => .immediate "spec" (some "missing_spec")
      | some _ => .delegate "executeSetSpec"
    else if a = "send" then .delegate "executeSend"
    else if a = "broadcast" then .delegate "executeSend"
    else if a = "reserve" then
      match p.paths with
      | none => .immediate "reserve" (some "missing_paths")
      | some ps =>
          if ps.isEmpty then .immediate "reserve" (some "missing_paths")
          else .delegate "executeReserve"
    else if a = "release" then .delegate "executeRelease"
    else if a = "rename" then
      match p.name with
      | none => .immediate "rename" (some "missing_name")
      | some _ => .delegate "executeRename"
    else if a = "swarm" then .delegate "executeSwarm"
    else if a = "claim" then
      match p.taskId with
      | none => .immediate "claim" (some "missing_taskId")
      | some _ => .delegate "executeClaim"
    else if a = "unclaim" then
      match p.taskId with
      | none => .immediate "unclaim" (some "missing_taskId")
      | some _ => .delegate "executeUnclaim"
    else if a = "complete" then
      match p.taskId with
      | none => .immediate "complete" (some "missing_taskId")
      | some _ => .delegate "executeComplete"
    else .immediate "error" (some "unknown_action")

/-- The action strings handled by a named case of the dispatcher. -/
def knownActions : List String :=
  ["join", "autoRegisterPath", "status", "list", "whois", "set_status",
   "feed", "spec", "send", "broadcast", "reserve", "release", "rename",
   "swarm", "claim", "unclaim", "complete"]

/-! ### Message delivery and echo-loop suppression (src/index.ts)

`deliverMessage` (lines 120–188) updates the chat history, the unread
counters, the loop-detection window kept by `isEchoLoop` (lines 104–118)
and the seen-senders map, then emits the message with or without the
trigger-turn flag.  The registry lookup
`store.getActiveAgents(...).find(a => a.name === msg.from)` is passed in
as the `senderInfo` argument. -/

/-- Milliseconds window of the loop detector (src/index.ts line 95). -/
def LOOP_WINDOW_MS : Nat := 60000

/-- Message count threshold of the loop detector (src/index.ts line 96). -/
def LOOP_MAX_EXCHANGES : Nat := 3

/-- The per-sender chat-history bound, imported by src/index.ts from
`./lib.js` and defined in src/config.ts line 427:
`export const MAX_CHAT_HISTORY = 50`. -/
def MAX_CHAT_HISTORY : Nat := 50

/-- Lookup in an association list, modelling `Map.get`. -/
def alGet {α : Type} (l : List (String × α)) (k : String) : Option α :=
  (l.find? (fun e => e.1 == k)).map (·.2)

/-- Replace-or-append in an association list, modelling `Map.set`. -/
def alSet {α : Type} (l : List (String × α)) (k : String) (v : α) :
    List (String × α) :=
  if l.any (fun e => e.1 == k) then
    l.map (fun e => if e.1 == k then (k, v) else e)
  else l ++ [(k, v)]

/-- An `AgentMailMessage`; the source field `from` is called `sender` here
because `from` is a reserved word in Lean. -/
structure MailMessage where
  id : String
  sender : String
  recipient : String
  text : String
  timestamp : String
  replyTo : Option String
deriving DecidableEq, Repr

/-- The slice of a presence record that `deliverMessage` reads from the
sender found in the registry. -/
structure SenderInfo where
  sessionId : String
  cwd : String
  model : String
  gitBranch : Option String
deriving DecidableEq, Repr

/-- The configuration flags read by `deliverMessage`. -/
structure DeliverConfig where
  senderDetailsOnFirstContact : Bool
  replyHint : Bool
deriving DecidableEq, Repr

/-- The in-memory state `deliverMessage` mutates: per-sender chat history,
unread counters, seen-senders session map and the `recentExchanges` map of
the loop detector. -/
structure DeliverState where
  chatHistory : List (String × List MailMessage)
  unreadCounts : List (String × Nat)
  seenSenders : List (String × String)
  recentExchanges : List (String × List Nat)
deriving DecidableEq, Repr

/-- The emitted delivery: the composed markdown content and the
`triggerTurn` flag passed to `pi.sendMessage`. -/
structure Delivery where
  content : String
  triggerTurn : Bool
deriving DecidableEq, Repr

/-- src/index.ts lines 104–118.  Prunes entries older than the window,
records the current receive time, and reports whether the pruned list has
reached `LOOP_MAX_EXCHANGES` entries (the just-received message included).
The source stores an empty list for an unseen sender before refilling it;
only the final stored list is observable and is modelled directly. -/
def isEchoLoop (now : Nat) (sender : String) (st : DeliverState) :
    Bool × DeliverState :=
  let timestamps := (alGet st.recentExchanges sender).getD []
  let pruned := timestamps.filter (fun t => now - t < LOOP_WINDOW_MS)
  let updated := pruned ++ [now]
  (updated.length ≥ LOOP_MAX_EXCHANGES,
   { st with recentExchanges := alSet st.recentExchanges sender updated })

/-- `extractFolder` (src/config.ts line 516): `basename(cwd) || cwd`,
with POSIX `basename` returning the last non-empty path component. -/
def extractFolder (cwd : String) : String :=
  let b := (((cwd.splitOn "/").reverse).find? (fun s => s ≠ "")).getD ""
  if b = "" then cwd else b

/-- The one-line note appended when a loop is suppressed
(src/index.ts line 177). -/
def suppressionNote (sender : String) : String :=
  "\n\n*(loop suppressed — too many rapid exchanges with " ++ sender ++
    ", no reply needed)*"

/-- The content composed by `deliverMessage` before the suppression note
(src/index.ts lines 152–172). -/
def baseContent (cfg : DeliverConfig) (senderInfo : Option SenderInfo)
    (isNewIdentity : Bool) (msg : MailMessage) : String :=
  let details :=
    match senderInfo with
    | some info =>
        if isNewIdentity && cfg.senderDetailsOnFirstContact then
          let folder := extractFolder info.cwd
          let locationPart :=
            match info.gitBranch with
            | some br => folder ++ " on " ++ br
            | none => folder
          "*" ++ msg.sender ++ " is in " ++ locationPart ++ " (" ++
            info.model ++ ")*\n\n"
        else ""
    | none => ""
  let replyHint :=
    if cfg.replyHint then
      " — reply: pi_messenger(\x7b action: \"send\", to: \"" ++ msg.sender ++
        "\", message: \"...\" \x7d)"
    else ""
  let core := details ++ "**Message from " ++ msg.sender ++ "**" ++
    replyHint ++ "\n\n" ++ msg.text
  match msg.replyTo with
  | some r => "*(reply to " ++ r.take 8 ++ ")*\n\n" ++ core
  | none => core

/-- src/index.ts lines 120–188. -/
def deliverMessage (cfg : DeliverConfig) (now : Nat)
    (senderInfo : Option SenderInfo) (msg : MailMessage)
    (st : DeliverState) : DeliverState × Delivery :=
  let history := (alGet st.chatHistory msg.sender).getD [] ++ [msg]
  let history :=
    if history.length > MAX_CHAT_HISTORY then history.drop 1 else history
  let st := { st with chatHistory := alSet st.chatHistory msg.sender history }
  let current := (alGet st.unreadCounts msg.sender).getD 0
  let st := { st with unreadCounts := alSet st.unreadCounts msg.sender (current + 1) }
  let (loopDetected, st) := isEchoLoop now msg.sender st
  let senderSessionId := senderInfo.map (·.sessionId)
  let prevSessionId := alGet st.seenSenders msg.sender
  let isNewIdentity :=
    prevSessionId.isNone ||
      (senderSessionId.isSome && prevSessionId ≠ senderSessionId)
  let st :=
    match senderSessionId with
    | some sid => { st with seenSenders := alSet st.seenSenders msg.sender sid }
    | none => st
  let content := baseContent cfg senderInfo isNewIdentity msg
  if loopDetected then
    (st, ⟨content ++ suppressionNote msg.sender, false⟩)
  else
    (st, ⟨content, true⟩)

/-- Successive deliveries: each triple is the `Date.now()` reading, the
registry lookup of the sender, and the message drained from the inbox. -/
def deliverRun (cfg : DeliverConfig) (st : DeliverState) :
    List (Nat × Option SenderInfo × MailMessage) → DeliverState × List Delivery
  | [] => (st, [])
  | (now, i, m) :: rest =>
      let r := deliverMessage cfg now i m st
      let rr := deliverRun cfg r.1 rest
      (rr.1, r.2 :: rr.2)

/-- A fresh delivery state: no history, no counters, no tracked
exchanges. -/
def freshDeliverState : DeliverState := ⟨[], [], [], []⟩

/-- Four concrete messages from one sender, for the rapid-succession
scenario of §8 S7. -/
def rapidMsg1 : MailMessage := ⟨"id1", "A", "B", "message one", "ts1", none⟩

def rapidMsg2 : MailMessage := ⟨"id2", "A", "B", "message two", "ts2", none⟩

def rapidMsg3 : MailMessage := ⟨"id3", "A", "B", "message three", "ts3", none⟩

def rapidMsg4 : MailMessage := ⟨"id4", "A", "B", "message four", "ts4", none⟩

/-- The concrete rapid-succession scenario of §8 S7: one sender, messages
at 0 s, 1 s, 2 s and 3 s. -/
def rapidScenario : List (Nat × Option SenderInfo × MailMessage) :=
  [(0, none, rapidMsg1), (1000, none, rapidMsg2),
   (2000, none, rapidMsg3), (3000, none, rapidMsg4)]

end Messenger

namespace Crew

/-! ### Crew data model (the crew `types` module)

Task files are named `<epic_id>.<M>.json`; the id string `<epic_id>.<M>`
is modelled as the pair `(epic_id, M)`.  Allocated epic ids have the shape
`c-N-xxx` with a lowercase-alphanumeric suffix and never contain a dot
followed by digits, so the decomposition of a task id into the pair is
unambiguous.  ISO timestamps are opaque `String`s supplied as `now`. -/

abbrev TaskId := String × Nat

inductive TaskStatus where
  | todo
  | in_progress
  | done
  | blocked
deriving DecidableEq, Repr

inductive EpicStatus where
  | planning
  | active
  | blocked
  | completed
  | archived
deriving DecidableEq, Repr

structure TaskEvidence where
  commits : Option (List String)
  tests : Option (List String)
  prs : Option (List String)
deriving DecidableEq, Repr

structure Epic where
  id : String
  title : String
  status : EpicStatus
  created_at : String
  updated_at : String
  closed_at : Option String
  task_count : Nat
  completed_count : Nat
deriving DecidableEq, Repr

structure Task where
  id : TaskId
  epic_id : String
  title : String
  status : TaskStatus
  depends_on : List TaskId
  created_at : String
  updated_at : String
  started_at : Option String
  completed_at : Option String
  base_commit : Option String
  assigned_to : Option String
  summary : Option String
  evidence : Option TaskEvidence
  blocked_reason : Option String
  attempt_count : Nat
deriving DecidableEq, Repr

structure Checkpoint where
  id : String
  created_at : String
  epic : Epic
  tasks : List Task
  epic_spec : String
  task_specs : List (TaskId × String)
deriving DecidableEq, Repr

/-- The files under `P/.pi/messenger/crew/`, one association-list entry per
file.  Every write in the store module targets the file named after the
record's own id, so epic and task records are keyed by that id. -/
structure Store where
  epics : List Epic
  tasks : List Task
  epicSpecs : List (String × String)
  taskSpecs : List (TaskId × String)
  blocks : List (TaskId × String)
  checkpoints : List (String × Checkpoint)
deriving DecidableEq, Repr

/-! ### File primitives -/

/-- Read of a keyed file. -/
def lookupKey {κ α : Type} [BEq κ] (l : List (κ × α)) (k : κ) :
    Option α :=
  (l.find? (fun e => e.1 == k)).map (·.2)

/-- Atomic write of a keyed file: overwrite if present, else create. -/
def setKey {κ α : Type} [BEq κ] (l : List (κ × α)) (k : κ) (v : α) :
    List (κ × α) :=
  if l.any (fun e => e.1 == k) then
    l.map (fun e => if e.1 == k then (k, v) else e)
  else l ++ [(k, v)]

/-- Unlink of a keyed file (`fs.unlinkSync`, errors ignored). -/
def removeKey {κ α : Type} [BEq κ] (l : List (κ × α)) (k : κ) :
    List (κ × α) :=
  l.filter (fun e => e.1 != k)

/-- Atomic write of a record to the file named after its key: overwrite if
present, else create. -/
def putKeyed {α κ : Type} [BEq κ] (key : α → κ) (l : List α) (x : α) :
    List α :=
  if l.any (fun u => key u == key x) then
    l.map (fun u => if key u == key x then x else u)
  else l ++ [x]

/-- Write of the epic file `epics/<id>.json`. -/
def putEpic (es : List Epic) (e : Epic) : List Epic :=
  putKeyed (fun u => u.id) es e

/-- Write of the task file `tasks/<id>.json`. -/
def putTask (ts : List Task) (t : Task) : List Task :=
  putKeyed (fun u => u.id) ts t

/-! ### Epic operations -/

def getEpic (s : Store) (epicId : String) : Option Epic :=
  s.epics.find? (fun e => e.id == epicId)

/-- A `Partial<Epic>` argument to `updateEpic`: `none` leaves the field
alone, `some v` assigns it (the fields other call sites never patch are
omitted, matching every call site in the store module). -/
structure EpicPatch where
  status : Option EpicStatus := none
  closed_at : Option (Option String) := none
  task_count : Option Nat := none
  completed_count : Option Nat := none
deriving DecidableEq, Repr

def applyEpicPatch (e : Epic) (p : EpicPatch) : Epic :=
  { e with
    status := p.status.getD e.status
    closed_at := p.closed_at.getD e.closed_at
    task_count := p.task_count.getD e.task_count
    completed_count := p.completed_count.getD e.completed_count }

/-- `updateEpic` from the crew store: read-modify-write touching
`updated_at`. -/
def updateEpic (s : Store) (now : String) (epicId : String) (p : EpicPatch) :
    Store × Option Epic :=
  match getEpic s epicId with
  | none => (s, none)
  | some e =>
    let updated := { applyEpicPatch e p with updated_at := now }
    ({ s with epics := putEpic s.epics updated }, some updated)

def getEpicSpec (s : Store) (epicId : String) : Option String :=
  lookupKey s.epicSpecs epicId

def setEpicSpec (s : Store) (now : String) (epicId : String)
    (content : String) : Store :=
  let s := { s with epicSpecs := setKey s.epicSpecs epicId content }
  (updateEpic s now epicId {}).1

/-- `createEpic` from the crew store.  `allocateEpicId` scans the epics
directory and returns `c-(maxN+1)-<random suffix>`; the freshly allocated
id is here an explicit argument because the suffix is a random input. -/
def createEpic (s : Store) (now : String) (id : String) (title : String) :
    Store × Epic :=
  let epic : Epic :=
    { id := id, title := title, status := .planning, created_at := now,
      updated_at := now, closed_at := none, task_count := 0,
      completed_count := 0 }
  let s := { s with epics := putEpic s.epics epic }
  let stub := "# " ++ title ++ "\n\n*Spec pending planning phase*\n"
  let s := { s with epicSpecs := setKey s.epicSpecs id stub }
  (s, epic)

/-! ### Task operations -/

def getTask (s : Store) (taskId : TaskId) : Option Task :=
  s.tasks.find? (fun t => t.id == taskId)

/-- Stable insertion of a task into a list sorted by the numeric id
tail. -/
def insertByNum (t : Task) : List Task → List Task
  | [] => [t]
  | u :: us => if t.id.2 ≤ u.id.2 then t :: u :: us else u :: insertByNum t us

/-- Stable sort by the numeric id tail (the `parseInt`-comparator sort of
`getTasks`; a structurally recursive sort so that concrete stores
evaluate). -/
def sortByNum : List Task → List Task
  | [] => []
  | t :: ts => insertByNum t (sortByNum ts)

/-- `getTasks(cwd, epicId)`: parse every task file, keep the records whose
`epic_id` matches, and sort by the numeric tail of the id
(`parseInt` of the last dot-separated component). -/
def getTasks (s : Store) (epicId : String) : List Task :=
  sortByNum (s.tasks.filter (fun t => t.epic_id == epicId))

/-- A `Partial<Task>` argument to `updateTask`, with the fields the store
module's call sites patch.  An explicit `undefined` in a source literal
(which deletes the field on serialization) is `some none`. -/
structure TaskPatch where
  status : Option TaskStatus := none
  started_at : Option (Option String) := none
  completed_at : Option (Option String) := none
  base_commit : Option (Option String) := none
  assigned_to : Option (Option String) := none
  summary : Option (Option String) := none
  evidence : Option (Option TaskEvidence) := none
  blocked_reason : Option (Option String) := none
  attempt_count : Option Nat := none
deriving DecidableEq, Repr

def applyTaskPatch (t : Task) (p : TaskPatch) : Task :=
  { t with
    status := p.status.getD t.status
    started_at := p.started_at.getD t.started_at
    completed_at := p.completed_at.getD t.completed_at
    base_commit := p.base_commit.getD t.base_commit
    assigned_to := p.assigned_to.getD t.assigned_to
    summary := p.summary.getD t.summary
    evidence := p.evidence.getD t.evidence
    blocked_reason := p.blocked_reason.getD t.blocked_reason
    attempt_count := p.attempt_count.getD t.attempt_count }

/-- `updateTask` from the crew store. -/
def updateTask (s : Store) (now : String) (taskId : TaskId) (p : TaskPatch) :
    Store × Option Task :=
  match getTask s taskId with
  | none => (s, none)
  | some t =>
    let updated := { applyTaskPatch t p with updated_at := now }
    ({ s with tasks := putTask s.tasks updated }, some updated)

def getTaskSpec (s : Store) (taskId : TaskId) : Option String :=
  lookupKey s.taskSpecs taskId

def setTaskSpec (s : Store) (now : String) (taskId : TaskId)
    (content : String) : Store :=
  let s := { s with taskSpecs := setKey s.taskSpecs taskId content }
  (updateTask s now taskId {}).1

/-- `allocateTaskId` (crew id-allocator module): scan the task files whose
name starts with `<epicId>.` and ends in `.<M>.json`, and return
`<epicId>.<maxM+1>`. -/
def allocateTaskId (s : Store) (epicId : String) : TaskId :=
  (epicId,
   (s.tasks.foldl (fun m t => if t.id.1 == epicId then max m t.id.2 else m) 0)
     + 1)

/-- `createTask` from the crew store. -/
def createTask (s : Store) (now : String) (epicId : String) (title : String)
    (description : Option String) (dependsOn : List TaskId) :
    Store × Task :=
  let id := allocateTaskId s epicId
  let task : Task :=
    { id := id, epic_id := epicId, title := title, status := .todo,
      depends_on := dependsOn, created_at := now, updated_at := now,
      started_at := none, completed_at := none, base_commit := none,
      assigned_to := none, summary := none, evidence := none,
      blocked_reason := none, attempt_count := 0 }
  let s := { s with tasks := putTask s.tasks task }
  let specContent :=
    match description with
    | some d => "# " ++ title ++ "\n\n" ++ d ++ "\n"
    | none => "# " ++ title ++ "\n\n*Spec pending*\n"
  let s := { s with taskSpecs := setKey s.taskSpecs id specContent }
  let s :=
    match getEpic s epicId with
    | some epic =>
        (updateEpic s now epicId { task_count := some (epic.task_count + 1) }).1
    | none => s
  (s, task)

/-- `startTask` from the crew store.  The captured git HEAD is an external
input and is passed as `baseCommit`. -/
def startTask (s : Store) (now : String) (taskId : TaskId)
    (agentName : String) (baseCommit : Option String) :
    Store × Option Task :=
  match getTask s taskId with
  | none => (s, none)
  | some task =>
    if task.status ≠ .todo then (s, none)
    else
      updateTask s now taskId
        { status := some .in_progress, started_at := some (some now),
          base_commit := some baseCommit, assigned_to := some (some agentName),
          attempt_count := some (task.attempt_count + 1) }

/-- `completeTask` from the crew store. -/
def completeTask (s : Store) (now : String) (taskId : TaskId)
    (summary : String) (evidence : Option TaskEvidence) :
    Store × Option Task :=
  match getTask s taskId with
  | none => (s, none)
  | some task =>
    if task.status ≠ .in_progress then (s, none)
    else
      let r := updateTask s now taskId
        { status := some .done, completed_at := some (some now),
          summary := some (some summary), evidence := some evidence,
          assigned_to := some none }
      match r.2 with
      | none => r
      | some _ =>
        match getEpic r.1 task.epic_id with
        | none => r
        | some epic =>
          let newCompletedCount := epic.completed_count + 1
          ((updateEpic r.1 now task.epic_id
              { completed_count := some newCompletedCount,
                status := some
                  (if newCompletedCount ≥ epic.task_count then .completed
                   else .active) }).1,
           r.2)

/-- The block-context file written by `blockTask`. -/
def blockText (title reason now : String) : String :=
  "# Blocked: " ++ title ++ "\n\n**Reason:** " ++ reason ++
    "\n\n**Blocked at:** " ++ now ++ "\n"

/-- `blockTask` from the crew store.  Note: unlike `startTask`,
`completeTask` and `unblockTask`, it has no source-status guard. -/
def blockTask (s : Store) (now : String) (taskId : TaskId) (reason : String) :
    Store × Option Task :=
  match getTask s taskId with
  | none => (s, none)
  | some task =>
    let s :=
      { s with blocks := setKey s.blocks taskId (blockText task.title reason now) }
    updateTask s now taskId
      { status := some .blocked, blocked_reason := some (some reason),
        assigned_to := some none }

/-- `unblockTask` from the crew store. -/
def unblockTask (s : Store) (now : String) (taskId : TaskId) :
    Store × Option Task :=
  match getTask s taskId with
  | none => (s, none)
  | some task =>
    if task.status ≠ .blocked then (s, none)
    else
      let s := { s with blocks := removeKey s.blocks taskId }
      updateTask s now taskId
        { status := some .todo, blocked_reason := some none }

/-- The update literal in `resetTask`: status back to `todo`, lifecycle
fields cleared, `attempt_count` kept. -/
def resetPatch : TaskPatch :=
  { status := some .todo, started_at := some none, completed_at := some none,
    base_commit := some none, assigned_to := some none, summary := some none,
    evidence := some none, blocked_reason := some none }

/-- Number of task records whose status is not `todo`; the termination
measure of the cascade. -/
def countNonTodo (s : Store) : Nat :=
  (s.tasks.filter (fun t => t.status ≠ .todo)).length

/-- The tail of `resetTask` after the cascade: when any task was reset,
re-read the epic, recompute `completed_count` from the tasks now `done`,
and set the epic status accordingly. -/
def resetEpilogue (now : String) (E : String) (r : Store × List Task) :
    Store × List Task :=
  if r.2.length > 0 then
    match getEpic r.1 E with
    | none => r
    | some epic =>
      let doneCount :=
        ((getTasks r.1 E).filter (fun t => t.status == .done)).length
      ((updateEpic r.1 now E
          { completed_count := some doneCount,
            status := some
              (if doneCount < epic.task_count then .active
               else .completed) }).1,
       r.2)
  else r

/-- `resetTask` from the crew store, with an explicit recursion budget.
The source function recurses without a bound; each level resets its own
task, snapshots `getTasks` once, and recurses into the snapshot entries
that depend on the task and were not `todo` in the snapshot.  `none` means
the budget ran out before the recursion finished. -/
def resetTaskFuel (fuel : Nat) (s : Store) (now : String) (taskId : TaskId)
    (cascade : Bool) : Option (Store × List Task) :=
  match fuel with
  | 0 => none
  | fuel + 1 =>
    match getTask s taskId with
    | none => some (s, [])
    | some task =>
      let r := updateTask s now taskId resetPatch
      let acc0 : Store × List Task := (r.1, r.2.toList)
      let folded : Option (Store × List Task) :=
        if cascade then
          (getTasks r.1 task.epic_id).foldl
            (fun acc t =>
              match acc with
              | none => none
              | some (sAcc, l) =>
                if taskId ∈ t.depends_on ∧ t.status ≠ .todo then
                  match resetTaskFuel fuel sAcc now t.id true with
                  | none => none
                  | some (s', cascaded) => some (s', l ++ cascaded)
                else some (sAcc, l))
            (some acc0)
        else some acc0
      match folded with
      | none => none
      | some r2 => some (resetEpilogue now task.epic_id r2)

/-- The body of the cascade loop of `resetTaskFuel`, as a named function
for reasoning about the fold. -/
def cascadeStep (fuel : Nat) (now : String) (taskId : TaskId)
    (acc : Option (Store × List Task)) (t : Task) :
    Option (Store × List Task) :=
  match acc with
  | none => none
  | some (sAcc, l) =>
    if taskId ∈ t.depends_on ∧ t.status ≠ .todo then
      match resetTaskFuel fuel sAcc now t.id true with
      | none => none
      | some (s', cascaded) => some (s', l ++ cascaded)
    else some (sAcc, l)

/-- `resetTask` itself: the recursion terminates (the cascade claims), and
`countNonTodo s + 1` levels of budget always suffice. -/
def resetTask (s : Store) (now : String) (taskId : TaskId) (cascade : Bool) :
    Store × List Task :=
  (resetTaskFuel (countNonTodo s + 1) s now taskId cascade).getD (s, [])

/-- Pointwise evolution of one task record during a cascade: the id is
stable and the status either stays or becomes `todo`. -/
def TodoStep (u v : Task) : Prop :=
  v.id = u.id ∧ (v.status = u.status ∨ v.status = .todo)

/-- Pointwise evolution during a cascade rooted in epic `E`: ids and epic
ids are stable and only tasks of `E` may change status (to `todo`). -/
def TodoStepOn (E : String) (u v : Task) : Prop :=
  v.id = u.id ∧ v.epic_id = u.epic_id ∧
    (v.status = u.status ∨ (u.epic_id = E ∧ v.status = .todo))

/-- Pointwise evolution of an epic record during a cascade rooted in `E`:
the id and `task_count` are stable and only the epic `E` is rewritten. -/
def EpicStep (E : String) (u v : Epic) : Prop :=
  v.id = u.id ∧ v.task_count = u.task_count ∧ (v = u ∨ u.id = E)

/-- A store whose two tasks depend on each other, both `done`: the
dependency graph is cyclic. -/
def cyclicStore : Store :=
  ⟨[⟨"e", "E", .active, "c", "u", none, 2, 2⟩],
   [⟨("e", 1), "e", "A", .done, [("e", 2)], "c", "u", none, none, none,
     none, none, none, none, 0⟩,
    ⟨("e", 2), "e", "B", .done, [("e", 1)], "c", "u", none, none, none,
     none, none, none, none, 0⟩], [], [], [], []⟩

/-! ### Ready set, close, checkpoints -/

/-- `getReadyTasks` from the crew store. -/
def getReadyTasks (s : Store) (epicId : String) : List Task :=
  let tasks := getTasks s epicId
  let doneIds := (tasks.filter (fun t => t.status == .done)).map (·.id)
  tasks.filter (fun t =>
    t.status == .todo && t.depends_on.all (fun d => doneIds.contains d))

/-- `closeEpic` from the crew store. -/
def closeEpic (s : Store) (now : String) (epicId : String) :
    Store × Option Epic :=
  match getEpic s epicId with
  | none => (s, none)
  | some _ =>
    if (getTasks s epicId).all (fun t => t.status == .done) then
      updateEpic s now epicId
        { status := some .completed, closed_at := some (some now) }
    else (s, none)

/-- `saveCheckpoint` from the crew store.  A task spec is recorded only
when its file exists and is non-empty (the JS truthiness test
`if (spec)`). -/
def saveCheckpoint (s : Store) (now : String) (epicId : String) :
    Store × Option Checkpoint :=
  match getEpic s epicId with
  | none => (s, none)
  | some epic =>
    let tasks := getTasks s epicId
    let taskSpecs := tasks.foldl
      (fun acc t =>
        match getTaskSpec s t.id with
        | some spec => if spec ≠ "" then acc ++ [(t.id, spec)] else acc
        | none => acc) []
    let cp : Checkpoint :=
      { id := epicId, created_at := now, epic := epic, tasks := tasks,
        epic_spec := (getEpicSpec s epicId).getD "",
        task_specs := taskSpecs }
    ({ s with checkpoints := setKey s.checkpoints epicId cp }, some cp)

def getCheckpoint (s : Store) (epicId : String) : Option Checkpoint :=
  lookupKey s.checkpoints epicId

/-- `restoreCheckpoint` from the crew store: rewrite the epic record, the
epic spec, and every snapshotted task record; rewrite a task spec only when
it is present (and non-empty) in the snapshot.  Nothing is deleted. -/
def restoreCheckpoint (s : Store) (epicId : String) : Option Store :=
  match getCheckpoint s epicId with
  | none => none
  | some cp =>
    let s := { s with epics := putEpic s.epics cp.epic }
    let s := { s with epicSpecs := setKey s.epicSpecs epicId cp.epic_spec }
    some (cp.tasks.foldl
      (fun s t =>
        let s := { s with tasks := putTask s.tasks t }
        match lookupKey cp.task_specs t.id with
        | some sp =>
            if sp ≠ "" then { s with taskSpecs := setKey s.taskSpecs t.id sp }
            else s
        | none => s) s)

/-! ### The `epic.close` handler (crew epic-handlers module, `epicClose`) -/

/-- Outcome of the `epic.close` handler: the `details.error` kind, or the
successful close with the updated epic (`details.epic`).  The `incomplete`
payload carries the `{id, status}` pairs the handler attaches. -/
inductive EpicCloseOutcome where
  | missingId
  | notFound (id : String)
  | incomplete (l : List (TaskId × TaskStatus))
  | closeFailed (id : String)
  | success (e : Epic)
deriving DecidableEq, Repr

/-- The `epicClose` handler of the crew epic-handlers module: validate the
id, look the epic up, reject with `incomplete_tasks` listing the incomplete
tasks when one is not `done`, else delegate to the store `closeEpic`. -/
def epicCloseAction (s : Store) (now : String) (id : Option String) :
    Store × EpicCloseOutcome :=
  match id with
  | none => (s, .missingId)
  | some epicId =>
    match getEpic s epicId with
    | none => (s, .notFound epicId)
    | some _ =>
      let tasks := getTasks s epicId
      let incomplete := tasks.filter (fun t => t.status != .done)
      if incomplete.length > 0 then
        (s, .incomplete (incomplete.map (fun t => (t.id, t.status))))
      else
        match closeEpic s now epicId with
        | (s', some closed) => (s', .success closed)
        | (s', none) => (s', .closeFailed epicId)

/-! ### Operation languages and invariants -/

/-- The task-lifecycle operations of the crew store, each carrying the
external inputs of its invocation (timestamp, git head, arguments). -/
inductive TaskOp where
  | create (now epicId title : String) (description : Option String)
      (dependsOn : List TaskId)
  | start (now : String) (taskId : TaskId) (agent : String)
      (baseCommit : Option String)
  | complete (now : String) (taskId : TaskId) (summary : String)
      (evidence : Option TaskEvidence)
  | block (now : String) (taskId : TaskId) (reason : String)
  | unblock (now : String) (taskId : TaskId)
  | reset (now : String) (taskId : TaskId) (cascade : Bool)
deriving DecidableEq, Repr

def applyTaskOp (s : Store) : TaskOp → Store
  | .create now epicId title description dependsOn =>
      (createTask s now epicId title description dependsOn).1
  | .start now taskId agent baseCommit =>
      (startTask s now taskId agent baseCommit).1
  | .complete now taskId summary evidence =>
      (completeTask s now taskId summary evidence).1
  | .block now taskId reason => (blockTask s now taskId reason).1
  | .unblock now taskId => (unblockTask s now taskId).1
  | .reset now taskId cascade => (resetTask s now taskId cascade).1

/-- The epic, task and spec operations of the crew store, used to quantify
over the activity between a checkpoint save and its restore.  The id of
`epicCreate` stands for the freshly allocated `allocateEpicId` result. -/
inductive CrewOp where
  | task (op : TaskOp)
  | epicCreate (now id title : String)
  | epicClose (now id : String)
  | epicSetSpec (now id content : String)
  | taskSetSpec (now : String) (taskId : TaskId) (content : String)
deriving DecidableEq, Repr

def applyCrewOp (s : Store) : CrewOp → Store
  | .task op => applyTaskOp s op
  | .epicCreate now id title => (createEpic s now id title).1
  | .epicClose now id => (closeEpic s now id).1
  | .epicSetSpec now id content => setEpicSpec s now id content
  | .taskSetSpec now taskId content => setTaskSpec s now taskId content

def applyCrewOps (s : Store) (ops : List CrewOp) : Store :=
  ops.foldl applyCrewOp s

/-- Well-formedness of the task directory: one file per task id. -/
def WF (s : Store) : Prop := (s.tasks.map (·.id)).Nodup

/-- The denormalized-count invariant of §8 property 5: for every epic
record, `task_count` is the number of its task records, and
`completed_count` the number of those in status `done`. -/
def countInvariant (s : Store) : Prop :=
  ∀ e ∈ s.epics,
    e.task_count = (getTasks s e.id).length ∧
    e.completed_count =
      ((getTasks s e.id).filter (fun t => t.status == .done)).length

/-- A one-epic, one-done-task store for the close witness. -/
def closeWitnessEpic : Epic := ⟨"c-1-abc", "Epic", .active, "t0", "t0", none, 1, 1⟩

def closeWitnessStore : Store :=
  ⟨[closeWitnessEpic],
   [⟨("c-1-abc", 1), "c-1-abc", "T", .done, [], "t0", "t0", none, none,
     none, none, none, none, none, 0⟩], [], [], [], []⟩

/-- Side condition under which a lifecycle operation preserves the count
invariant: `blockTask` must not be applied to a task already in status
`done` (the store function has no guard ruling that out). -/
def blockGuard (s : Store) : TaskOp → Prop
  | .block _ taskId _ =>
      ∀ y, getTask s taskId = some y → y.status ≠ .done
  | _ => True

/-- Well-formedness of the epic directory: one file per epic id. -/
def epicWF (s : Store) : Prop := (s.epics.map (·.id)).Nodup

/-- A one-epic, one-todo-task store for the count-invariant witness. -/
def blockWitnessTask : Task :=
  ⟨("e", 1), "e", "T", .todo, [], "t0", "t0", none, none, none, none, none,
   none, none, 0⟩

def blockWitnessStore : Store :=
  ⟨[⟨"e", "Epic", .active, "t0", "t0", none, 1, 0⟩], [blockWitnessTask],
   [], [], [], []⟩

/-- The update literal of `startTask`. -/
def startPatch (now agent : String) (baseCommit : Option String)
    (attempt : Nat) : TaskPatch :=
  { status := some .in_progress, started_at := some (some now),
    base_commit := some baseCommit, assigned_to := some (some agent),
    attempt_count := some (attempt + 1) }

/-- The task-update literal of `completeTask`. -/
def completePatch (now summary : String) (ev : Option TaskEvidence) :
    TaskPatch :=
  { status := some .done, completed_at := some (some now),
    summary := some (some summary), evidence := some ev,
    assigned_to := some none }

/-- The epic-update literal of `completeTask`. -/
def completeEpicPatch (epic : Epic) : EpicPatch :=
  { completed_count := some (epic.completed_count + 1),
    status := some
      (if epic.completed_count + 1 ≥ epic.task_count then .completed
       else .active) }

/-- The update literal of `blockTask`. -/
def blockPatch (reason : String) : TaskPatch :=
  { status := some .blocked, blocked_reason := some (some reason),
    assigned_to := some none }

/-- The update literal of `unblockTask`. -/
def unblockPatch : TaskPatch :=
  { status := some .todo, blocked_reason := some none }

/-- The spec file content written by `createTask`. -/
def createSpecContent (title : String) (description : Option String) :
    String :=
  match description with
  | some d => "# " ++ title ++ "\n\n" ++ d ++ "\n"
  | none => "# " ++ title ++ "\n\n*Spec pending*\n"

/-- The task record built by `createTask`. -/
def createdTask (s : Store) (now epicId title : String)
    (dependsOn : List TaskId) : Task :=
  { id := allocateTaskId s epicId, epic_id := epicId, title := title,
    status := .todo, depends_on := dependsOn, created_at := now,
    updated_at := now, started_at := none, completed_at := none,
    base_commit := none, assigned_to := none, summary := none,
    evidence := none, blocked_reason := none, attempt_count := 0 }

/-- The store state of `createTask` after the task file and spec file are
written, before the epic counter update. -/
def createStore (s : Store) (now epicId title : String)
    (description : Option String) (dependsOn : List TaskId) : Store :=
  { s with
    tasks := putTask s.tasks (createdTask s now epicId title dependsOn),
    taskSpecs := setKey s.taskSpecs (allocateTaskId s epicId)
      (createSpecContent title description) }

/-- The task-spec snapshot accumulated by `saveCheckpoint`. -/
def savedTaskSpecs (s : Store) (tasks : List Task) :
    List (TaskId × String) :=
  tasks.foldl
    (fun acc t =>
      match getTaskSpec s t.id with
      | some spec => if spec ≠ "" then acc ++ [(t.id, spec)] else acc
      | none => acc) []

/-- The checkpoint record written by `saveCheckpoint`. -/
def savedCheckpoint (s : Store) (now : String) (epicId : String)
    (epic : Epic) : Checkpoint :=
  { id := epicId, created_at := now, epic := epic,
    tasks := getTasks s epicId,
    epic_spec := (getEpicSpec s epicId).getD "",
    task_specs := savedTaskSpecs s (getTasks s epicId) }

/-- One step of the `restoreCheckpoint` loop: rewrite the task file and,
when the snapshot holds a non-empty spec for it, the spec file. -/
def restoreStep (cp : Checkpoint) (s : Store) (t : Task) : Store :=
  match lookupKey cp.task_specs t.id with
  | some sp =>
      if sp ≠ "" then
        { s with
          tasks := putTask s.tasks t,
          taskSpecs := setKey s.taskSpecs t.id sp }
      else { s with tasks := putTask s.tasks t }
  | none => { s with tasks := putTask s.tasks t }

end Crew

/-! ## Theorems -/

namespace Messenger

/-! ### C4 — path matching -/

theorem isPrefixOfSelf (l : List Char) : l.isPrefixOf l = true := by
  induction l with
  | nil => rfl
  | cons a as ih => simp [List.isPrefixOf, ih]

/-- C4, counterexample: `pathMatchesReservation` accepts the pair
`("src/auth", "src/auth/")`, which the claimed characterisation rejects —
the path does not start with the pattern and is not equal to it, yet the
code also matches when the path plus a trailing slash equals the
pattern. -/
theorem pathMatches_claim_cex :
    pathMatchesReservation "src/auth" "src/auth/" = true ∧
      ¬ specPathMatches "src/auth" "src/auth/" := by decide

/-- C4, amended: `pathMatchesReservation P pat` returns true iff the
spec's characterisation holds or `pat` ends with `/` and `P` with a
trailing slash appended equals `pat` exactly. -/
theorem pathMatches_amended (P pat : String) :
    pathMatchesReservation P pat = true ↔
      (specPathMatches P pat ∨ (strEndsWith pat "/" = true ∧ P ++ "/" = pat)) := by
  unfold pathMatchesReservation specPathMatches
  by_cases h : strEndsWith pat "/" <;> simp [h]
  constructor
  · intro hor
    rcases hor with hs | he
    · exact Or.inl (Or.inr hs)
    · exact Or.inr he
  · rintro ((rfl | hs) | he)
    · exact Or.inl (isPrefixOfSelf _)
    · exact Or.inl hs
    · exact Or.inr he

/-! ### C7 — reserve/release round trip -/

theorem reserveLoop_cons (reason : Option String) (now : String)
    (l : List Reservation) (p : String) (ps : List String) :
    reserveLoop reason now l (p :: ps)
      = reserveLoop reason now (reserveStep reason now l p) ps := rfl

/-- Releasing every pattern of `psFull` after a reserve loop over a subset
of `psFull` gives the same survivors as releasing them directly. -/
theorem reserveLoop_filter (psFull : List String) (reason : Option String)
    (now : String) :
    ∀ (ps : List String) (l : List Reservation), (∀ p ∈ ps, p ∈ psFull) →
      (reserveLoop reason now l ps).filter
          (fun r => !(psFull.contains r.pattern))
        = l.filter (fun r => !(psFull.contains r.pattern)) := by
  intro ps
  induction ps with
  | nil => intro l _; rfl
  | cons p ps ih =>
    intro l h
    rw [reserveLoop_cons, ih _ (fun q hq => h q (List.mem_cons_of_mem _ hq))]
    unfold reserveStep
    rw [List.filter_append, List.filter_filter]
    have hpmem : p ∈ psFull := h p (List.mem_cons_self p ps)
    have hp : psFull.contains p = true := by
      simpa using hpmem
    have h2 : (([⟨p, reason, now⟩] : List Reservation).filter
        (fun r => !(psFull.contains r.pattern))) = [] := by
      simp [hpmem]
    rw [h2, List.append_nil]
    apply List.filter_congr
    intro r _
    cases hr : psFull.contains r.pattern with
    | true => simp [hr]
    | false =>
      have hne : r.pattern ≠ p := by
        intro he
        rw [he, hp] at hr
        exact Bool.noConfusion hr
      simp [hr, hne]

/-- C7, counterexample: with a reservation on `"a"` already present,
`executeReserve ["a"]` followed by `executeRelease ["a"]` yields the empty
list, not the prior list. -/
theorem reserve_release_roundtrip_cex :
    ((executeRelease
        (executeReserve ⟨true, [⟨"a", none, "t0"⟩]⟩ ["a"] none "t1").1
        (some ["a"])).1).reservations = []
    ∧ ([] : List Reservation) ≠ [⟨"a", none, "t0"⟩] := by decide

/-- C7, amended: `executeReserve ps` followed by `executeRelease ps`
restores the reservation list, provided none of the patterns in `ps` was
already reserved (a pre-existing reservation for a pattern in `ps` is
replaced by the reserve and then removed by the release). -/
theorem reserve_release_roundtrip (st : ReserveState) (ps : List String)
    (reason : Option String) (now : String)
    (hfresh : ∀ p ∈ ps, ∀ r ∈ st.reservations, r.pattern ≠ p) :
    ((executeRelease (executeReserve st ps reason now).1 (some ps)).1).reservations
      = st.reservations := by
  have hself : ∀ (l : List Reservation), (∀ r ∈ l, ∀ p ∈ ps, r.pattern ≠ p) →
      l.filter (fun r => !(ps.contains r.pattern)) = l := by
    intro l hl
    apply List.filter_eq_self.mpr
    intro r hr
    have hnm : r.pattern ∉ ps := by
      intro hmem
      exact hl r hr r.pattern hmem rfl
    simp [hnm]
  have hmain := hself st.reservations (fun r hr p hp => hfresh p hp r hr)
  have hrel : ∀ (st' : ReserveState), st'.registered = true →
      (executeRelease st' (some ps)).1.reservations
        = st'.reservations.filter (fun r => !(ps.contains r.pattern)) := by
    intro st' h
    simp [executeRelease, h]
  cases hreg : st.registered with
  | false => unfold executeReserve executeRelease; simp [hreg]
  | true =>
    by_cases hemp : ps.isEmpty
    · have h1 : (executeReserve st ps reason now).1 = st := by
        simp [executeReserve, hreg, hemp]
      rw [h1, hrel st hreg]
      exact hmain
    · have h1 : (executeReserve st ps reason now).1
          = { st with reservations := reserveLoop reason now st.reservations ps } := by
        simp [executeReserve, hreg, hemp]
      rw [h1,
        hrel { st with reservations := reserveLoop reason now st.reservations ps } hreg]
      rw [reserveLoop_filter ps reason now ps _ (fun p hp => hp)]
      exact hmain

/-- C7 witness: a concrete state with an unrelated reservation, reserving
and releasing a fresh pattern. -/
theorem reserve_release_roundtrip_witness :
    ((executeRelease
        (executeReserve ⟨true, [⟨"b", none, "t0"⟩]⟩ ["a"] none "t1").1
        (some ["a"])).1).reservations = [⟨"b", none, "t0"⟩] :=
  reserve_release_roundtrip ⟨true, [⟨"b", none, "t0"⟩]⟩ ["a"] none "t1"
    (by decide)


/-! ### C9 — one reservation entry per pattern -/

theorem countP_reserveStep (l : List Reservation) (q : String)
    (reason : Option String) (now : String) (p : String) :
    (reserveStep reason now l q).countP (fun r => r.pattern == p)
      ≤ max 1 (l.countP (fun r => r.pattern == p)) := by
  unfold reserveStep
  rw [List.countP_append]
  by_cases hpq : q = p
  · subst hpq
    have h0 : (l.filter (fun r => r.pattern != q)).countP
        (fun r => r.pattern == q) = 0 := by
      rw [List.countP_eq_zero]
      intro r hr
      have := (List.mem_filter.mp hr).2
      simp at this ⊢
      exact this
    rw [h0]
    simp
  · have h1 : (([⟨q, reason, now⟩] : List Reservation)).countP
        (fun r => r.pattern == p) = 0 := by
      rw [List.countP_eq_zero]
      intro r hr
      rw [List.mem_singleton] at hr
      subst hr
      simp [hpq]
    rw [h1]
    have h2 : (l.filter (fun r => r.pattern != q)).countP
        (fun r => r.pattern == p) ≤ l.countP (fun r => r.pattern == p) := by
      calc (l.filter (fun r => r.pattern != q)).countP (fun r => r.pattern == p)
          ≤ (l.filter (fun r => r.pattern != q)).countP (fun r => r.pattern == p)
            := le_refl _
      _ ≤ l.countP (fun r => r.pattern == p) := by
            rw [List.countP_filter]
            exact List.countP_mono_left (fun r _ h => by
              simp at h ⊢
              exact h.1)
    omega

theorem atMostOne_reserveStep (l : List Reservation) (q : String)
    (reason : Option String) (now : String)
    (h : atMostOnePerPattern l) :
    atMostOnePerPattern (reserveStep reason now l q) := by
  intro p
  have := countP_reserveStep l q reason now p
  have := h p
  omega

theorem atMostOne_reserveLoop (reason : Option String) (now : String) :
    ∀ (ps : List String) (l : List Reservation), atMostOnePerPattern l →
      atMostOnePerPattern (reserveLoop reason now l ps) := by
  intro ps
  induction ps with
  | nil => intro l h; exact h
  | cons q ps ih =>
    intro l h
    rw [reserveLoop_cons]
    exact ih _ (atMostOne_reserveStep l q reason now h)

theorem atMostOne_applyResOp (st : ReserveState) (op : ResOp)
    (h : atMostOnePerPattern st.reservations) :
    atMostOnePerPattern (applyResOp st op).reservations := by
  cases op with
  | reserve ps reason now =>
    unfold applyResOp executeReserve
    by_cases hreg : st.registered = true
    · by_cases hemp : ps.isEmpty
      · simpa [hreg, hemp] using h
      · simp only [hreg, hemp]
        simp
        exact atMostOne_reserveLoop reason now ps _ h
    · simpa [hreg] using h
  | release ps =>
    cases ps with
    | none =>
      unfold applyResOp executeRelease
      by_cases hreg : st.registered = true
      · simp [hreg]
        intro p
        simp
      · simpa [hreg] using h
    | some ps =>
      unfold applyResOp executeRelease
      by_cases hreg : st.registered = true
      · simp only [hreg]
        simp
        intro p
        calc (st.reservations.filter (fun r => !decide (r.pattern ∈ ps))).countP
              (fun r => r.pattern == p)
            ≤ st.reservations.countP (fun r => r.pattern == p) := by
              rw [List.countP_filter]
              exact List.countP_mono_left (fun r _ hx => by
                simp at hx ⊢
                exact hx.1)
        _ ≤ 1 := h p
      · simpa [hreg] using h
theorem filter_reserveLoop_not_mem (reason : Option String) (now : String)
    (p : String) :
    ∀ (ps : List String) (l : List Reservation), p ∉ ps →
      (reserveLoop reason now l ps).filter (fun r => r.pattern == p)
        = l.filter (fun r => r.pattern == p) := by
  intro ps
  induction ps with
  | nil => intro l _; rfl
  | cons q ps ih =>
    intro l hp
    have hq : q ≠ p := fun h => hp (h ▸ List.mem_cons_self q ps)
    have hps : p ∉ ps := fun h => hp (List.mem_cons_of_mem _ h)
    rw [reserveLoop_cons, ih _ hps]
    unfold reserveStep
    rw [List.filter_append, List.filter_filter]
    have h1 : (([⟨q, reason, now⟩] : List Reservation)).filter
        (fun r => r.pattern == p) = [] := by
      simp [hq]
    rw [h1, List.append_nil]
    apply List.filter_congr
    intro r _
    by_cases hr : r.pattern = p
    · simp [hr, hq, (Ne.symm hq)]
    · simp [hr]

theorem filter_reserveLoop_mem (reason : Option String) (now : String)
    (p : String) :
    ∀ (ps : List String) (l : List Reservation), p ∈ ps →
      (reserveLoop reason now l ps).filter (fun r => r.pattern == p)
        = [⟨p, reason, now⟩] := by
  intro ps
  induction ps with
  | nil => intro l h; exact absurd h (List.not_mem_nil p)
  | cons q ps ih =>
    intro l hp
    rw [reserveLoop_cons]
    by_cases hmem : p ∈ ps
    · exact ih _ hmem
    · have hq : q = p := by
        rcases List.mem_cons.mp hp with h | h
        · exact h.symm
        · exact absurd h hmem
      subst hq
      rw [filter_reserveLoop_not_mem reason now q ps _ hmem]
      unfold reserveStep
      rw [List.filter_append]
      have h0 : (l.filter (fun r => r.pattern != q)).filter
          (fun r => r.pattern == q) = [] := by
        rw [List.filter_filter]
        rw [List.filter_eq_nil_iff]
        intro r _
        by_cases hr : r.pattern = q <;> simp [hr]
      rw [h0]
      simp

/-- C9: after any sequence of reserve/release operations starting from the
initial empty reservation list, each pattern has at most one entry; and
`executeReserve` with a pattern already reserved leaves exactly one entry
for it, carrying the new reason and the fresh timestamp. -/
theorem reservation_patterns_unique (registered : Bool) (ops : List ResOp)
    (st : ReserveState) (ps : List String) (reason : Option String)
    (now p : String) (hreg : st.registered = true) (hp : p ∈ ps) :
    (∀ q, ((applyResOps (initialReserveState registered) ops).reservations.countP
        (fun r => r.pattern == q)) ≤ 1)
    ∧ (executeReserve st ps reason now).1.reservations.filter
        (fun r => r.pattern == p) = [⟨p, reason, now⟩] := by
  constructor
  · have hfold : ∀ (l : List ResOp) (s : ReserveState),
        atMostOnePerPattern s.reservations →
        atMostOnePerPattern (applyResOps s l).reservations := by
      intro l
      induction l with
      | nil => intro s h; exact h
      | cons op l ih =>
        intro s h
        exact ih _ (atMostOne_applyResOp s op h)
    intro q
    exact hfold ops (initialReserveState registered) (fun r => by simp [initialReserveState]) q
  · have hemp : ¬ ps.isEmpty := by
      cases ps with
      | nil => exact absurd hp (List.not_mem_nil p)
      | cons a l => simp
    have h1 : (executeReserve st ps reason now).1
        = { st with reservations := reserveLoop reason now st.reservations ps } := by
      simp [executeReserve, hreg, hemp]
    rw [h1]
    exact filter_reserveLoop_mem reason now p ps st.reservations hp

/-- C9 witness: two reserves of the same pattern starting from the initial
state, and a replacement reserve over a state already holding the
pattern. -/
theorem reservation_patterns_unique_witness :
    ((⟨true, [⟨"a", some "old", "t0"⟩]⟩ : ReserveState).registered = true
       ∧ "a" ∈ ["a"])
    ∧ ((∀ q, ((applyResOps (initialReserveState true)
          [.reserve ["a"] none "t1", .reserve ["a"] (some "r2") "t2"]).reservations.countP
          (fun r => r.pattern == q)) ≤ 1)
      ∧ (executeReserve ⟨true, [⟨"a", some "old", "t0"⟩]⟩ ["a"] (some "r2") "t2").1.reservations.filter
          (fun r => r.pattern == "a") = [⟨"a", some "r2", "t2"⟩]) :=
  ⟨⟨rfl, by decide⟩,
   reservation_patterns_unique true
     [.reserve ["a"] none "t1", .reserve ["a"] (some "r2") "t2"]
     ⟨true, [⟨"a", some "old", "t0"⟩]⟩ ["a"] (some "r2") "t2" "a" rfl (by decide)⟩

/-! ### C8 — unknown and omitted actions -/

/-- C8, counterexample. -/
theorem dispatch_unknown_action_cex :
    dispatch true ⟨some "frobnicate", none, none, none, none, none⟩
        = .immediate "error" (some "unknown_action")
    ∧ dispatch true ⟨some "frobnicate", none, none, none, none, none⟩
        ≠ statusResult true := by
  constructor
  · rfl
  · decide

/-- C8, amended: an omitted action — and likewise the empty-string action,
which the `if (!action)` guard treats as falsy — returns the status
result, while an unknown non-empty action string returns the
`unknown_action` error (the `not_registered` error when unregistered). -/
theorem dispatch_omitted_unknown (registered : Bool) (p q r : DispatchParams)
    (a : String) (ha : p.action = some a) (hu : a ∉ knownActions)
    (hne : a ≠ "") (hq : q.action = none) (hr : r.action = some "") :
    dispatch registered p
      = (if registered then .immediate "error" (some "unknown_action")
         else .immediate "error" (some "not_registered"))
    ∧ dispatch registered q = statusResult registered
    ∧ dispatch registered r = statusResult registered := by
  refine ⟨?_, ?_, ?_⟩
  · simp only [knownActions, List.mem_cons, List.not_mem_nil, or_false] at hu
    push_neg at hu
    obtain ⟨h1, h2, h3, h4, h5, h6, h7, h8, h9, h10, h11, h12, h13, h14, h15, h16, h17⟩ := hu
    unfold dispatch
    rw [ha]
    cases registered with
    | false =>
      simp [hne, h1, h2]
    | true =>
      simp [hne, h1, h2, h3, h4, h5, h6, h7, h8, h9, h10, h11, h12, h13, h14, h15, h16, h17]
  · unfold dispatch
    rw [hq]
  · unfold dispatch
    rw [hr]
    rfl

/-- C8 witness for the amended theorem. -/
theorem dispatch_omitted_unknown_witness :
    ((⟨some "epic.create", none, none, none, none, none⟩ : DispatchParams).action
        = some "epic.create"
      ∧ "epic.create" ∉ knownActions
      ∧ "epic.create" ≠ ""
      ∧ (⟨none, none, none, none, none, none⟩ : DispatchParams).action = none
      ∧ (⟨some "", none, none, none, none, none⟩ : DispatchParams).action
          = some "")
    ∧ (dispatch true ⟨some "epic.create", none, none, none, none, none⟩
        = (if true then .immediate "error" (some "unknown_action")
           else .immediate "error" (some "not_registered"))
      ∧ dispatch true ⟨none, none, none, none, none, none⟩ = statusResult true
      ∧ dispatch true ⟨some "", none, none, none, none, none⟩
          = statusResult true) :=
  ⟨⟨rfl, by decide, by decide, rfl, rfl⟩,
    dispatch_omitted_unknown true _ _ _ "epic.create" rfl (by decide)
      (by decide) rfl rfl⟩

/-! ### C1 — echo-loop suppression timing -/

theorem alGet_alSet_self {α : Type} (l : List (String × α)) (k : String) (v : α) :
    alGet (alSet l k v) k = some v := by
  unfold alGet alSet
  by_cases h : l.any (fun e => e.1 == k)
  · simp only [h, if_true]
    induction l with
    | nil => simp at h
    | cons e l ih =>
      by_cases he : e.1 = k
      · simp [he]
      · have hl : l.any (fun e => e.1 == k) = true := by
          rcases List.any_eq_true.mp h with ⟨x, hx, hbx⟩
          rcases List.mem_cons.mp hx with rfl | hx
          · exact absurd (by simpa using hbx) he
          · exact List.any_eq_true.mpr ⟨x, hx, hbx⟩
        have hfalse : (e.1 == k) = false := by simpa using he
        rw [List.map_cons, hfalse]
        simp only [Bool.false_eq_true, if_false]
        rw [List.find?_cons_of_neg _ (by simp [hfalse])]
        exact ih hl
  · simp only [h, if_false, Bool.false_eq_true, ite_false]
    induction l with
    | nil => simp
    | cons e l ih =>
      have hne : (e.1 == k) = false := by
        by_contra hc
        rw [Bool.not_eq_false] at hc
        exact h (List.any_eq_true.mpr ⟨e, List.mem_cons_self e l, hc⟩)
      have hl : ¬ l.any (fun e => e.1 == k) = true := by
        intro hc
        rcases List.any_eq_true.mp hc with ⟨x, hx, hbx⟩
        exact h (List.any_eq_true.mpr ⟨x, List.mem_cons_of_mem _ hx, hbx⟩)
      rw [List.cons_append, List.find?_cons_of_neg _ (by simp [hne])]
      exact ih hl

theorem deliverMessage_recent (cfg : DeliverConfig) (now : Nat)
    (i : Option SenderInfo) (m : MailMessage) (st : DeliverState) :
    (deliverMessage cfg now i m st).1.recentExchanges
      = alSet st.recentExchanges m.sender
          ((((alGet st.recentExchanges m.sender).getD []).filter
              (fun t => now - t < LOOP_WINDOW_MS)) ++ [now]) := by
  unfold deliverMessage isEchoLoop
  cases i <;> dsimp <;> split <;> rfl

theorem deliverMessage_trigger (cfg : DeliverConfig) (now : Nat)
    (i : Option SenderInfo) (m : MailMessage) (st : DeliverState) :
    ((deliverMessage cfg now i m st).2.triggerTurn = true ↔
      ((((alGet st.recentExchanges m.sender).getD []).filter
          (fun t => now - t < LOOP_WINDOW_MS)) ++ [now]).length
        < LOOP_MAX_EXCHANGES) := by
  unfold deliverMessage isEchoLoop
  cases i <;> dsimp <;> split <;> rename_i hcond <;> simp_all

theorem deliverMessage_suppressed_content (cfg : DeliverConfig) (now : Nat)
    (i : Option SenderInfo) (m : MailMessage) (st : DeliverState)
    (h : (deliverMessage cfg now i m st).2.triggerTurn = false) :
    ∃ c, (deliverMessage cfg now i m st).2.content = c ++ suppressionNote m.sender := by
  revert h
  unfold deliverMessage isEchoLoop
  cases i <;> dsimp <;> split <;> intro h
  · exact ⟨_, rfl⟩
  · exact absurd h (by simp)
  · exact ⟨_, rfl⟩
  · exact absurd h (by simp)
/-- C1 counterexample. -/
theorem deliver_rapid_messages_cex :
    ((deliverRun ⟨false, false⟩ freshDeliverState rapidScenario).2.map
        (fun d => d.triggerTurn)) = [true, true, false, false]
    ∧ ((deliverRun ⟨false, false⟩ freshDeliverState rapidScenario).2.get? 2).map
        (fun d => d.content)
      = some ("**Message from A**\n\nmessage three" ++ suppressionNote "A") := by
  constructor
  · decide
  · decide

/-- C1 amended. -/
theorem deliver_rapid_messages_amended
    (cfg : DeliverConfig) (st : DeliverState) (A : String)
    (i1 i2 i3 i4 : Option SenderInfo) (m1 m2 m3 m4 : MailMessage)
    (t1 t2 t3 t4 : Nat)
    (hA1 : m1.sender = A) (hA2 : m2.sender = A) (hA3 : m3.sender = A)
    (hA4 : m4.sender = A)
    (h0 : alGet st.recentExchanges A = none)
    (h12 : t1 ≤ t2) (h23 : t2 ≤ t3) (h34 : t3 ≤ t4) (hwin : t4 - t1 ≤ 5000) :
    (deliverMessage cfg t1 i1 m1 st).2.triggerTurn = true
    ∧ (deliverMessage cfg t2 i2 m2
        (deliverMessage cfg t1 i1 m1 st).1).2.triggerTurn = true
    ∧ (deliverMessage cfg t3 i3 m3
        (deliverMessage cfg t2 i2 m2
          (deliverMessage cfg t1 i1 m1 st).1).1).2.triggerTurn = false
    ∧ (deliverMessage cfg t4 i4 m4
        (deliverMessage cfg t3 i3 m3
          (deliverMessage cfg t2 i2 m2
            (deliverMessage cfg t1 i1 m1 st).1).1).1).2.triggerTurn = false
    ∧ (∃ c, (deliverMessage cfg t3 i3 m3
        (deliverMessage cfg t2 i2 m2
          (deliverMessage cfg t1 i1 m1 st).1).1).2.content
        = c ++ suppressionNote A)
    ∧ (∃ c, (deliverMessage cfg t4 i4 m4
        (deliverMessage cfg t3 i3 m3
          (deliverMessage cfg t2 i2 m2
            (deliverMessage cfg t1 i1 m1 st).1).1).1).2.content
        = c ++ suppressionNote A) := by
  have e21 : t2 - t1 < LOOP_WINDOW_MS := by unfold LOOP_WINDOW_MS; omega
  have e31 : t3 - t1 < LOOP_WINDOW_MS := by unfold LOOP_WINDOW_MS; omega
  have e32 : t3 - t2 < LOOP_WINDOW_MS := by unfold LOOP_WINDOW_MS; omega
  have e41 : t4 - t1 < LOOP_WINDOW_MS := by unfold LOOP_WINDOW_MS; omega
  have e42 : t4 - t2 < LOOP_WINDOW_MS := by unfold LOOP_WINDOW_MS; omega
  have e43 : t4 - t3 < LOOP_WINDOW_MS := by unfold LOOP_WINDOW_MS; omega
  set r1 := deliverMessage cfg t1 i1 m1 st with hr1
  set r2 := deliverMessage cfg t2 i2 m2 r1.1 with hr2
  set r3 := deliverMessage cfg t3 i3 m3 r2.1 with hr3
  set r4 := deliverMessage cfg t4 i4 m4 r3.1 with hr4
  have k1 : r1.1.recentExchanges = alSet st.recentExchanges A [t1] := by
    rw [hr1, deliverMessage_recent, hA1, h0]
    rfl
  have g1 : alGet r1.1.recentExchanges A = some [t1] := by
    rw [k1]; exact alGet_alSet_self _ _ _
  have k2 : r2.1.recentExchanges = alSet r1.1.recentExchanges A [t1, t2] := by
    rw [hr2, deliverMessage_recent, hA2, g1]
    simp [e21]
  have g2 : alGet r2.1.recentExchanges A = some [t1, t2] := by
    rw [k2]; exact alGet_alSet_self _ _ _
  have k3 : r3.1.recentExchanges = alSet r2.1.recentExchanges A [t1, t2, t3] := by
    rw [hr3, deliverMessage_recent, hA3, g2]
    simp [e31, e32]
  have g3 : alGet r3.1.recentExchanges A = some [t1, t2, t3] := by
    rw [k3]; exact alGet_alSet_self _ _ _
  have w1 : r1.2.triggerTurn = true := by
    rw [hr1, (deliverMessage_trigger cfg t1 i1 m1 st), hA1, h0]
    simp [LOOP_MAX_EXCHANGES]
  have w2 : r2.2.triggerTurn = true := by
    rw [hr2, (deliverMessage_trigger cfg t2 i2 m2 r1.1), hA2, g1]
    simp [e21, LOOP_MAX_EXCHANGES]
  have w3 : r3.2.triggerTurn = false := by
    rw [hr3]
    rw [Bool.eq_false_iff]
    intro hc
    have hx := (deliverMessage_trigger cfg t3 i3 m3 r2.1).mp hc
    rw [hA3, g2] at hx
    simp [e31, e32, LOOP_MAX_EXCHANGES] at hx
  have w4 : r4.2.triggerTurn = false := by
    rw [hr4]
    rw [Bool.eq_false_iff]
    intro hc
    have hx := (deliverMessage_trigger cfg t4 i4 m4 r3.1).mp hc
    rw [hA4, g3] at hx
    simp [e41, e42, e43, LOOP_MAX_EXCHANGES] at hx
  have c3 : ∃ c, r3.2.content = c ++ suppressionNote A := by
    rw [← hA3, hr3]
    exact deliverMessage_suppressed_content cfg t3 i3 m3 r2.1 (hr3 ▸ w3)
  have c4 : ∃ c, r4.2.content = c ++ suppressionNote A := by
    rw [← hA4, hr4]
    exact deliverMessage_suppressed_content cfg t4 i4 m4 r3.1 (hr4 ▸ w4)
  exact ⟨w1, w2, w3, w4, c3, c4⟩
/-- C1 witness for the amended theorem: the concrete S7 scenario. -/
theorem deliver_rapid_messages_witness :
    (rapidMsg1.sender = "A" ∧ rapidMsg2.sender = "A" ∧ rapidMsg3.sender = "A"
      ∧ rapidMsg4.sender = "A"
      ∧ alGet freshDeliverState.recentExchanges "A" = none
      ∧ (0:Nat) ≤ 1000 ∧ (1000:Nat) ≤ 2000 ∧ (2000:Nat) ≤ 3000
      ∧ (3000:Nat) - 0 ≤ 5000)
    ∧ ((deliverMessage ⟨false, false⟩ 0 none rapidMsg1
          freshDeliverState).2.triggerTurn = true
      ∧ (deliverMessage ⟨false, false⟩ 1000 none rapidMsg2
          (deliverMessage ⟨false, false⟩ 0 none rapidMsg1
            freshDeliverState).1).2.triggerTurn = true
      ∧ (deliverMessage ⟨false, false⟩ 2000 none rapidMsg3
          (deliverMessage ⟨false, false⟩ 1000 none rapidMsg2
            (deliverMessage ⟨false, false⟩ 0 none rapidMsg1
              freshDeliverState).1).1).2.triggerTurn = false
      ∧ (deliverMessage ⟨false, false⟩ 3000 none rapidMsg4
          (deliverMessage ⟨false, false⟩ 2000 none rapidMsg3
            (deliverMessage ⟨false, false⟩ 1000 none rapidMsg2
              (deliverMessage ⟨false, false⟩ 0 none rapidMsg1
                freshDeliverState).1).1).1).2.triggerTurn = false
      ∧ (∃ c, (deliverMessage ⟨false, false⟩ 2000 none rapidMsg3
          (deliverMessage ⟨false, false⟩ 1000 none rapidMsg2
            (deliverMessage ⟨false, false⟩ 0 none rapidMsg1
              freshDeliverState).1).1).2.content = c ++ suppressionNote "A")
      ∧ (∃ c, (deliverMessage ⟨false, false⟩ 3000 none rapidMsg4
          (deliverMessage ⟨false, false⟩ 2000 none rapidMsg3
            (deliverMessage ⟨false, false⟩ 1000 none rapidMsg2
              (deliverMessage ⟨false, false⟩ 0 none rapidMsg1
                freshDeliverState).1).1).1).2.content = c ++ suppressionNote "A")) :=
  ⟨⟨rfl, rfl, rfl, rfl, rfl, by omega, by omega, by omega, by omega⟩,
   deliver_rapid_messages_amended ⟨false, false⟩ freshDeliverState "A"
     none none none none rapidMsg1 rapidMsg2 rapidMsg3 rapidMsg4
     0 1000 2000 3000 rfl rfl rfl rfl rfl
     (by omega) (by omega) (by omega) (by omega)⟩

end Messenger

namespace Crew
section KeyedLemmas
variable {α κ : Type} [BEq κ] (key : α → κ)

theorem putKeyed_of_any (l : List α) (x : α)
    (h : l.any (fun u => key u == key x) = true) :
    putKeyed key l x = l.map (fun u => if key u == key x then x else u) := by
  unfold putKeyed
  rw [if_pos h]

theorem putKeyed_of_not_any (l : List α) (x : α)
    (h : ¬ l.any (fun u => key u == key x) = true) :
    putKeyed key l x = l ++ [x] := by
  unfold putKeyed
  rw [if_neg h]

theorem find?_putKeyed_self [LawfulBEq κ] (l : List α) (x : α) :
    (putKeyed key l x).find? (fun u => key u == key x) = some x := by
  by_cases h : l.any (fun u => key u == key x) = true
  · rw [putKeyed_of_any key l x h]
    induction l with
    | nil => simp at h
    | cons u l ih =>
      by_cases hu : key u = key x
      · simp [hu]
      · have hfalse : (key u == key x) = false := by simpa using hu
        have hl : l.any (fun u => key u == key x) = true := by
          rcases List.any_eq_true.mp h with ⟨y, hy, hby⟩
          rcases List.mem_cons.mp hy with rfl | hy
          · exact absurd (by simpa using hby) hu
          · exact List.any_eq_true.mpr ⟨y, hy, hby⟩
        rw [List.map_cons, hfalse]
        simp only [Bool.false_eq_true, if_false]
        rw [List.find?_cons_of_neg _ (by simp [hfalse])]
        exact ih hl
  · rw [putKeyed_of_not_any key l x h]
    induction l with
    | nil => simp
    | cons u l ih =>
      have hfalse : (key u == key x) = false := by
        by_contra hc
        rw [Bool.not_eq_false] at hc
        exact h (List.any_eq_true.mpr ⟨u, List.mem_cons_self u l, hc⟩)
      have hl : ¬ l.any (fun u => key u == key x) = true := by
        intro hc
        rcases List.any_eq_true.mp hc with ⟨y, hy, hby⟩
        exact h (List.any_eq_true.mpr ⟨y, List.mem_cons_of_mem _ hy, hby⟩)
      rw [List.cons_append, List.find?_cons_of_neg _ (by simp [hfalse])]
      exact ih hl

theorem find?_putKeyed_ne [LawfulBEq κ] (l : List α) (x : α) (k : κ) (hk : k ≠ key x) :
    (putKeyed key l x).find? (fun u => key u == k)
      = l.find? (fun u => key u == k) := by
  by_cases h : l.any (fun u => key u == key x) = true
  · rw [putKeyed_of_any key l x h]
    clear h
    induction l with
    | nil => rfl
    | cons u l ih =>
      rw [List.map_cons]
      by_cases hu : key u = key x
      · have h1 : (key u == key x) = true := by simpa using hu
        rw [h1]
        simp only [if_true]
        have h2 : (key x == k) = false := by simpa using (Ne.symm hk)
        have h3 : (key u == k) = false := by
          rw [hu]; exact h2
        rw [List.find?_cons_of_neg _ (by simp [h2]),
          List.find?_cons_of_neg _ (by simp [h3])]
        exact ih
      · have h1 : (key u == key x) = false := by simpa using hu
        rw [h1]
        simp only [Bool.false_eq_true, if_false]
        by_cases hu2 : key u = k
        · have h2 : (key u == k) = true := by simpa using hu2
          rw [List.find?_cons_of_pos _ (by simp [h2]),
            List.find?_cons_of_pos _ (by simp [h2])]
        · have h2 : (key u == k) = false := by simpa using hu2
          rw [List.find?_cons_of_neg _ (by simp [h2]),
            List.find?_cons_of_neg _ (by simp [h2])]
          exact ih
  · rw [putKeyed_of_not_any key l x h]
    rw [List.find?_append]
    have h2 : ([x].find? (fun u => key u == k)) = none := by
      have : (key x == k) = false := by simpa using (Ne.symm hk)
      simp [List.find?, this]
    rw [h2]
    cases l.find? (fun u => key u == k) <;> rfl

theorem mem_putKeyed [LawfulBEq κ] (l : List α) (x y : α) (hy : y ∈ putKeyed key l x) :
    y = x ∨ (y ∈ l ∧ key y ≠ key x) := by
  by_cases h : l.any (fun u => key u == key x) = true
  · rw [putKeyed_of_any key l x h] at hy
    rcases List.mem_map.mp hy with ⟨u, hu, he⟩
    by_cases hk : key u = key x
    · left
      rw [← he]
      simp [hk]
    · right
      have h1 : (key u == key x) = false := by simpa using hk
      rw [← he, h1]
      simp only [Bool.false_eq_true, if_false]
      exact ⟨hu, hk⟩
  · rw [putKeyed_of_not_any key l x h] at hy
    rcases List.mem_append.mp hy with hy | hy
    · right
      refine ⟨hy, ?_⟩
      intro hc
      exact h (List.any_eq_true.mpr ⟨y, hy, by simpa using hc⟩)
    · left
      simpa using hy

theorem map_key_putKeyed_of_any [LawfulBEq κ] (l : List α) (x : α)
    (h : l.any (fun u => key u == key x) = true) :
    (putKeyed key l x).map key = l.map key := by
  rw [putKeyed_of_any key l x h, List.map_map]
  apply List.map_congr_left
  intro u _
  by_cases hu : key u = key x
  · simp [hu]
  · simp [hu]

theorem map_ite_eq_self [LawfulBEq κ] (l : List α) (x : α)
    (h : ∀ v ∈ l, key v ≠ key x) :
    l.map (fun u => if key u == key x then x else u) = l := by
  induction l with
  | nil => rfl
  | cons u l ih =>
    have h1 : (key u == key x) = false := by
      simpa using h u (List.mem_cons_self u l)
    rw [List.map_cons, h1]
    simp only [Bool.false_eq_true, if_false]
    rw [ih (fun v hv => h v (List.mem_cons_of_mem _ hv))]

theorem countP_putKeyed_found [LawfulBEq κ] (l : List α) (x y : α) (p : α → Bool)
    (hnd : (l.map key).Nodup) (hy : y ∈ l) (hkey : key y = key x) :
    (putKeyed key l x).countP p + (if p y then 1 else 0)
      = l.countP p + (if p x then 1 else 0) := by
  have hany : l.any (fun u => key u == key x) = true :=
    List.any_eq_true.mpr ⟨y, hy, by simpa using hkey⟩
  rw [putKeyed_of_any key l x hany]
  clear hany
  induction l with
  | nil => simp at hy
  | cons u l ih =>
    simp only [List.map_cons, List.nodup_cons] at hnd
    obtain ⟨hknotin, hnd2⟩ := hnd
    rcases List.mem_cons.mp hy with rfl | hy2
    · have h1 : (key y == key x) = true := by simpa using hkey
      simp only [List.map_cons, h1, if_true]
      have hrest : l.map (fun u => if key u == key x then x else u) = l := by
        apply map_ite_eq_self
        intro v hv
        intro hc
        apply hknotin
        rw [hkey, ← hc]
        exact List.mem_map.mpr ⟨v, hv, rfl⟩
      rw [hrest]
      rw [List.countP_cons, List.countP_cons]
      by_cases hpx : p x = true <;> by_cases hpy : p y = true <;>
        simp [hpx, hpy]
    · have hkeyu : key u ≠ key x := by
        intro hc
        apply hknotin
        rw [hc, ← hkey]
        exact List.mem_map.mpr ⟨y, hy2, rfl⟩
      have h1 : (key u == key x) = false := by simpa using hkeyu
      simp only [List.map_cons, h1, Bool.false_eq_true, if_false]
      rw [List.countP_cons, List.countP_cons]
      have := ih hnd2 hy2
      omega

theorem countP_putKeyed_new [LawfulBEq κ] (l : List α) (x : α) (p : α → Bool)
    (h : ∀ y ∈ l, key y ≠ key x) :
    (putKeyed key l x).countP p = l.countP p + (if p x then 1 else 0) := by
  have hany : ¬ l.any (fun u => key u == key x) = true := by
    intro hc
    rcases List.any_eq_true.mp hc with ⟨y, hy, hby⟩
    exact h y hy (by simpa using hby)
  rw [putKeyed_of_not_any key l x hany, List.countP_append]
  simp [List.countP_cons]

end KeyedLemmas
end Crew

namespace Crew

theorem setKey_eq_putKeyed {κ α : Type} [BEq κ]
    (l : List (κ × α)) (k : κ) (v : α) :
    setKey l k v = putKeyed (fun e => e.1) l (k, v) := rfl

theorem lookupKey_setKey_self {κ α : Type} [BEq κ] [LawfulBEq κ]
    (l : List (κ × α)) (k : κ) (v : α) :
    lookupKey (setKey l k v) k = some v := by
  rw [setKey_eq_putKeyed]
  unfold lookupKey
  have h := find?_putKeyed_self (fun (e : κ × α) => e.1) l (k, v)
  rw [h]
  rfl

theorem lookupKey_setKey_ne {κ α : Type} [BEq κ] [LawfulBEq κ]
    (l : List (κ × α)) (k k2 : κ) (v : α) (hk : k2 ≠ k) :
    lookupKey (setKey l k v) k2 = lookupKey l k2 := by
  rw [setKey_eq_putKeyed]
  unfold lookupKey
  rw [find?_putKeyed_ne (fun (e : κ × α) => e.1) l (k, v) k2 hk]

theorem getTask_eq_find (s : Store) (k : TaskId) :
    getTask s k = s.tasks.find? (fun u => u.id == k) := rfl

theorem getTask_some_mem (s : Store) (k : TaskId) (y : Task)
    (h : getTask s k = some y) : y ∈ s.tasks ∧ y.id = k := by
  rw [getTask_eq_find] at h
  refine ⟨List.mem_of_find?_eq_some h, ?_⟩
  have := List.find?_some h
  simpa using this

theorem find?_putTask_self (ts : List Task) (t : Task) :
    (putTask ts t).find? (fun u => u.id == t.id) = some t :=
  find?_putKeyed_self (fun (u : Task) => u.id) ts t

theorem find?_putTask_ne (ts : List Task) (t : Task) (k : TaskId)
    (hk : k ≠ t.id) :
    (putTask ts t).find? (fun u => u.id == k) = ts.find? (fun u => u.id == k) :=
  find?_putKeyed_ne (fun (u : Task) => u.id) ts t k hk

theorem find?_putEpic_self (es : List Epic) (e : Epic) :
    (putEpic es e).find? (fun u => u.id == e.id) = some e :=
  find?_putKeyed_self (fun (u : Epic) => u.id) es e

theorem find?_putEpic_ne (es : List Epic) (e : Epic) (k : String)
    (hk : k ≠ e.id) :
    (putEpic es e).find? (fun u => u.id == k) = es.find? (fun u => u.id == k) :=
  find?_putKeyed_ne (fun (u : Epic) => u.id) es e k hk

theorem insertByNum_perm (t : Task) (l : List Task) :
    (insertByNum t l).Perm (t :: l) := by
  induction l with
  | nil => exact List.Perm.refl _
  | cons u us ih =>
    unfold insertByNum
    by_cases h : t.id.2 ≤ u.id.2
    · rw [if_pos h]
    · rw [if_neg h]
      exact (List.Perm.cons u ih).trans (List.Perm.swap t u us)

theorem sortByNum_perm (l : List Task) : (sortByNum l).Perm l := by
  induction l with
  | nil => exact List.Perm.refl _
  | cons t ts ih =>
    unfold sortByNum
    exact (insertByNum_perm t (sortByNum ts)).trans (List.Perm.cons t ih)

theorem mem_getTasks (s : Store) (E : String) (t : Task) :
    t ∈ getTasks s E ↔ t ∈ s.tasks ∧ t.epic_id = E := by
  unfold getTasks
  rw [(sortByNum_perm _).mem_iff]
  rw [List.mem_filter]
  simp

theorem length_getTasks (s : Store) (E : String) :
    (getTasks s E).length = (s.tasks.filter (fun t => t.epic_id == E)).length :=
  (sortByNum_perm _).length_eq

theorem countP_getTasks (s : Store) (E : String) (p : Task → Bool) :
    (getTasks s E).countP p = (s.tasks.filter (fun t => t.epic_id == E)).countP p :=
  (sortByNum_perm _).countP_eq p

theorem filter_getTasks_length (s : Store) (E : String) (p : Task → Bool) :
    ((getTasks s E).filter p).length
      = s.tasks.countP (fun t => p t && (t.epic_id == E)) := by
  rw [← List.countP_eq_length_filter, countP_getTasks, List.countP_filter]

/-- C5: `getReadyTasks` returns exactly the tasks of the epic in status
`todo` all of whose dependencies are tasks of the epic in status `done`. -/
theorem getReadyTasks_spec (s : Store) (E : String) (t : Task) :
    t ∈ getReadyTasks s E ↔
      (t ∈ getTasks s E ∧ t.status = .todo ∧
        ∀ d ∈ t.depends_on, ∃ u, u ∈ getTasks s E ∧ u.id = d ∧ u.status = .done) := by
  unfold getReadyTasks
  rw [List.mem_filter]
  constructor
  · rintro ⟨hmem, hcond⟩
    rw [Bool.and_eq_true] at hcond
    obtain ⟨hst, hall⟩ := hcond
    refine ⟨hmem, by simpa using hst, ?_⟩
    intro d hd
    have := (List.all_eq_true.mp hall) d hd
    rw [List.contains_iff_exists_mem_beq] at this
    obtain ⟨i, hi, hbeq⟩ := this
    rcases List.mem_map.mp (by exact hi) with ⟨u, hu, rfl⟩
    have hu2 := List.mem_filter.mp hu
    have hd : d = u.id := by simpa using hbeq
    exact ⟨u, hu2.1, hd.symm, by simpa using hu2.2⟩
  · rintro ⟨hmem, hst, hdeps⟩
    refine ⟨hmem, ?_⟩
    rw [Bool.and_eq_true]
    refine ⟨by simp [hst], ?_⟩
    rw [List.all_eq_true]
    intro d hd
    obtain ⟨u, hu, huid, hust⟩ := hdeps d hd
    rw [List.contains_iff_exists_mem_beq]
    refine ⟨d, ?_, by simp⟩
    apply List.mem_map.mpr
    refine ⟨u, ?_, huid⟩
    rw [List.mem_filter]
    exact ⟨hu, by simp [hust]⟩

end Crew

namespace Crew

theorem getEpic_id (s : Store) (E : String) (e : Epic)
    (he : getEpic s E = some e) : e.id = E := by
  have := List.find?_some he
  simpa using this

theorem getEpic_mem (s : Store) (E : String) (e : Epic)
    (he : getEpic s E = some e) : e ∈ s.epics :=
  List.mem_of_find?_eq_some he

theorem updateEpic_found (s : Store) (now : String) (E : String) (e : Epic)
    (p : EpicPatch) (he : getEpic s E = some e) :
    updateEpic s now E p
      = ({ s with epics := putEpic s.epics { applyEpicPatch e p with updated_at := now } },
         some { applyEpicPatch e p with updated_at := now }) := by
  unfold updateEpic
  rw [he]

theorem getEpic_putEpic_self (s : Store) (e : Epic) (E : String)
    (hid : e.id = E) :
    getEpic { s with epics := putEpic s.epics e } E = some e := by
  unfold getEpic
  dsimp only
  rw [← hid]
  exact find?_putEpic_self s.epics e

theorem getEpic_putEpic_ne (s : Store) (e : Epic) (E : String)
    (hid : E ≠ e.id) :
    getEpic { s with epics := putEpic s.epics e } E = getEpic s E := by
  unfold getEpic
  dsimp only
  exact find?_putEpic_ne s.epics e E hid

/-- C6: for an existing epic, `epic.close` succeeds — setting status
`completed` and recording `closed_at` — exactly when every task of the
epic is `done`; otherwise it returns the `incomplete_tasks` error listing
the incomplete tasks and leaves the store unchanged. -/
theorem epicClose_iff_all_done (s : Store) (now : String) (E : String)
    (e : Epic) (he : getEpic s E = some e) :
    ((∀ t ∈ getTasks s E, t.status = .done) →
        (epicCloseAction s now (some E)).2
            = .success { e with status := .completed, closed_at := some now, updated_at := now }
          ∧ getEpic (epicCloseAction s now (some E)).1 E
            = some { e with status := .completed, closed_at := some now, updated_at := now })
    ∧ ((∃ t ∈ getTasks s E, ¬ t.status = .done) →
        (epicCloseAction s now (some E)).1 = s
          ∧ (epicCloseAction s now (some E)).2
            = .incomplete (((getTasks s E).filter
                (fun t => t.status != .done)).map (fun t => (t.id, t.status)))) := by
  constructor
  · intro hdone
    have hnil : (getTasks s E).filter (fun t => t.status != .done) = [] := by
      rw [List.filter_eq_nil_iff]
      intro t ht
      simp [hdone t ht]
    have hall : (getTasks s E).all (fun t => t.status == .done) = true := by
      rw [List.all_eq_true]
      intro t ht
      simp [hdone t ht]
    have hup := updateEpic_found s now E e
      ⟨some .completed, some (some now), none, none⟩ he
    have hcE : closeEpic s now E
        = updateEpic s now E ⟨some .completed, some (some now), none, none⟩ := by
      unfold closeEpic
      rw [he, hall]
      simp
    have hact : epicCloseAction s now (some E)
        = ((updateEpic s now E ⟨some .completed, some (some now), none, none⟩).1,
           .success { applyEpicPatch e ⟨some .completed, some (some now), none, none⟩ with updated_at := now }) := by
      unfold epicCloseAction
      dsimp only
      rw [he, hnil]
      simp only [List.length_nil, gt_iff_lt, Nat.lt_irrefl, if_false,
        Bool.false_eq_true, ite_false]
      rw [hcE, hup]
    have hrec : ({ applyEpicPatch e ⟨some .completed, some (some now), none, none⟩ with updated_at := now } : Epic)
        = { e with status := .completed, closed_at := some now, updated_at := now } := rfl
    rw [hact, hup, hrec]
    refine ⟨by trivial, ?_⟩
    apply getEpic_putEpic_self
    exact getEpic_id s E e he
  · rintro ⟨t, ht, hts⟩
    have hmem : t ∈ (getTasks s E).filter (fun t => t.status != .done) := by
      rw [List.mem_filter]
      exact ⟨ht, by simpa using hts⟩
    have hpos : 0 < ((getTasks s E).filter (fun t => t.status != .done)).length :=
      List.length_pos_of_mem hmem
    unfold epicCloseAction
    dsimp only
    rw [he]
    simp only [gt_iff_lt, hpos, if_true, ite_true]
    exact ⟨by trivial, by trivial⟩

/-- C6 witness: the one-done-task epic closes successfully. -/
theorem epicClose_iff_all_done_witness :
    (getEpic closeWitnessStore "c-1-abc" = some closeWitnessEpic
      ∧ (∀ t ∈ getTasks closeWitnessStore "c-1-abc", t.status = .done))
    ∧ ((epicCloseAction closeWitnessStore "t1" (some "c-1-abc")).2
        = .success { closeWitnessEpic with status := .completed, closed_at := some "t1", updated_at := "t1" }
      ∧ getEpic (epicCloseAction closeWitnessStore "t1" (some "c-1-abc")).1 "c-1-abc"
        = some { closeWitnessEpic with status := .completed, closed_at := some "t1", updated_at := "t1" }) :=
  ⟨⟨by decide, by decide⟩,
   (epicClose_iff_all_done closeWitnessStore "t1" "c-1-abc" closeWitnessEpic
     (by decide)).1 (by decide)⟩
end Crew

namespace Crew

theorem resetTaskFuel_zero (s : Store) (now : String) (tid : TaskId)
    (c : Bool) : resetTaskFuel 0 s now tid c = none := rfl

theorem resetTaskFuel_succ (fuel : Nat) (s : Store) (now : String)
    (tid : TaskId) (c : Bool) :
    resetTaskFuel (fuel + 1) s now tid c
      = match getTask s tid with
        | none => some (s, [])
        | some task =>
          match (if c then
              (getTasks (updateTask s now tid resetPatch).1 task.epic_id).foldl
                (cascadeStep fuel now tid)
                (some ((updateTask s now tid resetPatch).1,
                  (updateTask s now tid resetPatch).2.toList))
            else some ((updateTask s now tid resetPatch).1,
              (updateTask s now tid resetPatch).2.toList)) with
          | none => none
          | some r2 => some (resetEpilogue now task.epic_id r2) := rfl

theorem foldl_cascadeStep_none (fuel : Nat) (now : String) (tid : TaskId)
    (l : List Task) :
    l.foldl (cascadeStep fuel now tid) none = none := by
  induction l with
  | nil => rfl
  | cons t rest ih =>
    rw [List.foldl_cons]
    exact ih

theorem updateTask_epics (s : Store) (now : String) (tid : TaskId)
    (p : TaskPatch) : (updateTask s now tid p).1.epics = s.epics := by
  unfold updateTask
  cases getTask s tid <;> rfl

theorem updateTask_sides (s : Store) (now : String) (tid : TaskId)
    (p : TaskPatch) :
    (updateTask s now tid p).1.epicSpecs = s.epicSpecs
      ∧ (updateTask s now tid p).1.taskSpecs = s.taskSpecs
      ∧ (updateTask s now tid p).1.blocks = s.blocks
      ∧ (updateTask s now tid p).1.checkpoints = s.checkpoints := by
  unfold updateTask
  cases getTask s tid <;> exact ⟨rfl, rfl, rfl, rfl⟩

theorem updateEpic_tasks (s : Store) (now : String) (E : String)
    (p : EpicPatch) : (updateEpic s now E p).1.tasks = s.tasks := by
  unfold updateEpic
  cases getEpic s E <;> rfl

theorem updateEpic_sides (s : Store) (now : String) (E : String)
    (p : EpicPatch) :
    (updateEpic s now E p).1.epicSpecs = s.epicSpecs
      ∧ (updateEpic s now E p).1.taskSpecs = s.taskSpecs
      ∧ (updateEpic s now E p).1.blocks = s.blocks
      ∧ (updateEpic s now E p).1.checkpoints = s.checkpoints := by
  unfold updateEpic
  cases getEpic s E <;> exact ⟨rfl, rfl, rfl, rfl⟩

theorem resetEpilogue_tasks (now E : String) (r : Store × List Task) :
    (resetEpilogue now E r).1.tasks = r.1.tasks
      ∧ (resetEpilogue now E r).2 = r.2 := by
  unfold resetEpilogue
  by_cases h : r.2.length > 0
  · rw [if_pos h]
    cases hg : getEpic r.1 E
    · exact ⟨rfl, rfl⟩
    · exact ⟨updateEpic_tasks _ _ _ _, rfl⟩
  · rw [if_neg h]
    exact ⟨rfl, rfl⟩

theorem todoStep_refl (l : List Task) : List.Forall₂ TodoStep l l := by
  rw [List.forall₂_same]
  intro u _
  exact ⟨rfl, Or.inl rfl⟩

theorem todoStep_trans {l1 l2 l3 : List Task}
    (h12 : List.Forall₂ TodoStep l1 l2) (h23 : List.Forall₂ TodoStep l2 l3) :
    List.Forall₂ TodoStep l1 l3 := by
  induction h12 generalizing l3 with
  | nil => cases h23; exact List.Forall₂.nil
  | cons huv hrest ih =>
    cases h23 with
    | cons hvw hrest2 =>
      refine List.Forall₂.cons ?_ (ih hrest2)
      obtain ⟨hid1, hst1⟩ := huv
      obtain ⟨hid2, hst2⟩ := hvw
      refine ⟨hid2.trans hid1, ?_⟩
      rcases hst2 with h | h
      · rcases hst1 with h2 | h2
        · exact Or.inl (h.trans h2)
        · exact Or.inr (h.trans h2)
      · exact Or.inr h

theorem countNonTodo_le_of_forall2 {l1 l2 : List Task}
    (h : List.Forall₂ TodoStep l1 l2) :
    l2.countP (fun t => t.status ≠ .todo) ≤ l1.countP (fun t => t.status ≠ .todo) := by
  induction h with
  | nil => exact Nat.le_refl _
  | cons huv hrest ih =>
    rename_i a b l1x l2x
    rw [List.countP_cons, List.countP_cons]
    obtain ⟨_, hst⟩ := huv
    rcases hst with h | h
    · rw [h]
      omega
    · rw [if_neg (show ¬ ((decide (b.status ≠ TaskStatus.todo)) = true) by
        simp [h])]
      omega

theorem countNonTodo_lt_of_forall2 {l1 l2 : List Task} {u : Task}
    (h : List.Forall₂ TodoStep l1 l2) (hu : u ∈ l1) (hust : u.status ≠ .todo)
    (hall : ∀ v ∈ l2, v.id = u.id → v.status = .todo) :
    l2.countP (fun t => t.status ≠ .todo) < l1.countP (fun t => t.status ≠ .todo) := by
  induction h with
  | nil => simp at hu
  | cons huv hrest ih =>
    rename_i a b l1' l2'
    rw [List.countP_cons, List.countP_cons]
    rcases List.mem_cons.mp hu with rfl | hu2
    · have hb : b.status = .todo :=
        hall b (List.mem_cons_self b l2') huv.1
      rw [if_pos (show (decide (u.status ≠ TaskStatus.todo)) = true by
        simpa using hust)]
      rw [if_neg (show ¬ ((decide (b.status ≠ TaskStatus.todo)) = true) by
        simp [hb])]
      have := countNonTodo_le_of_forall2 hrest
      omega
    · have := ih hu2 (fun v hv hid => hall v (List.mem_cons_of_mem _ hv) hid)
      obtain ⟨hid, hst⟩ := huv
      rcases hst with h | h
      · rw [h]
        omega
      · rw [if_neg (show ¬ ((decide (b.status ≠ TaskStatus.todo)) = true) by
          simp [h])]
        omega

theorem forall2_mem_partner {l1 l2 : List Task} {v : Task}
    (h : List.Forall₂ TodoStep l1 l2) (hv : v ∈ l2) :
    ∃ u ∈ l1, TodoStep u v := by
  induction h with
  | nil => simp at hv
  | cons huv hrest ih =>
    rename_i a b l1' l2'
    rcases List.mem_cons.mp hv with rfl | hv2
    · exact ⟨a, List.mem_cons_self a l1', huv⟩
    · obtain ⟨u, hu, hrel⟩ := ih hv2
      exact ⟨u, List.mem_cons_of_mem _ hu, hrel⟩

end Crew

namespace Crew

theorem countNonTodo_eq_countP (s : Store) :
    countNonTodo s = s.tasks.countP (fun t => t.status ≠ .todo) := by
  unfold countNonTodo
  rw [List.countP_eq_length_filter]

theorem todoStep_map_replace (l : List Task) (u : Task) (k : TaskId)
    (hid : u.id = k) (hst : u.status = .todo) :
    List.Forall₂ TodoStep l (l.map (fun y => if y.id == k then u else y)) := by
  induction l with
  | nil => exact List.Forall₂.nil
  | cons a rest ih =>
    rw [List.map_cons]
    refine List.Forall₂.cons ?_ ih
    by_cases h : (a.id == k) = true
    · rw [if_pos h]
      exact ⟨hid.trans (eq_of_beq h).symm, Or.inr hst⟩
    · rw [if_neg h]
      exact ⟨rfl, Or.inl rfl⟩

theorem hall_map_replace (l : List Task) (u : Task) (k : TaskId)
    (_hid : u.id = k) (hst : u.status = .todo) :
    ∀ v ∈ l.map (fun y => if y.id == k then u else y),
      v.id = k → v.status = .todo := by
  intro v hv hvk
  obtain ⟨y, hy, hyv⟩ := List.mem_map.mp hv
  by_cases h : (y.id == k) = true
  · rw [if_pos h] at hyv
    rw [← hyv]
    exact hst
  · rw [if_neg h] at hyv
    exfalso
    apply h
    rw [hyv]
    exact beq_iff_eq.mpr hvk

theorem cascadeStep_some (f : Nat) (now : String) (tid : TaskId)
    (sAcc : Store) (lAcc : List Task) (t : Task) :
    cascadeStep f now tid (some (sAcc, lAcc)) t
      = if tid ∈ t.depends_on ∧ t.status ≠ TaskStatus.todo then
          match resetTaskFuel f sAcc now t.id true with
          | none => none
          | some (s2, cascaded) => some (s2, lAcc ++ cascaded)
        else some (sAcc, lAcc) := rfl

theorem updateTask_ids (s : Store) (now : String) (tid : TaskId)
    (p : TaskPatch) :
    (updateTask s now tid p).1.tasks.map (fun t => t.id)
      = s.tasks.map (fun t => t.id) := by
  unfold updateTask
  cases hget : getTask s tid with
  | none => rfl
  | some t =>
    obtain ⟨hmem, _⟩ := getTask_some_mem s tid t hget
    show (putKeyed (fun (w : Task) => w.id) s.tasks { applyTaskPatch t p with updated_at := now }).map (fun t => t.id) = s.tasks.map (fun t => t.id)
    exact map_key_putKeyed_of_any (fun (w : Task) => w.id) s.tasks
      { applyTaskPatch t p with updated_at := now }
      (List.any_eq_true.mpr ⟨t, hmem, beq_self_eq_true t.id⟩)

theorem updateTask_reset_rel (s : Store) (now : String) (tid : TaskId) :
    List.Forall₂ TodoStep s.tasks (updateTask s now tid resetPatch).1.tasks := by
  unfold updateTask
  cases hget : getTask s tid with
  | none => exact todoStep_refl _
  | some t =>
    obtain ⟨hmem, _⟩ := getTask_some_mem s tid t hget
    show List.Forall₂ TodoStep s.tasks (putKeyed (fun (w : Task) => w.id) s.tasks { applyTaskPatch t resetPatch with updated_at := now })
    rw [putKeyed_of_any (fun (w : Task) => w.id) s.tasks
      { applyTaskPatch t resetPatch with updated_at := now }
      (List.any_eq_true.mpr ⟨t, hmem, beq_self_eq_true t.id⟩)]
    exact todoStep_map_replace s.tasks _ _ rfl rfl

theorem find?_id_of_mem_nodup (l : List Task)
    (hnd : (l.map (fun t => t.id)).Nodup) (v : Task) (hv : v ∈ l) :
    l.find? (fun u => u.id == v.id) = some v := by
  induction l with
  | nil => simp at hv
  | cons a rest ih =>
    rw [List.map_cons, List.nodup_cons] at hnd
    obtain ⟨hna, hnd2⟩ := hnd
    rcases List.mem_cons.mp hv with rfl | hv2
    · rw [List.find?_cons_of_pos _ (by simp)]
    · have hneq : a.id ≠ v.id := by
        intro hc
        exact hna (by rw [hc]; exact List.mem_map.mpr ⟨v, hv2, rfl⟩)
      have hne : (a.id == v.id) = false := by simpa using hneq
      rw [List.find?_cons_of_neg _ (by simp [hne])]
      exact ih hnd2 hv2

theorem getTask_of_mem_wf (s : Store) (hwf : WF s) (v : Task)
    (hv : v ∈ s.tasks) : getTask s v.id = some v := by
  rw [getTask_eq_find]
  exact find?_id_of_mem_nodup s.tasks hwf v hv

theorem countNonTodo_resetEpilogue (now E : String) (r : Store × List Task) :
    countNonTodo (resetEpilogue now E r).1 = countNonTodo r.1 := by
  unfold countNonTodo
  rw [(resetEpilogue_tasks now E r).1]

theorem updateTask_reset_count_le (s : Store) (now : String) (tid : TaskId) :
    countNonTodo (updateTask s now tid resetPatch).1 ≤ countNonTodo s := by
  rw [countNonTodo_eq_countP, countNonTodo_eq_countP]
  exact countNonTodo_le_of_forall2 (updateTask_reset_rel s now tid)

theorem updateTask_reset_count_lt (s : Store) (now : String) (tid : TaskId)
    (task : Task) (hget : getTask s tid = some task)
    (hst : task.status ≠ TaskStatus.todo) :
    countNonTodo (updateTask s now tid resetPatch).1 < countNonTodo s := by
  obtain ⟨hmem, hid⟩ := getTask_some_mem s tid task hget
  rw [countNonTodo_eq_countP, countNonTodo_eq_countP]
  unfold updateTask
  rw [hget]
  show (putKeyed (fun (w : Task) => w.id) s.tasks { applyTaskPatch task resetPatch with updated_at := now }).countP (fun t => decide (t.status ≠ TaskStatus.todo)) < s.tasks.countP (fun t => decide (t.status ≠ TaskStatus.todo))
  rw [putKeyed_of_any (fun (w : Task) => w.id) s.tasks
    { applyTaskPatch task resetPatch with updated_at := now }
    (List.any_eq_true.mpr ⟨task, hmem, beq_self_eq_true task.id⟩)]
  exact countNonTodo_lt_of_forall2
    (todoStep_map_replace s.tasks _ _ rfl rfl) hmem hst
    (hall_map_replace s.tasks _ _ rfl rfl)

theorem resetTaskFuel_succ_none (f : Nat) (s : Store) (now : String)
    (tid : TaskId) (c : Bool) (hget : getTask s tid = none) :
    resetTaskFuel (f + 1) s now tid c = some (s, []) := by
  rw [resetTaskFuel_succ, hget]

theorem resetTaskFuel_succ_some_false (f : Nat) (s : Store) (now : String)
    (tid : TaskId) (task : Task) (hget : getTask s tid = some task) :
    resetTaskFuel (f + 1) s now tid false
      = some (resetEpilogue now task.epic_id
          ((updateTask s now tid resetPatch).1,
           (updateTask s now tid resetPatch).2.toList)) := by
  rw [resetTaskFuel_succ, hget]
  rfl

theorem resetTaskFuel_succ_some_true (f : Nat) (s : Store) (now : String)
    (tid : TaskId) (task : Task) (hget : getTask s tid = some task) :
    resetTaskFuel (f + 1) s now tid true
      = match (getTasks (updateTask s now tid resetPatch).1 task.epic_id).foldl
            (cascadeStep f now tid)
            (some ((updateTask s now tid resetPatch).1,
              (updateTask s now tid resetPatch).2.toList)) with
        | none => none
        | some r2 => some (resetEpilogue now task.epic_id r2) := by
  rw [resetTaskFuel_succ, hget]
  rfl

theorem foldl_cascadeStep_relids (f : Nat) (now : String) (tid : TaskId)
    (IH : ∀ (s : Store) (now2 : String) (tid2 : TaskId) (c2 : Bool)
        (res2 : Store × List Task),
        resetTaskFuel f s now2 tid2 c2 = some res2 →
        List.Forall₂ TodoStep s.tasks res2.1.tasks
          ∧ res2.1.tasks.map (fun t => t.id) = s.tasks.map (fun t => t.id)) :
    ∀ (l : List Task) (sAcc : Store) (lAcc : List Task)
      (out : Store × List Task),
      l.foldl (cascadeStep f now tid) (some (sAcc, lAcc)) = some out →
      List.Forall₂ TodoStep sAcc.tasks out.1.tasks
        ∧ out.1.tasks.map (fun t => t.id) = sAcc.tasks.map (fun t => t.id) := by
  intro l
  induction l with
  | nil =>
    intro sAcc lAcc out h
    rw [List.foldl_nil] at h
    obtain rfl := Option.some.inj h
    exact ⟨todoStep_refl _, rfl⟩
  | cons t rest ihl =>
    intro sAcc lAcc out h
    rw [List.foldl_cons, cascadeStep_some] at h
    by_cases hc : tid ∈ t.depends_on ∧ t.status ≠ TaskStatus.todo
    · rw [if_pos hc] at h
      cases hr : resetTaskFuel f sAcc now t.id true with
      | none =>
        rw [hr] at h
        have h2 : rest.foldl (cascadeStep f now tid) none = some out := h
        rw [foldl_cascadeStep_none] at h2
        exact Option.noConfusion h2
      | some r2 =>
        rw [hr] at h
        obtain ⟨s2, casc⟩ := r2
        have h2 : rest.foldl (cascadeStep f now tid) (some (s2, lAcc ++ casc))
            = some out := h
        obtain ⟨hrelA, hidsA⟩ := IH sAcc now t.id true (s2, casc) hr
        obtain ⟨hrelB, hidsB⟩ := ihl s2 (lAcc ++ casc) out h2
        exact ⟨todoStep_trans hrelA hrelB, hidsB.trans hidsA⟩
    · rw [if_neg hc] at h
      exact ihl sAcc lAcc out h

theorem resetTaskFuel_relids :
    ∀ (fuel : Nat) (s : Store) (now : String) (tid : TaskId) (c : Bool)
      (res : Store × List Task),
      resetTaskFuel fuel s now tid c = some res →
      List.Forall₂ TodoStep s.tasks res.1.tasks
        ∧ res.1.tasks.map (fun t => t.id) = s.tasks.map (fun t => t.id) := by
  intro fuel
  induction fuel with
  | zero =>
    intro s now tid c res h
    rw [resetTaskFuel_zero] at h
    exact Option.noConfusion h
  | succ f ih =>
    intro s now tid c res h
    cases hget : getTask s tid with
    | none =>
      rw [resetTaskFuel_succ_none f s now tid c hget] at h
      obtain rfl := Option.some.inj h
      exact ⟨todoStep_refl _, rfl⟩
    | some task =>
      cases c with
      | false =>
        rw [resetTaskFuel_succ_some_false f s now tid task hget] at h
        obtain rfl := Option.some.inj h
        constructor
        · rw [(resetEpilogue_tasks now task.epic_id _).1]
          exact updateTask_reset_rel s now tid
        · rw [(resetEpilogue_tasks now task.epic_id _).1]
          exact updateTask_ids s now tid resetPatch
      | true =>
        rw [resetTaskFuel_succ_some_true f s now tid task hget] at h
        cases hfold :
            (getTasks (updateTask s now tid resetPatch).1 task.epic_id).foldl
              (cascadeStep f now tid)
              (some ((updateTask s now tid resetPatch).1,
                (updateTask s now tid resetPatch).2.toList)) with
        | none =>
          rw [hfold] at h
          exact Option.noConfusion h
        | some r2 =>
          rw [hfold] at h
          obtain rfl := Option.some.inj h
          obtain ⟨hrel2, hids2⟩ := foldl_cascadeStep_relids f now tid ih
            _ _ _ r2 hfold
          constructor
          · rw [(resetEpilogue_tasks now task.epic_id _).1]
            exact todoStep_trans (updateTask_reset_rel s now tid) hrel2
          · rw [(resetEpilogue_tasks now task.epic_id _).1]
            exact hids2.trans (updateTask_ids s now tid resetPatch)

end Crew

namespace Crew

theorem wf_of_ids_eq {s1 s2 : Store}
    (h : s2.tasks.map (fun t => t.id) = s1.tasks.map (fun t => t.id))
    (hwf : WF s1) : WF s2 := by
  unfold WF at hwf ⊢
  rw [h]
  exact hwf

theorem resetTaskFuel_count_le (fuel : Nat) (s : Store) (now : String)
    (tid : TaskId) (c : Bool) (res : Store × List Task)
    (h : resetTaskFuel fuel s now tid c = some res) :
    countNonTodo res.1 ≤ countNonTodo s := by
  rw [countNonTodo_eq_countP, countNonTodo_eq_countP]
  exact countNonTodo_le_of_forall2 (resetTaskFuel_relids fuel s now tid c res h).1

theorem foldl_cascadeStep_unselected (f : Nat) (now : String) (tid : TaskId)
    (l : List Task) (sAcc : Store) (lAcc : List Task)
    (h : ∀ t ∈ l, ¬(tid ∈ t.depends_on ∧ t.status ≠ TaskStatus.todo)) :
    l.foldl (cascadeStep f now tid) (some (sAcc, lAcc)) = some (sAcc, lAcc) := by
  induction l with
  | nil => rfl
  | cons t rest ih =>
    rw [List.foldl_cons, cascadeStep_some,
      if_neg (h t (List.mem_cons_self t rest))]
    exact ih (fun u hu => h u (List.mem_cons_of_mem _ hu))

theorem foldl_cascadeStep_isSome (f m : Nat) (now : String) (tid : TaskId)
    (hmf : m < f)
    (IHm : ∀ (fuel : Nat) (s : Store) (now2 : String) (tid2 : TaskId)
        (c2 : Bool), WF s → m < fuel →
        (countNonTodo s ≤ m ∨ (countNonTodo s ≤ m + 1 ∧
          ∀ u, getTask s tid2 = some u → u.status ≠ TaskStatus.todo)) →
        (resetTaskFuel fuel s now2 tid2 c2).isSome = true)
    (base : Store) (hcnt : countNonTodo base ≤ m + 1) :
    ∀ (l : List Task), (∀ t ∈ l, t ∈ base.tasks) →
      ∀ (sAcc : Store) (lAcc : List Task),
        WF sAcc → List.Forall₂ TodoStep base.tasks sAcc.tasks →
        sAcc.tasks.map (fun t => t.id) = base.tasks.map (fun t => t.id) →
        ∃ out, l.foldl (cascadeStep f now tid) (some (sAcc, lAcc)) = some out := by
  intro l
  induction l with
  | nil =>
    intro _ sAcc lAcc _ _ _
    exact ⟨(sAcc, lAcc), rfl⟩
  | cons t rest ihl =>
    intro hmem sAcc lAcc hwfA hrelA hidsA
    rw [List.foldl_cons, cascadeStep_some]
    have hle : countNonTodo sAcc ≤ countNonTodo base := by
      rw [countNonTodo_eq_countP, countNonTodo_eq_countP]
      exact countNonTodo_le_of_forall2 hrelA
    by_cases hc : tid ∈ t.depends_on ∧ t.status ≠ TaskStatus.todo
    · rw [if_pos hc]
      have hcall : (resetTaskFuel f sAcc now t.id true).isSome = true := by
        by_cases hall : ∀ v ∈ sAcc.tasks, v.id = t.id → v.status = TaskStatus.todo
        · have hlt : countNonTodo sAcc < countNonTodo base := by
            rw [countNonTodo_eq_countP, countNonTodo_eq_countP]
            exact countNonTodo_lt_of_forall2 hrelA
              (hmem t (List.mem_cons_self t rest)) hc.2 hall
          exact IHm f sAcc now t.id true hwfA hmf (Or.inl (by omega))
        · push_neg at hall
          obtain ⟨v, hv, hvid, hvst⟩ := hall
          have hgv : getTask sAcc t.id = some v := by
            rw [← hvid]
            exact getTask_of_mem_wf sAcc hwfA v hv
          exact IHm f sAcc now t.id true hwfA hmf
            (Or.inr ⟨by omega, fun u hu => by
              rw [hgv] at hu
              obtain rfl := Option.some.inj hu
              exact hvst⟩)
      obtain ⟨r2, hr2⟩ := Option.isSome_iff_exists.mp hcall
      rw [hr2]
      obtain ⟨s2, casc⟩ := r2
      obtain ⟨hrel2, hids2⟩ :=
        resetTaskFuel_relids f sAcc now t.id true (s2, casc) hr2
      have hwf2 : WF s2 := wf_of_ids_eq hids2 hwfA
      obtain ⟨out, hout⟩ := ihl
        (fun u hu => hmem u (List.mem_cons_of_mem _ hu)) s2 (lAcc ++ casc)
        hwf2 (todoStep_trans hrelA hrel2) (hids2.trans hidsA)
      exact ⟨out, hout⟩
    · rw [if_neg hc]
      exact ihl (fun u hu => hmem u (List.mem_cons_of_mem _ hu)) sAcc lAcc
        hwfA hrelA hidsA

theorem resetTaskFuel_isSome_aux :
    ∀ (k : Nat) (fuel : Nat) (s : Store) (now : String) (tid : TaskId)
      (c : Bool), WF s → k < fuel →
      (countNonTodo s ≤ k ∨
        (countNonTodo s ≤ k + 1 ∧
          ∀ u, getTask s tid = some u → u.status ≠ TaskStatus.todo)) →
      (resetTaskFuel fuel s now tid c).isSome = true := by
  intro k
  induction k using Nat.strong_induction_on with
  | _ k SIH =>
    intro fuel s now tid c hwf hkf hcnt
    cases fuel with
    | zero => exact absurd hkf (Nat.not_lt_zero k)
    | succ f =>
      cases hget : getTask s tid with
      | none =>
        rw [resetTaskFuel_succ_none f s now tid c hget]
        rfl
      | some task =>
        have hr1 : countNonTodo (updateTask s now tid resetPatch).1 ≤ k := by
          by_cases hst : task.status = TaskStatus.todo
          · rcases hcnt with hle | ⟨_, hguard⟩
            · exact le_trans (updateTask_reset_count_le s now tid) hle
            · exact absurd hst (hguard task hget)
          · have := updateTask_reset_count_lt s now tid task hget hst
            rcases hcnt with hle | ⟨hle, _⟩ <;> omega
        have hwf1 : WF (updateTask s now tid resetPatch).1 :=
          wf_of_ids_eq (updateTask_ids s now tid resetPatch) hwf
        cases c with
        | false =>
          rw [resetTaskFuel_succ_some_false f s now tid task hget]
          rfl
        | true =>
          rw [resetTaskFuel_succ_some_true f s now tid task hget]
          by_cases hk0 : k = 0
          · -- no entry of the snapshot can be selected: the whole store has
            -- no non-todo task after the self-reset
            subst hk0
            have hbase0 : countNonTodo (updateTask s now tid resetPatch).1 = 0 :=
              Nat.le_zero.mp hr1
            have hnone : ∀ t ∈ getTasks (updateTask s now tid resetPatch).1
                task.epic_id,
                ¬(tid ∈ t.depends_on ∧ t.status ≠ TaskStatus.todo) := by
              intro t ht hcsel
              have hmem : t ∈ (updateTask s now tid resetPatch).1.tasks :=
                ((mem_getTasks _ _ t).mp ht).1
              have hpos : 0 < countNonTodo (updateTask s now tid resetPatch).1 := by
                rw [countNonTodo_eq_countP, List.countP_pos_iff]
                exact ⟨t, hmem, by simpa using hcsel.2⟩
              omega
            rw [foldl_cascadeStep_unselected f now tid _ _ _ hnone]
            rfl
          · obtain ⟨out, hout⟩ :=
              foldl_cascadeStep_isSome f (k - 1) now tid (by omega)
                (fun fuel2 s2 now2 tid2 c2 hwf2 hf2 hcnt2 =>
                  SIH (k - 1) (by omega) fuel2 s2 now2 tid2 c2 hwf2 hf2 hcnt2)
              (updateTask s now tid resetPatch).1 (by omega)
              (getTasks (updateTask s now tid resetPatch).1 task.epic_id)
              (fun u hu => ((mem_getTasks _ _ u).mp hu).1)
              (updateTask s now tid resetPatch).1
              (updateTask s now tid resetPatch).2.toList
              hwf1 (todoStep_refl _) rfl
            rw [hout]
            rfl

theorem resetTaskFuel_isSome (fuel : Nat) (s : Store) (now : String)
    (tid : TaskId) (c : Bool) (hwf : WF s)
    (hfuel : countNonTodo s < fuel) :
    (resetTaskFuel fuel s now tid c).isSome = true :=
  resetTaskFuel_isSome_aux (countNonTodo s) fuel s now tid c hwf hfuel
    (Or.inl (Nat.le_refl _))

end Crew

namespace Crew

theorem foldl_cascadeStep_mono (f : Nat) (now : String) (tid : TaskId)
    (IH : ∀ (s : Store) (now2 : String) (tid2 : TaskId) (c2 : Bool)
        (res2 : Store × List Task),
        resetTaskFuel f s now2 tid2 c2 = some res2 →
        resetTaskFuel (f + 1) s now2 tid2 c2 = some res2) :
    ∀ (l : List Task) (sAcc : Store) (lAcc : List Task)
      (out : Store × List Task),
      l.foldl (cascadeStep f now tid) (some (sAcc, lAcc)) = some out →
      l.foldl (cascadeStep (f + 1) now tid) (some (sAcc, lAcc)) = some out := by
  intro l
  induction l with
  | nil =>
    intro sAcc lAcc out h
    exact h
  | cons t rest ihl =>
    intro sAcc lAcc out h
    rw [List.foldl_cons, cascadeStep_some] at h
    rw [List.foldl_cons, cascadeStep_some]
    by_cases hc : tid ∈ t.depends_on ∧ t.status ≠ TaskStatus.todo
    · rw [if_pos hc] at h
      rw [if_pos hc]
      cases hr : resetTaskFuel f sAcc now t.id true with
      | none =>
        rw [hr] at h
        have h2 : rest.foldl (cascadeStep f now tid) none = some out := h
        rw [foldl_cascadeStep_none] at h2
        exact Option.noConfusion h2
      | some r2 =>
        rw [hr] at h
        obtain ⟨s2, casc⟩ := r2
        have h2 : rest.foldl (cascadeStep f now tid) (some (s2, lAcc ++ casc))
            = some out := h
        rw [IH sAcc now t.id true (s2, casc) hr]
        exact ihl s2 (lAcc ++ casc) out h2
    · rw [if_neg hc] at h
      rw [if_neg hc]
      exact ihl sAcc lAcc out h

theorem resetTaskFuel_mono :
    ∀ (fuel : Nat) (s : Store) (now : String) (tid : TaskId) (c : Bool)
      (res : Store × List Task),
      resetTaskFuel fuel s now tid c = some res →
      resetTaskFuel (fuel + 1) s now tid c = some res := by
  intro fuel
  induction fuel with
  | zero =>
    intro s now tid c res h
    rw [resetTaskFuel_zero] at h
    exact Option.noConfusion h
  | succ f ih =>
    intro s now tid c res h
    cases hget : getTask s tid with
    | none =>
      rw [resetTaskFuel_succ_none f s now tid c hget] at h
      rw [resetTaskFuel_succ_none (f + 1) s now tid c hget]
      exact h
    | some task =>
      cases c with
      | false =>
        rw [resetTaskFuel_succ_some_false f s now tid task hget] at h
        rw [resetTaskFuel_succ_some_false (f + 1) s now tid task hget]
        exact h
      | true =>
        rw [resetTaskFuel_succ_some_true f s now tid task hget] at h
        rw [resetTaskFuel_succ_some_true (f + 1) s now tid task hget]
        cases hfold :
            (getTasks (updateTask s now tid resetPatch).1 task.epic_id).foldl
              (cascadeStep f now tid)
              (some ((updateTask s now tid resetPatch).1,
                (updateTask s now tid resetPatch).2.toList)) with
        | none =>
          rw [hfold] at h
          exact Option.noConfusion h
        | some r2 =>
          rw [hfold] at h
          rw [foldl_cascadeStep_mono f now tid ih _ _ _ r2 hfold]
          exact h

theorem resetTaskFuel_mono_le (fuel fuel2 : Nat) (s : Store) (now : String)
    (tid : TaskId) (c : Bool) (res : Store × List Task)
    (hle : fuel ≤ fuel2)
    (h : resetTaskFuel fuel s now tid c = some res) :
    resetTaskFuel fuel2 s now tid c = some res := by
  induction fuel2, hle using Nat.le_induction with
  | base => exact h
  | succ n hn ihn => exact resetTaskFuel_mono n s now tid c res ihn

/-- C10: `resetTask` with `cascade = true` terminates on every store whose
task files carry distinct ids, including stores whose `depends_on` relation
is cyclic: every recursion budget exceeding the number of non-`todo` task
records suffices, all such budgets compute the same result, and `resetTask`
denotes that result.  The recursion is bounded because each call first
resets its own task to `todo` and only recurses into dependants that were
not `todo` in its snapshot. -/
theorem resetTask_cascade_terminates (s : Store) (now : String)
    (tid : TaskId) (fuel : Nat) (hwf : WF s)
    (hfuel : countNonTodo s < fuel) :
    ∃ res, resetTaskFuel fuel s now tid true = some res
      ∧ resetTask s now tid true = res := by
  obtain ⟨res, hres⟩ := Option.isSome_iff_exists.mp
    (resetTaskFuel_isSome (countNonTodo s + 1) s now tid true hwf
      (Nat.lt_succ_self _))
  refine ⟨res, ?_, ?_⟩
  · exact resetTaskFuel_mono_le (countNonTodo s + 1) fuel s now tid true res
      (by omega) hres
  · unfold resetTask
    rw [hres]
    rfl

theorem resetTask_cascade_terminates_witness :
    WF cyclicStore ∧ countNonTodo cyclicStore < 7 ∧
      ∃ res, resetTaskFuel 7 cyclicStore "t" ("e", 1) true = some res
        ∧ resetTask cyclicStore "t" ("e", 1) true = res :=
  ⟨by unfold WF; decide, by decide,
    resetTask_cascade_terminates cyclicStore "t" ("e", 1) 7
      (by unfold WF; decide) (by decide)⟩

end Crew

namespace Crew

theorem countP_map_congr {α : Type} (l : List α) (f : α → α) (p : α → Bool)
    (h : ∀ y ∈ l, p (f y) = p y) : (l.map f).countP p = l.countP p := by
  induction l with
  | nil => rfl
  | cons a rest ih =>
    rw [List.map_cons, List.countP_cons, List.countP_cons,
      h a (List.mem_cons_self a rest),
      ih (fun y hy => h y (List.mem_cons_of_mem _ hy))]

theorem map_eq_of_forall2 {α β : Type} (g : α → β) {R : α → α → Prop}
    {l1 l2 : List α} (h : List.Forall₂ R l1 l2)
    (hg : ∀ u v, R u v → g v = g u) : l2.map g = l1.map g := by
  induction h with
  | nil => rfl
  | cons hab hrest ih =>
    rw [List.map_cons, List.map_cons, hg _ _ hab, ih]

theorem countP_eq_of_forall2 {α : Type} {R : α → α → Prop} (p : α → Bool)
    {l1 l2 : List α} (h : List.Forall₂ R l1 l2)
    (hp : ∀ u v, R u v → p v = p u) : l2.countP p = l1.countP p := by
  induction h with
  | nil => rfl
  | cons hab hrest ih =>
    rw [List.countP_cons, List.countP_cons, hp _ _ hab, ih]

theorem find?_align {α : Type} {R : α → α → Prop} (p : α → Bool)
    {l1 l2 : List α} (h : List.Forall₂ R l1 l2)
    (hp : ∀ u v, R u v → p v = p u) :
    ∀ v, l2.find? p = some v → ∃ u, l1.find? p = some u ∧ R u v := by
  induction h with
  | nil =>
    intro v hv
    exact Option.noConfusion hv
  | cons hab hrest ih =>
    rename_i a b l1x l2x
    intro v hv
    by_cases hpb : p b = true
    · rw [List.find?_cons_of_pos _ hpb] at hv
      obtain rfl := Option.some.inj hv
      refine ⟨a, List.find?_cons_of_pos _ ?_, hab⟩
      rw [← hp _ _ hab]
      exact hpb
    · rw [List.find?_cons_of_neg _ hpb] at hv
      obtain ⟨u, hu, hR⟩ := ih v hv
      have hpa : ¬ (p a = true) := by
        rw [hp a b hab] at hpb
        exact hpb
      refine ⟨u, ?_, hR⟩
      rw [List.find?_cons_of_neg _ hpa]
      exact hu

theorem length_getTasks_countP (s : Store) (F : String) :
    (getTasks s F).length = s.tasks.countP (fun t => t.epic_id == F) := by
  rw [length_getTasks, List.countP_eq_length_filter]

theorem filter_getTasks_countP (s : Store) (F : String) :
    ((getTasks s F).filter (fun t => t.status == TaskStatus.done)).length
      = s.tasks.countP
          (fun t => (t.status == TaskStatus.done) && (t.epic_id == F)) :=
  filter_getTasks_length s F (fun t => t.status == TaskStatus.done)

theorem countP_of_countInvariant (s : Store) (hinv : countInvariant s) :
    ∀ e ∈ s.epics,
      e.task_count = s.tasks.countP (fun t => t.epic_id == e.id) ∧
      e.completed_count = s.tasks.countP
        (fun t => (t.status == TaskStatus.done) && (t.epic_id == e.id)) := by
  intro e he
  obtain ⟨h1, h2⟩ := hinv e he
  rw [← length_getTasks_countP, ← filter_getTasks_countP]
  exact ⟨h1, h2⟩

theorem countInvariant_of_countP (s : Store)
    (h : ∀ e ∈ s.epics,
        e.task_count = s.tasks.countP (fun t => t.epic_id == e.id) ∧
        e.completed_count = s.tasks.countP
          (fun t => (t.status == TaskStatus.done) && (t.epic_id == e.id))) :
    countInvariant s := by
  unfold countInvariant
  intro e he
  obtain ⟨h1, h2⟩ := h e he
  rw [length_getTasks_countP, filter_getTasks_countP]
  exact ⟨h1, h2⟩

theorem countP_updateTask_eq (s : Store) (now : String) (tid : TaskId)
    (p : TaskPatch) (t : Task) (q : Task → Bool)
    (hwf : WF s) (hget : getTask s tid = some t)
    (hq : q { applyTaskPatch t p with updated_at := now } = q t) :
    (updateTask s now tid p).1.tasks.countP q = s.tasks.countP q := by
  obtain ⟨hmem, hid⟩ := getTask_some_mem s tid t hget
  unfold updateTask
  rw [hget]
  show (putKeyed (fun (w : Task) => w.id) s.tasks { applyTaskPatch t p with updated_at := now }).countP q = s.tasks.countP q
  rw [putKeyed_of_any (fun (w : Task) => w.id) s.tasks
    { applyTaskPatch t p with updated_at := now }
    (List.any_eq_true.mpr ⟨t, hmem, beq_self_eq_true t.id⟩)]
  apply countP_map_congr
  intro y hy
  by_cases hb :
      (y.id == ({ applyTaskPatch t p with updated_at := now } : Task).id)
        = true
  · rw [if_pos hb]
    have hyt : y = t := List.inj_on_of_nodup_map hwf hy hmem (eq_of_beq hb)
    rw [hq, hyt]
  · rw [if_neg hb]

theorem updateTask_snd_some (s : Store) (now : String) (tid : TaskId)
    (p : TaskPatch) (t : Task) (hget : getTask s tid = some t) :
    (updateTask s now tid p).2
      = some { applyTaskPatch t p with updated_at := now } := by
  unfold updateTask
  rw [hget]

theorem updateEpic_ids (s : Store) (now : String) (E : String)
    (p : EpicPatch) :
    (updateEpic s now E p).1.epics.map (fun e => e.id)
      = s.epics.map (fun e => e.id) := by
  unfold updateEpic
  cases hget : getEpic s E with
  | none => rfl
  | some e =>
    have hmem := getEpic_mem s E e hget
    show (putKeyed (fun (w : Epic) => w.id) s.epics { applyEpicPatch e p with updated_at := now }).map (fun e => e.id) = s.epics.map (fun e => e.id)
    exact map_key_putKeyed_of_any (fun (w : Epic) => w.id) s.epics
      { applyEpicPatch e p with updated_at := now }
      (List.any_eq_true.mpr ⟨e, hmem, beq_self_eq_true e.id⟩)

theorem mem_putEpic_found (es : List Epic) (x : Epic) (e' : Epic)
    (hmem : e' ∈ putEpic es x) (y0 : Epic)
    (hy0 : y0 ∈ es) (hkey : y0.id = x.id) :
    e' = x ∨ (e' ∈ es ∧ e'.id ≠ x.id) := by
  unfold putEpic at hmem
  rw [putKeyed_of_any (fun (w : Epic) => w.id) es x
    (List.any_eq_true.mpr ⟨y0, hy0, by simpa using hkey⟩)] at hmem
  obtain ⟨y, hy, hyx⟩ := List.mem_map.mp hmem
  by_cases hb : (y.id == x.id) = true
  · rw [if_pos hb] at hyx
    exact Or.inl hyx.symm
  · rw [if_neg hb] at hyx
    refine Or.inr ⟨hyx ▸ hy, ?_⟩
    rw [← hyx]
    simpa using hb

theorem getEpic_none_ids (s : Store) (E : String)
    (h : getEpic s E = none) : ∀ e ∈ s.epics, e.id ≠ E := by
  intro e he
  have := List.find?_eq_none.mp h e he
  simpa using this

end Crew

namespace Crew

theorem startTask_none (s : Store) (now : String) (tid : TaskId)
    (agent : String) (baseCommit : Option String)
    (hget : getTask s tid = none) :
    startTask s now tid agent baseCommit = (s, none) := by
  unfold startTask
  rw [hget]

theorem startTask_some (s : Store) (now : String) (tid : TaskId)
    (agent : String) (baseCommit : Option String) (t : Task)
    (hget : getTask s tid = some t) :
    startTask s now tid agent baseCommit
      = if t.status ≠ TaskStatus.todo then (s, none)
        else updateTask s now tid
          (startPatch now agent baseCommit t.attempt_count) := by
  unfold startTask
  rw [hget]
  rfl

theorem unblockTask_none (s : Store) (now : String) (tid : TaskId)
    (hget : getTask s tid = none) :
    unblockTask s now tid = (s, none) := by
  unfold unblockTask
  rw [hget]

theorem unblockTask_some (s : Store) (now : String) (tid : TaskId)
    (t : Task) (hget : getTask s tid = some t) :
    unblockTask s now tid
      = if t.status ≠ TaskStatus.blocked then (s, none)
        else updateTask { s with blocks := removeKey s.blocks tid } now tid
          unblockPatch := by
  unfold unblockTask
  rw [hget]
  rfl

theorem blockTask_none (s : Store) (now : String) (tid : TaskId)
    (reason : String) (hget : getTask s tid = none) :
    blockTask s now tid reason = (s, none) := by
  unfold blockTask
  rw [hget]

theorem blockTask_some (s : Store) (now : String) (tid : TaskId)
    (reason : String) (t : Task) (hget : getTask s tid = some t) :
    blockTask s now tid reason
      = updateTask
          { s with blocks := setKey s.blocks tid (blockText t.title reason now) }
          now tid (blockPatch reason) := by
  unfold blockTask
  rw [hget]
  rfl

theorem completeTask_none (s : Store) (now : String) (tid : TaskId)
    (summary : String) (ev : Option TaskEvidence)
    (hget : getTask s tid = none) :
    completeTask s now tid summary ev = (s, none) := by
  unfold completeTask
  rw [hget]

theorem completeTask_some (s : Store) (now : String) (tid : TaskId)
    (summary : String) (ev : Option TaskEvidence) (t : Task)
    (hget : getTask s tid = some t) :
    completeTask s now tid summary ev
      = if t.status ≠ TaskStatus.in_progress then (s, none)
        else
          match (updateTask s now tid (completePatch now summary ev)).2 with
          | none => updateTask s now tid (completePatch now summary ev)
          | some _ =>
            match getEpic (updateTask s now tid (completePatch now summary ev)).1
                t.epic_id with
            | none => updateTask s now tid (completePatch now summary ev)
            | some epic =>
              ((updateEpic
                  (updateTask s now tid (completePatch now summary ev)).1
                  now t.epic_id (completeEpicPatch epic)).1,
               (updateTask s now tid (completePatch now summary ev)).2) := by
  unfold completeTask
  rw [hget]
  rfl

theorem completeTask_fst_guard (s : Store) (now : String) (tid : TaskId)
    (summary : String) (ev : Option TaskEvidence) (t : Task)
    (hget : getTask s tid = some t)
    (hst : t.status ≠ TaskStatus.in_progress) :
    (completeTask s now tid summary ev).1 = s := by
  rw [completeTask_some s now tid summary ev t hget, if_pos hst]

theorem completeTask_fst_noepic (s : Store) (now : String) (tid : TaskId)
    (summary : String) (ev : Option TaskEvidence) (t : Task)
    (hget : getTask s tid = some t)
    (hst : ¬ t.status ≠ TaskStatus.in_progress)
    (hge : getEpic (updateTask s now tid (completePatch now summary ev)).1
        t.epic_id = none) :
    (completeTask s now tid summary ev).1
      = (updateTask s now tid (completePatch now summary ev)).1 := by
  rw [completeTask_some s now tid summary ev t hget, if_neg hst,
    updateTask_snd_some s now tid (completePatch now summary ev) t hget, hge]

theorem completeTask_fst_epic (s : Store) (now : String) (tid : TaskId)
    (summary : String) (ev : Option TaskEvidence) (t : Task) (epic : Epic)
    (hget : getTask s tid = some t)
    (hst : ¬ t.status ≠ TaskStatus.in_progress)
    (hge : getEpic (updateTask s now tid (completePatch now summary ev)).1
        t.epic_id = some epic) :
    (completeTask s now tid summary ev).1
      = (updateEpic (updateTask s now tid (completePatch now summary ev)).1
          now t.epic_id (completeEpicPatch epic)).1 := by
  rw [completeTask_some s now tid summary ev t hget, if_neg hst,
    updateTask_snd_some s now tid (completePatch now summary ev) t hget, hge]

theorem createTask_eq (s : Store) (now epicId title : String)
    (description : Option String) (dependsOn : List TaskId) :
    createTask s now epicId title description dependsOn
      = ((match getEpic (createStore s now epicId title description dependsOn)
            epicId with
          | some epic =>
            (updateEpic (createStore s now epicId title description dependsOn)
              now epicId { task_count := some (epic.task_count + 1) }).1
          | none => createStore s now epicId title description dependsOn),
         createdTask s now epicId title dependsOn) := rfl

theorem createTask_fst_noepic (s : Store) (now epicId title : String)
    (description : Option String) (dependsOn : List TaskId)
    (hge : getEpic (createStore s now epicId title description dependsOn)
        epicId = none) :
    (createTask s now epicId title description dependsOn).1
      = createStore s now epicId title description dependsOn := by
  rw [createTask_eq]
  rw [hge]

theorem createTask_fst_epic (s : Store) (now epicId title : String)
    (description : Option String) (dependsOn : List TaskId) (epic : Epic)
    (hge : getEpic (createStore s now epicId title description dependsOn)
        epicId = some epic) :
    (createTask s now epicId title description dependsOn).1
      = (updateEpic (createStore s now epicId title description dependsOn)
          now epicId { task_count := some (epic.task_count + 1) }).1 := by
  rw [createTask_eq]
  rw [hge]

end Crew

namespace Crew

theorem foldl_max_init (epicId : String) (l : List Task) :
    ∀ a : Nat,
      a ≤ l.foldl (fun m t => if t.id.1 == epicId then max m t.id.2 else m)
            a := by
  induction l with
  | nil =>
    intro a
    exact Nat.le_refl a
  | cons u rest ih =>
    intro a
    rw [List.foldl_cons]
    refine le_trans ?_ (ih _)
    by_cases h : (u.id.1 == epicId) = true
    · rw [if_pos h]
      exact Nat.le_max_left _ _
    · rw [if_neg h]

theorem foldl_max_mem (epicId : String) (l : List Task) (y : Task)
    (hy : y ∈ l) (hE : y.id.1 = epicId) :
    ∀ a : Nat,
      y.id.2
        ≤ l.foldl (fun m t => if t.id.1 == epicId then max m t.id.2 else m)
            a := by
  induction l with
  | nil => simp at hy
  | cons u rest ih =>
    intro a
    rw [List.foldl_cons]
    rcases List.mem_cons.mp hy with rfl | hy2
    · refine le_trans ?_ (foldl_max_init epicId rest _)
      rw [if_pos (by simpa using hE)]
      exact Nat.le_max_right _ _
    · exact ih hy2 _

theorem allocateTaskId_fresh (s : Store) (epicId : String) :
    ∀ y ∈ s.tasks, y.id ≠ allocateTaskId s epicId := by
  intro y hy hc
  unfold allocateTaskId at hc
  have h1 : y.id.1 = epicId := by rw [hc]
  have h2 : y.id.2
      = (s.tasks.foldl
          (fun m t => if t.id.1 == epicId then max m t.id.2 else m) 0) + 1 := by
    rw [hc]
  have h3 := foldl_max_mem epicId s.tasks y hy h1 0
  omega

theorem countP_createStore (s : Store) (now epicId title : String)
    (description : Option String) (dependsOn : List TaskId)
    (q : Task → Bool) :
    (createStore s now epicId title description dependsOn).tasks.countP q
      = s.tasks.countP q
        + (if q (createdTask s now epicId title dependsOn) then 1 else 0) := by
  show (putTask s.tasks (createdTask s now epicId title dependsOn)).countP q
      = _
  unfold putTask
  exact countP_putKeyed_new (fun (w : Task) => w.id) s.tasks
    (createdTask s now epicId title dependsOn) q
    (fun y hy => allocateTaskId_fresh s epicId y hy)

theorem countP_updateTask_found (s : Store) (now : String) (tid : TaskId)
    (p : TaskPatch) (t : Task) (q : Task → Bool)
    (hwf : WF s) (hget : getTask s tid = some t) :
    (updateTask s now tid p).1.tasks.countP q + (if q t then 1 else 0)
      = s.tasks.countP q
        + (if q { applyTaskPatch t p with updated_at := now } then 1
           else 0) := by
  obtain ⟨hmem, _⟩ := getTask_some_mem s tid t hget
  unfold updateTask
  rw [hget]
  exact countP_putKeyed_found (fun (w : Task) => w.id) s.tasks _ t q hwf
    hmem rfl

theorem countP_updateTask_found2 (s : Store) (now : String) (tid : TaskId)
    (p : TaskPatch) (t : Task) (q : Task → Bool)
    (hwf : WF s) (hget : getTask s tid = some t) (bt bu : Bool)
    (hqt : q t = bt)
    (hqu : q { applyTaskPatch t p with updated_at := now } = bu) :
    (updateTask s now tid p).1.tasks.countP q + (if bt then 1 else 0)
      = s.tasks.countP q + (if bu then 1 else 0) := by
  rw [← hqt, ← hqu]
  exact countP_updateTask_found s now tid p t q hwf hget

theorem countInvariant_updateEpic (S1 : Store) (now E : String)
    (p : EpicPatch) (epic : Epic) (hge : getEpic S1 E = some epic)
    (h : ∀ e' ∈ putEpic S1.epics { applyEpicPatch epic p with updated_at := now },
        e'.task_count = S1.tasks.countP (fun x => x.epic_id == e'.id) ∧
        e'.completed_count = S1.tasks.countP
          (fun x => (x.status == TaskStatus.done) && (x.epic_id == e'.id))) :
    countInvariant (updateEpic S1 now E p).1 := by
  rw [updateEpic_found S1 now E epic p hge]
  apply countInvariant_of_countP
  intro e' he'
  exact h e' he'

theorem startTask_invariant (s : Store) (now : String) (tid : TaskId)
    (agent : String) (baseCommit : Option String)
    (hwf : WF s) (hinv : countInvariant s) :
    countInvariant (startTask s now tid agent baseCommit).1 := by
  cases hget : getTask s tid with
  | none =>
    rw [startTask_none s now tid agent baseCommit hget]
    exact hinv
  | some t =>
    rw [startTask_some s now tid agent baseCommit t hget]
    by_cases hst : t.status ≠ TaskStatus.todo
    · rw [if_pos hst]
      exact hinv
    · rw [if_neg hst]
      have hst2 : t.status = TaskStatus.todo := not_not.mp hst
      apply countInvariant_of_countP
      intro e he
      rw [updateTask_epics] at he
      obtain ⟨h1, h2⟩ := countP_of_countInvariant s hinv e he
      refine ⟨?_, ?_⟩
      · rw [h1]
        refine (countP_updateTask_eq s now tid _ t _ hwf hget ?_).symm
        rfl
      · rw [h2]
        refine (countP_updateTask_eq s now tid _ t _ hwf hget ?_).symm
        show ((TaskStatus.in_progress == TaskStatus.done)
              && (t.epic_id == e.id))
            = ((t.status == TaskStatus.done) && (t.epic_id == e.id))
        rw [hst2]
        rfl

theorem unblockTask_invariant (s : Store) (now : String) (tid : TaskId)
    (hwf : WF s) (hinv : countInvariant s) :
    countInvariant (unblockTask s now tid).1 := by
  cases hget : getTask s tid with
  | none =>
    rw [unblockTask_none s now tid hget]
    exact hinv
  | some t =>
    rw [unblockTask_some s now tid t hget]
    by_cases hst : t.status ≠ TaskStatus.blocked
    · rw [if_pos hst]
      exact hinv
    · rw [if_neg hst]
      have hst2 : t.status = TaskStatus.blocked := not_not.mp hst
      apply countInvariant_of_countP
      intro e he
      rw [updateTask_epics] at he
      have hes : e ∈ s.epics := he
      obtain ⟨h1, h2⟩ := countP_of_countInvariant s hinv e hes
      refine ⟨?_, ?_⟩
      · rw [h1]
        refine (countP_updateTask_eq
          { s with blocks := removeKey s.blocks tid } now tid _ t _ hwf hget
          ?_).symm
        rfl
      · rw [h2]
        refine (countP_updateTask_eq
          { s with blocks := removeKey s.blocks tid } now tid _ t _ hwf hget
          ?_).symm
        show ((TaskStatus.todo == TaskStatus.done) && (t.epic_id == e.id))
            = ((t.status == TaskStatus.done) && (t.epic_id == e.id))
        rw [hst2]
        rfl

theorem blockTask_invariant (s : Store) (now : String) (tid : TaskId)
    (reason : String)
    (hwf : WF s) (hinv : countInvariant s)
    (hguard : ∀ y, getTask s tid = some y → y.status ≠ TaskStatus.done) :
    countInvariant (blockTask s now tid reason).1 := by
  cases hget : getTask s tid with
  | none =>
    rw [blockTask_none s now tid reason hget]
    exact hinv
  | some t =>
    rw [blockTask_some s now tid reason t hget]
    have hdone : t.status ≠ TaskStatus.done := hguard t hget
    have hdf : (t.status == TaskStatus.done) = false := by simpa using hdone
    apply countInvariant_of_countP
    intro e he
    rw [updateTask_epics] at he
    have hes : e ∈ s.epics := he
    obtain ⟨h1, h2⟩ := countP_of_countInvariant s hinv e hes
    refine ⟨?_, ?_⟩
    · rw [h1]
      refine (countP_updateTask_eq
        { s with blocks := setKey s.blocks tid (blockText t.title reason now) }
        now tid _ t _ hwf hget ?_).symm
      rfl
    · rw [h2]
      refine (countP_updateTask_eq
        { s with blocks := setKey s.blocks tid (blockText t.title reason now) }
        now tid _ t _ hwf hget ?_).symm
      show ((TaskStatus.blocked == TaskStatus.done) && (t.epic_id == e.id))
          = ((t.status == TaskStatus.done) && (t.epic_id == e.id))
      rw [hdf]
      rfl

theorem completeTask_invariant (s : Store) (now : String) (tid : TaskId)
    (summary : String) (ev : Option TaskEvidence)
    (hwf : WF s) (hinv : countInvariant s) :
    countInvariant (completeTask s now tid summary ev).1 := by
  cases hget : getTask s tid with
  | none =>
    rw [completeTask_none s now tid summary ev hget]
    exact hinv
  | some t =>
    by_cases hst : t.status ≠ TaskStatus.in_progress
    · rw [completeTask_fst_guard s now tid summary ev t hget hst]
      exact hinv
    · have hst2 : t.status = TaskStatus.in_progress := not_not.mp hst
      cases hge : getEpic (updateTask s now tid
          (completePatch now summary ev)).1 t.epic_id with
      | none =>
        rw [completeTask_fst_noepic s now tid summary ev t hget hst hge]
        apply countInvariant_of_countP
        intro e he
        rw [updateTask_epics] at he
        obtain ⟨h1, h2⟩ := countP_of_countInvariant s hinv e he
        have hne : e.id ≠ t.epic_id := by
          refine getEpic_none_ids _ t.epic_id hge e ?_
          rw [updateTask_epics]
          exact he
        have hnef : ((t.epic_id == e.id) : Bool) = false := by
          simpa using (Ne.symm hne)
        refine ⟨?_, ?_⟩
        · rw [h1]
          refine (countP_updateTask_eq s now tid _ t _ hwf hget ?_).symm
          rfl
        · rw [h2]
          refine (countP_updateTask_eq s now tid _ t _ hwf hget ?_).symm
          show ((TaskStatus.done == TaskStatus.done) && (t.epic_id == e.id))
              = ((t.status == TaskStatus.done) && (t.epic_id == e.id))
          rw [hnef, hst2]
          rfl
      | some epic =>
        rw [completeTask_fst_epic s now tid summary ev t epic hget hst hge]
        have hepicmem : epic ∈ s.epics := by
          have := getEpic_mem _ _ _ hge
          rw [updateTask_epics] at this
          exact this
        have hEid : epic.id = t.epic_id := getEpic_id _ _ _ hge
        obtain ⟨h1e, h2e⟩ := countP_of_countInvariant s hinv epic hepicmem
        apply countInvariant_updateEpic _ now _ _ epic hge
        intro e' he'
        rcases mem_putEpic_found _ _ e' he' epic (getEpic_mem _ _ _ hge) rfl
          with rfl | ⟨hmem', hne⟩
        · refine ⟨?_, ?_⟩
          · show epic.task_count
                = (updateTask s now tid (completePatch now summary ev)).1.tasks.countP
                    (fun x => x.epic_id == epic.id)
            rw [h1e]
            refine (countP_updateTask_eq s now tid _ t _ hwf hget ?_).symm
            rfl
          · show epic.completed_count + 1
                = (updateTask s now tid (completePatch now summary ev)).1.tasks.countP
                    (fun x => (x.status == TaskStatus.done)
                      && (x.epic_id == epic.id))
            have key := countP_updateTask_found2 s now tid
              (completePatch now summary ev) t
              (fun x => (x.status == TaskStatus.done) && (x.epic_id == epic.id))
              hwf hget false true
              (by
                show ((t.status == TaskStatus.done)
                      && (t.epic_id == epic.id)) = false
                rw [hst2]
                rfl)
              (by
                show ((TaskStatus.done == TaskStatus.done)
                      && (t.epic_id == epic.id)) = true
                rw [show ((t.epic_id == epic.id) : Bool) = true from
                  by simpa using hEid.symm]
                rfl)
            rw [show (if (false : Bool) then (1 : Nat) else 0) = 0 from rfl,
              show (if (true : Bool) then (1 : Nat) else 0) = 1 from rfl]
              at key
            omega
        · have hmem2 : e' ∈ s.epics := by
            rw [updateTask_epics] at hmem'
            exact hmem'
          have hne2 : e'.id ≠ epic.id := hne
          have hne3 : t.epic_id ≠ e'.id := by
            rw [← hEid]
            exact Ne.symm hne2
          have hnef : ((t.epic_id == e'.id) : Bool) = false := by
            simpa using hne3
          obtain ⟨h1', h2'⟩ := countP_of_countInvariant s hinv e' hmem2
          refine ⟨?_, ?_⟩
          · rw [h1']
            refine (countP_updateTask_eq s now tid _ t _ hwf hget ?_).symm
            rfl
          · rw [h2']
            refine (countP_updateTask_eq s now tid _ t _ hwf hget ?_).symm
            show ((TaskStatus.done == TaskStatus.done)
                  && (t.epic_id == e'.id))
                = ((t.status == TaskStatus.done) && (t.epic_id == e'.id))
            rw [hnef, hst2]
            rfl

theorem createTask_invariant (s : Store) (now epicId title : String)
    (description : Option String) (dependsOn : List TaskId)
    (hinv : countInvariant s) :
    countInvariant (createTask s now epicId title description dependsOn).1 := by
  cases hge : getEpic (createStore s now epicId title description dependsOn)
      epicId with
  | none =>
    rw [createTask_fst_noepic s now epicId title description dependsOn hge]
    apply countInvariant_of_countP
    intro e he
    have hes : e ∈ s.epics := he
    obtain ⟨h1, h2⟩ := countP_of_countInvariant s hinv e hes
    have hne : e.id ≠ epicId := getEpic_none_ids _ epicId hge e he
    have hnef : ((epicId == e.id) : Bool) = false := by
      simpa using (Ne.symm hne)
    refine ⟨?_, ?_⟩
    · rw [countP_createStore, h1,
        show (((createdTask s now epicId title dependsOn).epic_id == e.id)
            : Bool) = false from hnef]
      rfl
    · rw [countP_createStore, h2,
        show ((((createdTask s now epicId title dependsOn).status
                == TaskStatus.done)
              && ((createdTask s now epicId title dependsOn).epic_id == e.id))
            : Bool) = false from rfl]
      rfl
  | some epic =>
    rw [createTask_fst_epic s now epicId title description dependsOn epic hge]
    have hepicmem2 : epic ∈ s.epics := getEpic_mem _ _ _ hge
    have hEid : epic.id = epicId := getEpic_id _ _ _ hge
    obtain ⟨h1e, h2e⟩ := countP_of_countInvariant s hinv epic hepicmem2
    apply countInvariant_updateEpic _ now _ _ epic hge
    intro e' he'
    rcases mem_putEpic_found _ _ e' he' epic (getEpic_mem _ _ _ hge) rfl
      with rfl | ⟨hmem', hne⟩
    · refine ⟨?_, ?_⟩
      · show epic.task_count + 1
            = (createStore s now epicId title description dependsOn).tasks.countP
                (fun x => x.epic_id == epic.id)
        rw [countP_createStore, h1e,
          show (((createdTask s now epicId title dependsOn).epic_id
              == epic.id) : Bool) = true from by simpa using hEid.symm]
        rfl
      · show epic.completed_count
            = (createStore s now epicId title description dependsOn).tasks.countP
                (fun x => (x.status == TaskStatus.done)
                  && (x.epic_id == epic.id))
        rw [countP_createStore, h2e,
          show ((((createdTask s now epicId title dependsOn).status
                  == TaskStatus.done)
                && ((createdTask s now epicId title dependsOn).epic_id
                  == epic.id)) : Bool) = false from rfl]
        rfl
    · have hmem2 : e' ∈ s.epics := hmem'
      have hne2 : e'.id ≠ epic.id := hne
      have hne3 : e'.id ≠ epicId := by
        rw [← hEid]
        exact hne2
      have hnef : ((epicId == e'.id) : Bool) = false := by
        simpa using (Ne.symm hne3)
      obtain ⟨h1', h2'⟩ := countP_of_countInvariant s hinv e' hmem2
      refine ⟨?_, ?_⟩
      · rw [countP_createStore, h1',
          show (((createdTask s now epicId title dependsOn).epic_id == e'.id)
              : Bool) = false from hnef]
        rfl
      · rw [countP_createStore, h2',
          show ((((createdTask s now epicId title dependsOn).status
                  == TaskStatus.done)
                && ((createdTask s now epicId title dependsOn).epic_id
                  == e'.id)) : Bool) = false from rfl]
        rfl

end Crew

namespace Crew

theorem forall2_map_self {α : Type} (l : List α) (f : α → α)
    (R : α → α → Prop) (h : ∀ y ∈ l, R y (f y)) :
    List.Forall₂ R l (l.map f) := by
  induction l with
  | nil => exact List.Forall₂.nil
  | cons a rest ih =>
    rw [List.map_cons]
    exact List.Forall₂.cons (h a (List.mem_cons_self a rest))
      (ih (fun y hy => h y (List.mem_cons_of_mem _ hy)))

theorem forall2_mem_partner2 {α : Type} {R : α → α → Prop} {l1 l2 : List α}
    (h : List.Forall₂ R l1 l2) {v : α} (hv : v ∈ l2) :
    ∃ u ∈ l1, R u v := by
  induction h with
  | nil => simp at hv
  | cons hab hrest ih =>
    rename_i a b l1x l2x
    rcases List.mem_cons.mp hv with rfl | hv2
    · exact ⟨a, List.mem_cons_self a l1x, hab⟩
    · obtain ⟨u, hu, hR⟩ := ih hv2
      exact ⟨u, List.mem_cons_of_mem _ hu, hR⟩

theorem todoStepOn_refl (E : String) (l : List Task) :
    List.Forall₂ (TodoStepOn E) l l := by
  rw [List.forall₂_same]
  intro u _
  exact ⟨rfl, rfl, Or.inl rfl⟩

theorem todoStepOn_trans {E : String} {l1 l2 l3 : List Task}
    (h12 : List.Forall₂ (TodoStepOn E) l1 l2)
    (h23 : List.Forall₂ (TodoStepOn E) l2 l3) :
    List.Forall₂ (TodoStepOn E) l1 l3 := by
  induction h12 generalizing l3 with
  | nil => cases h23; exact List.Forall₂.nil
  | cons huv hrest ih =>
    cases h23 with
    | cons hvw hrest2 =>
      refine List.Forall₂.cons ?_ (ih hrest2)
      obtain ⟨hid1, hep1, hc1⟩ := huv
      obtain ⟨hid2, hep2, hc2⟩ := hvw
      refine ⟨hid2.trans hid1, hep2.trans hep1, ?_⟩
      rcases hc2 with h2 | ⟨hvE, hw⟩
      · rcases hc1 with h1 | ⟨huE, hv⟩
        · exact Or.inl (h2.trans h1)
        · exact Or.inr ⟨huE, h2.trans hv⟩
      · exact Or.inr ⟨hep1 ▸ hvE, hw⟩

theorem epicStep_refl (E : String) (l : List Epic) :
    List.Forall₂ (EpicStep E) l l := by
  rw [List.forall₂_same]
  intro u _
  exact ⟨rfl, rfl, Or.inl rfl⟩

theorem epicStep_trans {E : String} {l1 l2 l3 : List Epic}
    (h12 : List.Forall₂ (EpicStep E) l1 l2)
    (h23 : List.Forall₂ (EpicStep E) l2 l3) :
    List.Forall₂ (EpicStep E) l1 l3 := by
  induction h12 generalizing l3 with
  | nil => cases h23; exact List.Forall₂.nil
  | cons huv hrest ih =>
    cases h23 with
    | cons hvw hrest2 =>
      refine List.Forall₂.cons ?_ (ih hrest2)
      obtain ⟨hid1, htc1, hc1⟩ := huv
      obtain ⟨hid2, htc2, hc2⟩ := hvw
      refine ⟨hid2.trans hid1, htc2.trans htc1, ?_⟩
      rcases hc2 with h2 | h2
      · rcases hc1 with h1 | h1
        · exact Or.inl (h2.trans h1)
        · exact Or.inr h1
      · rcases hc1 with h1 | h1
        · exact Or.inr (h1 ▸ h2)
        · exact Or.inr h1

theorem updateTask_reset_relOn (s : Store) (now : String) (tid : TaskId)
    (hwf : WF s) :
    ∀ task, getTask s tid = some task →
      List.Forall₂ (TodoStepOn task.epic_id) s.tasks
        (updateTask s now tid resetPatch).1.tasks := by
  intro task hget
  obtain ⟨hmem, _⟩ := getTask_some_mem s tid task hget
  unfold updateTask
  rw [hget]
  show List.Forall₂ (TodoStepOn task.epic_id) s.tasks (putKeyed (fun (w : Task) => w.id) s.tasks { applyTaskPatch task resetPatch with updated_at := now })
  rw [putKeyed_of_any (fun (w : Task) => w.id) s.tasks
    { applyTaskPatch task resetPatch with updated_at := now }
    (List.any_eq_true.mpr ⟨task, hmem, beq_self_eq_true task.id⟩)]
  apply forall2_map_self
  intro y hy
  by_cases hb :
      (y.id == ({ applyTaskPatch task resetPatch with updated_at := now } : Task).id)
        = true
  · rw [if_pos hb]
    have hyt : y = task := List.inj_on_of_nodup_map hwf hy hmem (eq_of_beq hb)
    subst hyt
    exact ⟨rfl, rfl, Or.inr ⟨rfl, rfl⟩⟩
  · rw [if_neg hb]
    exact ⟨rfl, rfl, Or.inl rfl⟩

theorem updateEpic_epilogue_rel (S : Store) (now E : String) (epic : Epic)
    (hge : getEpic S E = some epic) (hewf : epicWF S) (p : EpicPatch)
    (htc : p.task_count = none) :
    List.Forall₂ (EpicStep E) S.epics (updateEpic S now E p).1.epics := by
  have hmem := getEpic_mem S E epic hge
  have hid := getEpic_id S E epic hge
  rw [updateEpic_found S now E epic p hge]
  show List.Forall₂ (EpicStep E) S.epics (putKeyed (fun (w : Epic) => w.id) S.epics { applyEpicPatch epic p with updated_at := now })
  rw [putKeyed_of_any (fun (w : Epic) => w.id) S.epics
    { applyEpicPatch epic p with updated_at := now }
    (List.any_eq_true.mpr ⟨epic, hmem, beq_self_eq_true epic.id⟩)]
  apply forall2_map_self
  intro y hy
  by_cases hb :
      (y.id == ({ applyEpicPatch epic p with updated_at := now } : Epic).id)
        = true
  · rw [if_pos hb]
    have hyt : y = epic := List.inj_on_of_nodup_map hewf hy hmem (eq_of_beq hb)
    subst hyt
    refine ⟨rfl, ?_, Or.inr hid⟩
    show p.task_count.getD y.task_count = y.task_count
    rw [htc]
    rfl
  · rw [if_neg hb]
    exact ⟨rfl, rfl, Or.inl rfl⟩

theorem resetEpilogue_len0 (now E : String) (r2 : Store × List Task)
    (h : ¬ r2.2.length > 0) : resetEpilogue now E r2 = r2 := by
  unfold resetEpilogue
  rw [if_neg h]

theorem resetEpilogue_pos_none (now E : String) (r2 : Store × List Task)
    (h : r2.2.length > 0) (hge : getEpic r2.1 E = none) :
    resetEpilogue now E r2 = r2 := by
  unfold resetEpilogue
  rw [if_pos h, hge]

theorem resetEpilogue_pos_some (now E : String) (r2 : Store × List Task)
    (epic : Epic) (h : r2.2.length > 0) (hge : getEpic r2.1 E = some epic) :
    resetEpilogue now E r2
      = ((updateEpic r2.1 now E
          { completed_count :=
              some ((getTasks r2.1 E).filter
                (fun t => t.status == .done)).length,
            status := some
              (if ((getTasks r2.1 E).filter
                    (fun t => t.status == .done)).length < epic.task_count
               then .active else .completed) }).1,
         r2.2) := by
  unfold resetEpilogue
  rw [if_pos h, hge]

theorem resetEpilogue_relE (now E : String) (r2 : Store × List Task)
    (hewf : epicWF r2.1) :
    List.Forall₂ (EpicStep E) r2.1.epics (resetEpilogue now E r2).1.epics := by
  by_cases hlen : r2.2.length > 0
  · cases hge : getEpic r2.1 E with
    | none =>
      rw [resetEpilogue_pos_none now E r2 hlen hge]
      exact epicStep_refl E _
    | some epic =>
      rw [resetEpilogue_pos_some now E r2 epic hlen hge]
      exact updateEpic_epilogue_rel r2.1 now E epic hge hewf _ rfl
  · rw [resetEpilogue_len0 now E r2 hlen]
    exact epicStep_refl E _

theorem epilogue_old_epic_counts (s0 : Store) (E : String)
    (tasks2 : List Task)
    (hrelT : List.Forall₂ (TodoStepOn E) s0.tasks tasks2)
    (hinv : countInvariant s0) (e' : Epic) (hmem : e' ∈ s0.epics)
    (hne : e'.id ≠ E) :
    e'.task_count = tasks2.countP (fun x => x.epic_id == e'.id) ∧
    e'.completed_count = tasks2.countP
      (fun x => (x.status == TaskStatus.done) && (x.epic_id == e'.id)) := by
  obtain ⟨h1, h2⟩ := countP_of_countInvariant s0 hinv e' hmem
  refine ⟨?_, ?_⟩
  · rw [h1]
    refine (countP_eq_of_forall2 _ hrelT ?_).symm
    intro u2 v2 hR2
    obtain ⟨hid2, hep2, _⟩ := hR2
    show (v2.epic_id == e'.id) = (u2.epic_id == e'.id)
    rw [hep2]
  · rw [h2]
    refine (countP_eq_of_forall2 _ hrelT ?_).symm
    intro u2 v2 hR2
    obtain ⟨hid2, hep2, hcase2⟩ := hR2
    show ((v2.status == TaskStatus.done) && (v2.epic_id == e'.id))
        = ((u2.status == TaskStatus.done) && (u2.epic_id == e'.id))
    rw [hep2]
    rcases hcase2 with h | ⟨huE, hvtodo⟩
    · rw [h]
    · have hf : (u2.epic_id == e'.id) = false := by
        simpa using (show u2.epic_id ≠ e'.id from by
          rw [huE]; exact Ne.symm hne)
      rw [hf, hvtodo, Bool.and_false, Bool.and_false]

theorem resetEpilogue_invariant (s0 : Store) (now E : String)
    (r2 : Store × List Task)
    (hrelT : List.Forall₂ (TodoStepOn E) s0.tasks r2.1.tasks)
    (hrelE : List.Forall₂ (EpicStep E) s0.epics r2.1.epics)
    (hinv : countInvariant s0) (hlen : r2.2.length > 0) :
    countInvariant (resetEpilogue now E r2).1 := by
  cases hge : getEpic r2.1 E with
  | none =>
    rw [resetEpilogue_pos_none now E r2 hlen hge]
    apply countInvariant_of_countP
    intro e' he'
    have hne : e'.id ≠ E := getEpic_none_ids r2.1 E hge e' he'
    obtain ⟨u, hu, hR⟩ := forall2_mem_partner2 hrelE he'
    obtain ⟨hid, htc, hcase⟩ := hR
    have hue : e' = u := by
      rcases hcase with h | h
      · exact h
      · exact absurd (hid.trans h) hne
    rw [hue] at hne ⊢
    exact epilogue_old_epic_counts s0 E r2.1.tasks hrelT hinv u hu hne
  | some epicF =>
    rw [resetEpilogue_pos_some now E r2 epicF hlen hge]
    have hFid : epicF.id = E := getEpic_id _ _ _ hge
    apply countInvariant_updateEpic _ now _ _ epicF hge
    intro e' he'
    rcases mem_putEpic_found _ _ e' he' epicF (getEpic_mem _ _ _ hge) rfl
      with rfl | ⟨hmem', hne⟩
    · have hge2 : r2.1.epics.find? (fun (w : Epic) => w.id == E) = some epicF :=
        hge
      obtain ⟨e0, he0find, hR0⟩ := find?_align (fun (w : Epic) => w.id == E)
        hrelE
        (fun u v hR => by
          obtain ⟨hidh, _, _⟩ := hR
          show (v.id == E) = (u.id == E)
          rw [hidh]) epicF hge2
      have he0mem : e0 ∈ s0.epics := List.mem_of_find?_eq_some he0find
      obtain ⟨hid0, htc0, _⟩ := hR0
      obtain ⟨h1e0, h2e0⟩ := countP_of_countInvariant s0 hinv e0 he0mem
      refine ⟨?_, ?_⟩
      · show epicF.task_count
            = r2.1.tasks.countP (fun x => x.epic_id == epicF.id)
        rw [htc0, h1e0, hid0]
        refine (countP_eq_of_forall2 _ hrelT ?_).symm
        intro u2 v2 hR2
        obtain ⟨_, hep2, _⟩ := hR2
        show (v2.epic_id == e0.id) = (u2.epic_id == e0.id)
        rw [hep2]
      · show ((getTasks r2.1 E).filter
              (fun t => t.status == TaskStatus.done)).length
            = r2.1.tasks.countP
                (fun x => (x.status == TaskStatus.done)
                  && (x.epic_id == epicF.id))
        rw [filter_getTasks_countP, hFid]
    · have hne2 : e'.id ≠ E := by
        rw [← hFid]
        exact hne
      obtain ⟨u, hu, hR⟩ := forall2_mem_partner2 hrelE hmem'
      obtain ⟨hid, htc, hcase⟩ := hR
      have hue : e' = u := by
        rcases hcase with h | h
        · exact h
        · exact absurd (hid.trans h) hne2
      rw [hue] at hne2 ⊢
      exact epilogue_old_epic_counts s0 E r2.1.tasks hrelT hinv u hu hne2

end Crew

namespace Crew

theorem foldl_cascadeStep_relOn (f : Nat) (now : String) (tid : TaskId)
    (E : String)
    (IH : ∀ (s : Store) (now2 : String) (tid2 : TaskId) (c2 : Bool)
        (res2 : Store × List Task),
        WF s → epicWF s →
        (∀ u, getTask s tid2 = some u → u.epic_id = E) →
        resetTaskFuel f s now2 tid2 c2 = some res2 →
        List.Forall₂ (TodoStepOn E) s.tasks res2.1.tasks
          ∧ List.Forall₂ (EpicStep E) s.epics res2.1.epics) :
    ∀ (l : List Task) (base : Store),
      (∀ t ∈ l, t ∈ base.tasks ∧ t.epic_id = E) → WF base →
      ∀ (sAcc : Store) (lAcc : List Task) (out : Store × List Task),
        WF sAcc → epicWF sAcc →
        List.Forall₂ (TodoStepOn E) base.tasks sAcc.tasks →
        List.Forall₂ (EpicStep E) base.epics sAcc.epics →
        l.foldl (cascadeStep f now tid) (some (sAcc, lAcc)) = some out →
        List.Forall₂ (TodoStepOn E) base.tasks out.1.tasks
          ∧ List.Forall₂ (EpicStep E) base.epics out.1.epics := by
  intro l
  induction l with
  | nil =>
    intro base hl hwfb sAcc lAcc out _ _ hrT hrE h
    rw [List.foldl_nil] at h
    obtain rfl := Option.some.inj h
    exact ⟨hrT, hrE⟩
  | cons t rest ihl =>
    intro base hl hwfb sAcc lAcc out hwfA hewfA hrT hrE h
    rw [List.foldl_cons, cascadeStep_some] at h
    by_cases hc : tid ∈ t.depends_on ∧ t.status ≠ TaskStatus.todo
    · rw [if_pos hc] at h
      cases hr : resetTaskFuel f sAcc now t.id true with
      | none =>
        rw [hr] at h
        have h2 : rest.foldl (cascadeStep f now tid) none = some out := h
        rw [foldl_cascadeStep_none] at h2
        exact Option.noConfusion h2
      | some r2 =>
        rw [hr] at h
        obtain ⟨s2, casc⟩ := r2
        have h2 : rest.foldl (cascadeStep f now tid) (some (s2, lAcc ++ casc))
            = some out := h
        have hroot : ∀ u, getTask sAcc t.id = some u → u.epic_id = E := by
          intro u hu
          obtain ⟨humem, huid⟩ := getTask_some_mem sAcc t.id u hu
          obtain ⟨w, hw, hRw⟩ := forall2_mem_partner2 hrT humem
          obtain ⟨hwid, hwep, _⟩ := hRw
          have hwt : w = t := List.inj_on_of_nodup_map hwfb hw
            (hl t (List.mem_cons_self t rest)).1 (hwid.symm.trans huid)
          rw [hwep, hwt]
          exact (hl t (List.mem_cons_self t rest)).2
        obtain ⟨hrT2, hrE2⟩ := IH sAcc now t.id true (s2, casc) hwfA hewfA
          hroot hr
        obtain ⟨_, hids2⟩ := resetTaskFuel_relids f sAcc now t.id true
          (s2, casc) hr
        have hwf2 : WF s2 := wf_of_ids_eq hids2 hwfA
        have heids2 : s2.epics.map (fun e => e.id)
            = sAcc.epics.map (fun e => e.id) :=
          map_eq_of_forall2 _ hrE2 (fun u v hR => hR.1)
        have hewf2 : epicWF s2 := by
          unfold epicWF at hewfA ⊢
          rw [heids2]
          exact hewfA
        exact ihl base (fun u hu => hl u (List.mem_cons_of_mem _ hu)) hwfb
          s2 (lAcc ++ casc) out hwf2 hewf2
          (todoStepOn_trans hrT hrT2) (epicStep_trans hrE hrE2) h2
    · rw [if_neg hc] at h
      exact ihl base (fun u hu => hl u (List.mem_cons_of_mem _ hu)) hwfb
        sAcc lAcc out hwfA hewfA hrT hrE h

theorem resetTaskFuel_relOn :
    ∀ (fuel : Nat) (s : Store) (now : String) (tid : TaskId) (c : Bool)
      (E : String) (res : Store × List Task),
      WF s → epicWF s →
      (∀ u, getTask s tid = some u → u.epic_id = E) →
      resetTaskFuel fuel s now tid c = some res →
      List.Forall₂ (TodoStepOn E) s.tasks res.1.tasks
        ∧ List.Forall₂ (EpicStep E) s.epics res.1.epics := by
  intro fuel
  induction fuel with
  | zero =>
    intro s now tid c E res _ _ _ h
    rw [resetTaskFuel_zero] at h
    exact Option.noConfusion h
  | succ f ih =>
    intro s now tid c E res hwf hewf hroot h
    cases hget : getTask s tid with
    | none =>
      rw [resetTaskFuel_succ_none f s now tid c hget] at h
      obtain rfl := Option.some.inj h
      exact ⟨todoStepOn_refl E _, epicStep_refl E _⟩
    | some task =>
      have hE : task.epic_id = E := hroot task hget
      subst hE
      have hrT1 : List.Forall₂ (TodoStepOn task.epic_id) s.tasks
          (updateTask s now tid resetPatch).1.tasks :=
        updateTask_reset_relOn s now tid hwf task hget
      have hwf1 : WF (updateTask s now tid resetPatch).1 :=
        wf_of_ids_eq (updateTask_ids s now tid resetPatch) hwf
      have hepics1 : (updateTask s now tid resetPatch).1.epics = s.epics :=
        updateTask_epics s now tid resetPatch
      have hewf1 : epicWF (updateTask s now tid resetPatch).1 := by
        unfold epicWF at hewf ⊢
        rw [hepics1]
        exact hewf
      cases c with
      | false =>
        rw [resetTaskFuel_succ_some_false f s now tid task hget] at h
        obtain rfl := Option.some.inj h
        constructor
        · rw [(resetEpilogue_tasks now task.epic_id _).1]
          exact hrT1
        · rw [← hepics1]
          exact resetEpilogue_relE now task.epic_id
            ((updateTask s now tid resetPatch).1,
             (updateTask s now tid resetPatch).2.toList) hewf1
      | true =>
        rw [resetTaskFuel_succ_some_true f s now tid task hget] at h
        cases hfold :
            (getTasks (updateTask s now tid resetPatch).1 task.epic_id).foldl
              (cascadeStep f now tid)
              (some ((updateTask s now tid resetPatch).1,
                (updateTask s now tid resetPatch).2.toList)) with
        | none =>
          rw [hfold] at h
          exact Option.noConfusion h
        | some r2 =>
          rw [hfold] at h
          obtain rfl := Option.some.inj h
          obtain ⟨hrT2, hrE2⟩ := foldl_cascadeStep_relOn f now tid
            task.epic_id
            (fun s2 now2 tid2 c2 res2 hwf2 hewf2 hroot2 hh =>
              ih s2 now2 tid2 c2 task.epic_id res2 hwf2 hewf2 hroot2 hh)
            (getTasks (updateTask s now tid resetPatch).1 task.epic_id)
            (updateTask s now tid resetPatch).1
            (fun u hu => ⟨((mem_getTasks _ _ u).mp hu).1,
              ((mem_getTasks _ _ u).mp hu).2⟩)
            hwf1
            (updateTask s now tid resetPatch).1
            (updateTask s now tid resetPatch).2.toList r2
            hwf1 hewf1 (todoStepOn_refl _ _) (epicStep_refl _ _) hfold
          have heidsF : r2.1.epics.map (fun e => e.id)
              = (updateTask s now tid resetPatch).1.epics.map (fun e => e.id) :=
            map_eq_of_forall2 _ hrE2 (fun u v hR => hR.1)
          have hewfF : epicWF r2.1 := by
            unfold epicWF at hewf1 ⊢
            rw [heidsF]
            exact hewf1
          constructor
          · rw [(resetEpilogue_tasks now task.epic_id _).1]
            exact todoStepOn_trans hrT1 hrT2
          · refine epicStep_trans ?_
              (resetEpilogue_relE now task.epic_id r2 hewfF)
            rw [hepics1] at hrE2
            exact hrE2

theorem foldl_cascadeStep_extends (f : Nat) (now : String) (tid : TaskId) :
    ∀ (l : List Task) (sAcc : Store) (lAcc : List Task)
      (out : Store × List Task),
      l.foldl (cascadeStep f now tid) (some (sAcc, lAcc)) = some out →
      ∃ ext, out.2 = lAcc ++ ext := by
  intro l
  induction l with
  | nil =>
    intro sAcc lAcc out h
    rw [List.foldl_nil] at h
    obtain rfl := Option.some.inj h
    exact ⟨[], (List.append_nil lAcc).symm⟩
  | cons t rest ihl =>
    intro sAcc lAcc out h
    rw [List.foldl_cons, cascadeStep_some] at h
    by_cases hc : tid ∈ t.depends_on ∧ t.status ≠ TaskStatus.todo
    · rw [if_pos hc] at h
      cases hr : resetTaskFuel f sAcc now t.id true with
      | none =>
        rw [hr] at h
        have h2 : rest.foldl (cascadeStep f now tid) none = some out := h
        rw [foldl_cascadeStep_none] at h2
        exact Option.noConfusion h2
      | some r2 =>
        rw [hr] at h
        obtain ⟨s2, casc⟩ := r2
        have h2 : rest.foldl (cascadeStep f now tid) (some (s2, lAcc ++ casc))
            = some out := h
        obtain ⟨ext, hext⟩ := ihl s2 (lAcc ++ casc) out h2
        exact ⟨casc ++ ext, by rw [hext, List.append_assoc]⟩
    · rw [if_neg hc] at h
      exact ihl sAcc lAcc out h

theorem resetTask_countInvariant (s : Store) (now : String) (tid : TaskId)
    (c : Bool) (hwf : WF s) (hewf : epicWF s) (hinv : countInvariant s) :
    countInvariant (resetTask s now tid c).1 := by
  cases hres : resetTaskFuel (countNonTodo s + 1) s now tid c with
  | none =>
    unfold resetTask
    rw [hres]
    exact hinv
  | some res =>
    unfold resetTask
    rw [hres]
    show countInvariant res.1
    cases hget : getTask s tid with
    | none =>
      rw [resetTaskFuel_succ_none (countNonTodo s) s now tid c hget] at hres
      obtain rfl := Option.some.inj hres
      exact hinv
    | some task =>
      cases c with
      | false =>
        rw [resetTaskFuel_succ_some_false (countNonTodo s) s now tid task
          hget] at hres
        obtain rfl := Option.some.inj hres
        refine resetEpilogue_invariant s now task.epic_id _ ?_ ?_ hinv ?_
        · exact updateTask_reset_relOn s now tid hwf task hget
        · rw [updateTask_epics]
          exact epicStep_refl _ _
        · rw [updateTask_snd_some s now tid resetPatch task hget]
          exact Nat.one_pos
      | true =>
        rw [resetTaskFuel_succ_some_true (countNonTodo s) s now tid task
          hget] at hres
        cases hfold :
            (getTasks (updateTask s now tid resetPatch).1 task.epic_id).foldl
              (cascadeStep (countNonTodo s) now tid)
              (some ((updateTask s now tid resetPatch).1,
                (updateTask s now tid resetPatch).2.toList)) with
        | none =>
          rw [hfold] at hres
          exact Option.noConfusion hres
        | some r2 =>
          rw [hfold] at hres
          obtain rfl := Option.some.inj hres
          have hwf1 : WF (updateTask s now tid resetPatch).1 :=
            wf_of_ids_eq (updateTask_ids s now tid resetPatch) hwf
          have hepics1 : (updateTask s now tid resetPatch).1.epics = s.epics :=
            updateTask_epics s now tid resetPatch
          have hewf1 : epicWF (updateTask s now tid resetPatch).1 := by
            unfold epicWF at hewf ⊢
            rw [hepics1]
            exact hewf
          obtain ⟨hrT2, hrE2⟩ := foldl_cascadeStep_relOn (countNonTodo s) now
            tid task.epic_id
            (fun s2 now2 tid2 c2 res2 hwf2 hewf2 hroot2 hh =>
              resetTaskFuel_relOn (countNonTodo s) s2 now2 tid2 c2
                task.epic_id res2 hwf2 hewf2 hroot2 hh)
            (getTasks (updateTask s now tid resetPatch).1 task.epic_id)
            (updateTask s now tid resetPatch).1
            (fun u hu => ⟨((mem_getTasks _ _ u).mp hu).1,
              ((mem_getTasks _ _ u).mp hu).2⟩)
            hwf1
            (updateTask s now tid resetPatch).1
            (updateTask s now tid resetPatch).2.toList r2
            hwf1 hewf1 (todoStepOn_refl _ _) (epicStep_refl _ _) hfold
          have hrTfull : List.Forall₂ (TodoStepOn task.epic_id) s.tasks
              r2.1.tasks :=
            todoStepOn_trans (updateTask_reset_relOn s now tid hwf task hget)
              hrT2
          have hrEfull : List.Forall₂ (EpicStep task.epic_id) s.epics
              r2.1.epics := by
            rw [hepics1] at hrE2
            exact hrE2
          obtain ⟨ext, hext⟩ := foldl_cascadeStep_extends (countNonTodo s)
            now tid _ _ _ r2 hfold
          have hlen : r2.2.length > 0 := by
            rw [hext, updateTask_snd_some s now tid resetPatch task hget]
            exact Nat.succ_pos ext.length
          exact resetEpilogue_invariant s now task.epic_id r2 hrTfull
            hrEfull hinv hlen

end Crew

namespace Crew

/-- C2 counterexample: `blockTask` has no source-status guard, so blocking
a task that is already `done` leaves the epic's `completed_count` stale:
the one-done-task store satisfies the count invariant before the block and
violates it afterwards. -/
theorem counts_invariant_cex :
    WF closeWitnessStore ∧ epicWF closeWitnessStore
      ∧ countInvariant closeWitnessStore
      ∧ ¬ countInvariant
          (applyTaskOp closeWitnessStore (.block "t1" ("c-1-abc", 1) "r")) := by
  refine ⟨?_, ?_, ?_, ?_⟩
  · unfold WF
    decide
  · unfold epicWF
    decide
  · unfold countInvariant
    decide
  · unfold countInvariant
    decide

/-- C2 (amended): on a store whose task and epic files carry distinct ids,
every successful task lifecycle operation — `createTask`, `startTask`,
`completeTask`, `unblockTask`, `resetTask`, and `blockTask` when the target
is not already `done` — preserves the per-epic count invariant:
`task_count` is the number of task records of the epic and
`completed_count` the number of those in status `done`.  (`blockTask` has
no source-status guard, so the `done` exclusion is a genuine side
condition; see the counterexample.) -/
theorem counts_invariant_preserved (s : Store) (op : TaskOp)
    (hwf : WF s) (hewf : epicWF s) (hinv : countInvariant s)
    (hguard : blockGuard s op) :
    countInvariant (applyTaskOp s op) := by
  cases op with
  | create now epicId title description dependsOn =>
    exact createTask_invariant s now epicId title description dependsOn hinv
  | start now taskId agent baseCommit =>
    exact startTask_invariant s now taskId agent baseCommit hwf hinv
  | complete now taskId summary evidence =>
    exact completeTask_invariant s now taskId summary evidence hwf hinv
  | block now taskId reason =>
    exact blockTask_invariant s now taskId reason hwf hinv hguard
  | unblock now taskId =>
    exact unblockTask_invariant s now taskId hwf hinv
  | reset now taskId cascade =>
    exact resetTask_countInvariant s now taskId cascade hwf hewf hinv

theorem counts_invariant_preserved_witness :
    WF blockWitnessStore ∧ epicWF blockWitnessStore
      ∧ countInvariant blockWitnessStore
      ∧ blockGuard blockWitnessStore (.block "t1" ("e", 1) "why")
      ∧ countInvariant
          (applyTaskOp blockWitnessStore (.block "t1" ("e", 1) "why")) := by
  have hg : blockGuard blockWitnessStore (.block "t1" ("e", 1) "why") := by
    intro y hy
    have h0 : getTask blockWitnessStore ("e", 1) = some blockWitnessTask :=
      rfl
    rw [h0] at hy
    obtain rfl := Option.some.inj hy
    decide
  refine ⟨?_, ?_, ?_, hg, ?_⟩
  · unfold WF
    decide
  · unfold epicWF
    decide
  · unfold countInvariant
    decide
  · exact counts_invariant_preserved blockWitnessStore _
      (by unfold WF; decide) (by unfold epicWF; decide)
      (by unfold countInvariant; decide) hg

end Crew

namespace Crew

theorem saveCheckpoint_none (s : Store) (now E : String)
    (hge : getEpic s E = none) : saveCheckpoint s now E = (s, none) := by
  unfold saveCheckpoint
  rw [hge]

theorem saveCheckpoint_found (s : Store) (now E : String) (epic : Epic)
    (hge : getEpic s E = some epic) :
    saveCheckpoint s now E
      = ({ s with checkpoints :=
            setKey s.checkpoints E (savedCheckpoint s now E epic) },
         some (savedCheckpoint s now E epic)) := by
  unfold saveCheckpoint
  rw [hge]
  rfl

theorem restoreCheckpoint_none (s : Store) (E : String)
    (hcp : getCheckpoint s E = none) : restoreCheckpoint s E = none := by
  unfold restoreCheckpoint
  rw [hcp]

theorem restoreCheckpoint_found (s : Store) (E : String) (cp : Checkpoint)
    (hcp : getCheckpoint s E = some cp) :
    restoreCheckpoint s E
      = some (cp.tasks.foldl (restoreStep cp)
          { s with
            epics := putEpic s.epics cp.epic,
            epicSpecs := setKey s.epicSpecs E cp.epic_spec }) := by
  unfold restoreCheckpoint
  rw [hcp]
  rfl

theorem restoreStep_eq_set (cp : Checkpoint) (S : Store) (u : Task)
    (sp : String) (hsp : lookupKey cp.task_specs u.id = some sp)
    (hne : sp ≠ "") :
    restoreStep cp S u
      = { S with
          tasks := putTask S.tasks u,
          taskSpecs := setKey S.taskSpecs u.id sp } := by
  unfold restoreStep
  rw [hsp]
  show (if sp ≠ "" then ({ S with tasks := putTask S.tasks u, taskSpecs := setKey S.taskSpecs u.id sp } : Store) else { S with tasks := putTask S.tasks u }) = _
  rw [if_pos hne]

theorem restoreStep_eq_plain_none (cp : Checkpoint) (S : Store) (u : Task)
    (hsp : lookupKey cp.task_specs u.id = none) :
    restoreStep cp S u = { S with tasks := putTask S.tasks u } := by
  unfold restoreStep
  rw [hsp]

theorem restoreStep_eq_plain_empty (cp : Checkpoint) (S : Store) (u : Task)
    (sp : String) (hsp : lookupKey cp.task_specs u.id = some sp)
    (hne : ¬ sp ≠ "") :
    restoreStep cp S u = { S with tasks := putTask S.tasks u } := by
  unfold restoreStep
  rw [hsp]
  show (if sp ≠ "" then ({ S with tasks := putTask S.tasks u, taskSpecs := setKey S.taskSpecs u.id sp } : Store) else { S with tasks := putTask S.tasks u }) = _
  rw [if_neg hne]

theorem restoreStep_tasks (cp : Checkpoint) (S : Store) (t : Task) :
    (restoreStep cp S t).tasks = putTask S.tasks t := by
  cases hsp : lookupKey cp.task_specs t.id with
  | none => rw [restoreStep_eq_plain_none cp S t hsp]
  | some sp =>
    by_cases hne : sp ≠ ""
    · rw [restoreStep_eq_set cp S t sp hsp hne]
    · rw [restoreStep_eq_plain_empty cp S t sp hsp hne]

theorem restoreStep_sides (cp : Checkpoint) (S : Store) (t : Task) :
    (restoreStep cp S t).epics = S.epics
      ∧ (restoreStep cp S t).epicSpecs = S.epicSpecs
      ∧ (restoreStep cp S t).checkpoints = S.checkpoints := by
  cases hsp : lookupKey cp.task_specs t.id with
  | none =>
    rw [restoreStep_eq_plain_none cp S t hsp]
    exact ⟨rfl, rfl, rfl⟩
  | some sp =>
    by_cases hne : sp ≠ ""
    · rw [restoreStep_eq_set cp S t sp hsp hne]
      exact ⟨rfl, rfl, rfl⟩
    · rw [restoreStep_eq_plain_empty cp S t sp hsp hne]
      exact ⟨rfl, rfl, rfl⟩

theorem restore_fold_sides (cp : Checkpoint) :
    ∀ (l : List Task) (S : Store),
      (l.foldl (restoreStep cp) S).epics = S.epics
        ∧ (l.foldl (restoreStep cp) S).epicSpecs = S.epicSpecs := by
  intro l
  induction l with
  | nil =>
    intro S
    exact ⟨rfl, rfl⟩
  | cons u rest ih =>
    intro S
    rw [List.foldl_cons]
    refine ⟨?_, ?_⟩
    · rw [(ih _).1, (restoreStep_sides cp S u).1]
    · rw [(ih _).2, (restoreStep_sides cp S u).2.1]

theorem restoreStep_getTask_self (cp : Checkpoint) (S : Store) (u : Task) :
    getTask (restoreStep cp S u) u.id = some u := by
  show (restoreStep cp S u).tasks.find? (fun x => x.id == u.id) = some u
  rw [restoreStep_tasks]
  exact find?_putTask_self S.tasks u

theorem restoreStep_getTask_other (cp : Checkpoint) (S : Store) (u : Task)
    (k : TaskId) (hk : k ≠ u.id) :
    getTask (restoreStep cp S u) k = getTask S k := by
  show (restoreStep cp S u).tasks.find? (fun x => x.id == k)
      = S.tasks.find? (fun x => x.id == k)
  rw [restoreStep_tasks]
  exact find?_putTask_ne S.tasks u k hk

theorem restore_fold_getTask_other (cp : Checkpoint) :
    ∀ (l : List Task) (S : Store) (k : TaskId),
      (∀ t ∈ l, t.id ≠ k) →
      getTask (l.foldl (restoreStep cp) S) k = getTask S k := by
  intro l
  induction l with
  | nil =>
    intro S k _
    rfl
  | cons u rest ih =>
    intro S k h
    rw [List.foldl_cons, ih _ k (fun t ht => h t (List.mem_cons_of_mem _ ht)),
      restoreStep_getTask_other cp S u k
        (Ne.symm (h u (List.mem_cons_self u rest)))]

theorem restore_fold_getTask (cp : Checkpoint) :
    ∀ (l : List Task) (S : Store), (l.map (fun t => t.id)).Nodup →
      ∀ t ∈ l, getTask (l.foldl (restoreStep cp) S) t.id = some t := by
  intro l
  induction l with
  | nil =>
    intro S _ t ht
    simp at ht
  | cons u rest ih =>
    intro S hnd t ht
    rw [List.map_cons, List.nodup_cons] at hnd
    obtain ⟨hu, hnd2⟩ := hnd
    rw [List.foldl_cons]
    rcases List.mem_cons.mp ht with rfl | ht2
    · have hne : ∀ t' ∈ rest, t'.id ≠ t.id := by
        intro t' ht' hc
        exact hu (by rw [← hc]; exact List.mem_map.mpr ⟨t', ht', rfl⟩)
      rw [restore_fold_getTask_other cp rest _ t.id hne]
      exact restoreStep_getTask_self cp S t
    · exact ih _ hnd2 t ht2

theorem restoreStep_getTaskSpec_other (cp : Checkpoint) (S : Store)
    (u : Task) (k : TaskId) (hk : k ≠ u.id) :
    getTaskSpec (restoreStep cp S u) k = getTaskSpec S k := by
  cases hsp : lookupKey cp.task_specs u.id with
  | none =>
    rw [restoreStep_eq_plain_none cp S u hsp]
    rfl
  | some sp =>
    by_cases hne : sp ≠ ""
    · rw [restoreStep_eq_set cp S u sp hsp hne]
      show lookupKey (setKey S.taskSpecs u.id sp) k = lookupKey S.taskSpecs k
      exact lookupKey_setKey_ne S.taskSpecs u.id k sp hk
    · rw [restoreStep_eq_plain_empty cp S u sp hsp hne]
      rfl

theorem restore_fold_getTaskSpec_other (cp : Checkpoint) :
    ∀ (l : List Task) (S : Store) (k : TaskId),
      (∀ t ∈ l, t.id ≠ k) →
      getTaskSpec (l.foldl (restoreStep cp) S) k = getTaskSpec S k := by
  intro l
  induction l with
  | nil =>
    intro S k _
    rfl
  | cons u rest ih =>
    intro S k h
    rw [List.foldl_cons, ih _ k (fun t ht => h t (List.mem_cons_of_mem _ ht)),
      restoreStep_getTaskSpec_other cp S u k
        (Ne.symm (h u (List.mem_cons_self u rest)))]

theorem restore_fold_getTaskSpec (cp : Checkpoint) :
    ∀ (l : List Task) (S : Store), (l.map (fun t => t.id)).Nodup →
      ∀ t ∈ l, ∀ sp, lookupKey cp.task_specs t.id = some sp → sp ≠ "" →
        getTaskSpec (l.foldl (restoreStep cp) S) t.id = some sp := by
  intro l
  induction l with
  | nil =>
    intro S _ t ht
    simp at ht
  | cons u rest ih =>
    intro S hnd t ht sp hsp hne
    rw [List.map_cons, List.nodup_cons] at hnd
    obtain ⟨hu, hnd2⟩ := hnd
    rw [List.foldl_cons]
    rcases List.mem_cons.mp ht with rfl | ht2
    · have hne2 : ∀ t' ∈ rest, t'.id ≠ t.id := by
        intro t' ht' hc
        exact hu (by rw [← hc]; exact List.mem_map.mpr ⟨t', ht', rfl⟩)
      rw [restore_fold_getTaskSpec_other cp rest _ t.id hne2,
        restoreStep_eq_set cp S t sp hsp hne]
      show lookupKey (setKey S.taskSpecs t.id sp) t.id = some sp
      exact lookupKey_setKey_self S.taskSpecs t.id sp
    · exact ih _ hnd2 t ht2 sp hsp hne

theorem getTasks_ids_nodup (s : Store) (E : String) (hwf : WF s) :
    ((getTasks s E).map (fun t => t.id)).Nodup := by
  have hperm : ((getTasks s E).map (fun t => t.id)).Perm
      ((s.tasks.filter (fun t => t.epic_id == E)).map (fun t => t.id)) :=
    (sortByNum_perm _).map _
  rw [hperm.nodup_iff]
  have hsub : ((s.tasks.filter (fun t => t.epic_id == E)).map
        (fun t => t.id)).Sublist (s.tasks.map (fun t => t.id)) :=
    (show (s.tasks.filter (fun t => t.epic_id == E)).Sublist s.tasks from
      List.filter_sublist s.tasks).map (fun t => t.id)
  exact hsub.nodup hwf

end Crew

namespace Crew

theorem closeEpic_none (s : Store) (now E : String)
    (hge : getEpic s E = none) : closeEpic s now E = (s, none) := by
  unfold closeEpic
  rw [hge]

theorem closeEpic_some (s : Store) (now E : String) (e : Epic)
    (hge : getEpic s E = some e) :
    closeEpic s now E
      = if (getTasks s E).all (fun t => t.status == TaskStatus.done) then
          updateEpic s now E
            { status := some .completed, closed_at := some (some now) }
        else (s, none) := by
  unfold closeEpic
  rw [hge]

theorem closeEpic_checkpoints (s : Store) (now E : String) :
    (closeEpic s now E).1.checkpoints = s.checkpoints := by
  cases hge : getEpic s E with
  | none => rw [closeEpic_none s now E hge]
  | some e =>
    rw [closeEpic_some s now E e hge]
    by_cases hall :
        (getTasks s E).all (fun t => t.status == TaskStatus.done) = true
    · rw [if_pos hall]
      exact (updateEpic_sides s now E _).2.2.2
    · rw [if_neg hall]

theorem resetEpilogue_checkpoints (now E : String)
    (r2 : Store × List Task) :
    (resetEpilogue now E r2).1.checkpoints = r2.1.checkpoints := by
  by_cases hlen : r2.2.length > 0
  · cases hge : getEpic r2.1 E with
    | none => rw [resetEpilogue_pos_none now E r2 hlen hge]
    | some epic =>
      rw [resetEpilogue_pos_some now E r2 epic hlen hge]
      exact (updateEpic_sides r2.1 now E _).2.2.2
  · rw [resetEpilogue_len0 now E r2 hlen]

theorem foldl_cascadeStep_checkpoints (f : Nat) (now : String)
    (tid : TaskId)
    (IH : ∀ (s : Store) (now2 : String) (tid2 : TaskId) (c2 : Bool)
        (res2 : Store × List Task),
        resetTaskFuel f s now2 tid2 c2 = some res2 →
        res2.1.checkpoints = s.checkpoints) :
    ∀ (l : List Task) (sAcc : Store) (lAcc : List Task)
      (out : Store × List Task),
      l.foldl (cascadeStep f now tid) (some (sAcc, lAcc)) = some out →
      out.1.checkpoints = sAcc.checkpoints := by
  intro l
  induction l with
  | nil =>
    intro sAcc lAcc out h
    rw [List.foldl_nil] at h
    obtain rfl := Option.some.inj h
    rfl
  | cons t rest ihl =>
    intro sAcc lAcc out h
    rw [List.foldl_cons, cascadeStep_some] at h
    by_cases hc : tid ∈ t.depends_on ∧ t.status ≠ TaskStatus.todo
    · rw [if_pos hc] at h
      cases hr : resetTaskFuel f sAcc now t.id true with
      | none =>
        rw [hr] at h
        have h2 : rest.foldl (cascadeStep f now tid) none = some out := h
        rw [foldl_cascadeStep_none] at h2
        exact Option.noConfusion h2
      | some r2 =>
        rw [hr] at h
        obtain ⟨s2, casc⟩ := r2
        have h2 : rest.foldl (cascadeStep f now tid) (some (s2, lAcc ++ casc))
            = some out := h
        rw [ihl s2 (lAcc ++ casc) out h2]
        exact IH sAcc now t.id true (s2, casc) hr
    · rw [if_neg hc] at h
      exact ihl sAcc lAcc out h

theorem resetTaskFuel_checkpoints :
    ∀ (fuel : Nat) (s : Store) (now : String) (tid : TaskId) (c : Bool)
      (res : Store × List Task),
      resetTaskFuel fuel s now tid c = some res →
      res.1.checkpoints = s.checkpoints := by
  intro fuel
  induction fuel with
  | zero =>
    intro s now tid c res h
    rw [resetTaskFuel_zero] at h
    exact Option.noConfusion h
  | succ f ih =>
    intro s now tid c res h
    cases hget : getTask s tid with
    | none =>
      rw [resetTaskFuel_succ_none f s now tid c hget] at h
      obtain rfl := Option.some.inj h
      rfl
    | some task =>
      cases c with
      | false =>
        rw [resetTaskFuel_succ_some_false f s now tid task hget] at h
        obtain rfl := Option.some.inj h
        rw [resetEpilogue_checkpoints]
        exact (updateTask_sides s now tid resetPatch).2.2.2
      | true =>
        rw [resetTaskFuel_succ_some_true f s now tid task hget] at h
        cases hfold :
            (getTasks (updateTask s now tid resetPatch).1 task.epic_id).foldl
              (cascadeStep f now tid)
              (some ((updateTask s now tid resetPatch).1,
                (updateTask s now tid resetPatch).2.toList)) with
        | none =>
          rw [hfold] at h
          exact Option.noConfusion h
        | some r2 =>
          rw [hfold] at h
          obtain rfl := Option.some.inj h
          rw [resetEpilogue_checkpoints,
            foldl_cascadeStep_checkpoints f now tid ih _ _ _ r2 hfold]
          exact (updateTask_sides s now tid resetPatch).2.2.2

theorem resetTask_checkpoints (s : Store) (now : String) (tid : TaskId)
    (c : Bool) : (resetTask s now tid c).1.checkpoints = s.checkpoints := by
  cases hres : resetTaskFuel (countNonTodo s + 1) s now tid c with
  | none =>
    unfold resetTask
    rw [hres]
    rfl
  | some res =>
    unfold resetTask
    rw [hres]
    exact resetTaskFuel_checkpoints _ s now tid c res hres

theorem startTask_checkpoints (s : Store) (now : String) (tid : TaskId)
    (agent : String) (base : Option String) :
    (startTask s now tid agent base).1.checkpoints = s.checkpoints := by
  cases hget : getTask s tid with
  | none => rw [startTask_none s now tid agent base hget]
  | some t =>
    rw [startTask_some s now tid agent base t hget]
    by_cases hst : t.status ≠ TaskStatus.todo
    · rw [if_pos hst]
    · rw [if_neg hst]
      exact (updateTask_sides s now tid _).2.2.2

theorem unblockTask_checkpoints (s : Store) (now : String) (tid : TaskId) :
    (unblockTask s now tid).1.checkpoints = s.checkpoints := by
  cases hget : getTask s tid with
  | none => rw [unblockTask_none s now tid hget]
  | some t =>
    rw [unblockTask_some s now tid t hget]
    by_cases hst : t.status ≠ TaskStatus.blocked
    · rw [if_pos hst]
    · rw [if_neg hst]
      exact (updateTask_sides { s with blocks := removeKey s.blocks tid }
        now tid _).2.2.2

theorem blockTask_checkpoints (s : Store) (now : String) (tid : TaskId)
    (reason : String) :
    (blockTask s now tid reason).1.checkpoints = s.checkpoints := by
  cases hget : getTask s tid with
  | none => rw [blockTask_none s now tid reason hget]
  | some t =>
    rw [blockTask_some s now tid reason t hget]
    exact (updateTask_sides
      { s with blocks := setKey s.blocks tid (blockText t.title reason now) }
      now tid _).2.2.2

theorem completeTask_checkpoints (s : Store) (now : String) (tid : TaskId)
    (summary : String) (ev : Option TaskEvidence) :
    (completeTask s now tid summary ev).1.checkpoints = s.checkpoints := by
  cases hget : getTask s tid with
  | none => rw [completeTask_none s now tid summary ev hget]
  | some t =>
    by_cases hst : t.status ≠ TaskStatus.in_progress
    · rw [completeTask_fst_guard s now tid summary ev t hget hst]
    · cases hge : getEpic (updateTask s now tid
          (completePatch now summary ev)).1 t.epic_id with
      | none =>
        rw [completeTask_fst_noepic s now tid summary ev t hget hst hge]
        exact (updateTask_sides s now tid _).2.2.2
      | some epic =>
        rw [completeTask_fst_epic s now tid summary ev t epic hget hst hge]
        exact ((updateEpic_sides
          (updateTask s now tid (completePatch now summary ev)).1 now
          t.epic_id _).2.2.2).trans
          ((updateTask_sides s now tid _).2.2.2)

theorem createTask_checkpoints (s : Store) (now epicId title : String)
    (description : Option String) (dependsOn : List TaskId) :
    (createTask s now epicId title description dependsOn).1.checkpoints
      = s.checkpoints := by
  cases hge : getEpic (createStore s now epicId title description dependsOn)
      epicId with
  | none =>
    rw [createTask_fst_noepic s now epicId title description dependsOn hge]
    rfl
  | some epic =>
    rw [createTask_fst_epic s now epicId title description dependsOn epic hge]
    exact (updateEpic_sides
      (createStore s now epicId title description dependsOn) now epicId
      _).2.2.2

theorem applyTaskOp_checkpoints (s : Store) (op : TaskOp) :
    (applyTaskOp s op).checkpoints = s.checkpoints := by
  cases op with
  | create now epicId title description dependsOn =>
    exact createTask_checkpoints s now epicId title description dependsOn
  | start now taskId agent baseCommit =>
    exact startTask_checkpoints s now taskId agent baseCommit
  | complete now taskId summary evidence =>
    exact completeTask_checkpoints s now taskId summary evidence
  | block now taskId reason => exact blockTask_checkpoints s now taskId reason
  | unblock now taskId => exact unblockTask_checkpoints s now taskId
  | reset now taskId cascade => exact resetTask_checkpoints s now taskId cascade

theorem setEpicSpec_checkpoints (s : Store) (now E content : String) :
    (setEpicSpec s now E content).checkpoints = s.checkpoints := by
  show (updateEpic { s with epicSpecs := setKey s.epicSpecs E content } now E
      {}).1.checkpoints = s.checkpoints
  exact (updateEpic_sides { s with epicSpecs := setKey s.epicSpecs E content }
    now E {}).2.2.2

theorem setTaskSpec_checkpoints (s : Store) (now : String) (tid : TaskId)
    (content : String) :
    (setTaskSpec s now tid content).checkpoints = s.checkpoints := by
  show (updateTask { s with taskSpecs := setKey s.taskSpecs tid content } now
      tid {}).1.checkpoints = s.checkpoints
  exact (updateTask_sides { s with taskSpecs := setKey s.taskSpecs tid content }
    now tid {}).2.2.2

theorem applyCrewOp_checkpoints (s : Store) (op : CrewOp) :
    (applyCrewOp s op).checkpoints = s.checkpoints := by
  cases op with
  | task op2 => exact applyTaskOp_checkpoints s op2
  | epicCreate now id title => rfl
  | epicClose now id => exact closeEpic_checkpoints s now id
  | epicSetSpec now id content => exact setEpicSpec_checkpoints s now id content
  | taskSetSpec now taskId content =>
    exact setTaskSpec_checkpoints s now taskId content

theorem applyCrewOps_checkpoints :
    ∀ (ops : List CrewOp) (s : Store),
      (applyCrewOps s ops).checkpoints = s.checkpoints := by
  intro ops
  induction ops with
  | nil =>
    intro s
    rfl
  | cons op rest ih =>
    intro s
    show (applyCrewOps (applyCrewOp s op) rest).checkpoints = s.checkpoints
    rw [ih (applyCrewOp s op), applyCrewOp_checkpoints s op]

end Crew

namespace Crew

theorem restore_fold_getEpic (cp : Checkpoint) (S0 : Store) (E : String)
    (h : getEpic S0 E = some cp.epic) :
    getEpic (cp.tasks.foldl (restoreStep cp) S0) E = some cp.epic := by
  show (cp.tasks.foldl (restoreStep cp) S0).epics.find? (fun e => e.id == E)
      = some cp.epic
  rw [(restore_fold_sides cp cp.tasks S0).1]
  exact h

theorem restore_fold_getEpicSpec (cp : Checkpoint) (S0 : Store) (E : String)
    (h : getEpicSpec S0 E = some cp.epic_spec) :
    getEpicSpec (cp.tasks.foldl (restoreStep cp) S0) E
      = some cp.epic_spec := by
  show lookupKey (cp.tasks.foldl (restoreStep cp) S0).epicSpecs E
      = some cp.epic_spec
  rw [(restore_fold_sides cp cp.tasks S0).2]
  exact h

theorem getEpic_of_epics_eq (S : Store) (es : List Epic) (E : String)
    (e : Epic) (hes : S.epics = es)
    (h : es.find? (fun x => x.id == E) = some e) :
    getEpic S E = some e := by
  show S.epics.find? (fun x => x.id == E) = some e
  rw [hes]
  exact h

/-- C3 counterexample: `restoreCheckpoint` rewrites the snapshotted records
but deletes nothing, so a task created after the snapshot survives the
restore: the snapshot holds one task of the epic, the restored store holds
two. -/
theorem checkpoint_restore_cex :
    ((saveCheckpoint blockWitnessStore "t1" "e").2.map
        (fun cp => cp.tasks.length)) = some 1
      ∧ ((restoreCheckpoint
          (applyCrewOps (saveCheckpoint blockWitnessStore "t1" "e").1
            [.task (.create "t2" "e" "New" none [])]) "e").map
          (fun s3 => (getTasks s3 "e").length)) = some 2 := by
  constructor
  · decide
  · decide

/-- C3 (amended): on a store with distinct task-file ids,
`saveCheckpoint(epic)` followed by an arbitrary sequence of crew operations
and then `restoreCheckpoint(epic)` restores the epic record, the epic
spec, every snapshotted task record, and every snapshotted non-empty task
spec to their snapshot values — but it does not restore the *set* of task
records of the epic: tasks created after the snapshot are not deleted (see
the counterexample). -/
theorem checkpoint_restore_amended (s : Store) (now E : String)
    (ops : List CrewOp) (cp : Checkpoint)
    (hwf : WF s)
    (hsave : (saveCheckpoint s now E).2 = some cp) :
    ∃ s3,
      restoreCheckpoint (applyCrewOps (saveCheckpoint s now E).1 ops) E
        = some s3
      ∧ getEpic s3 E = some cp.epic
      ∧ getEpicSpec s3 E = some cp.epic_spec
      ∧ (∀ t ∈ cp.tasks, getTask s3 t.id = some t)
      ∧ (∀ t ∈ cp.tasks, ∀ sp, lookupKey cp.task_specs t.id = some sp →
          sp ≠ "" → getTaskSpec s3 t.id = some sp) := by
  cases hge : getEpic s E with
  | none =>
    rw [saveCheckpoint_none s now E hge] at hsave
    exact Option.noConfusion hsave
  | some epic =>
    rw [saveCheckpoint_found s now E epic hge] at hsave
    obtain rfl := Option.some.inj hsave
    have hcp : getCheckpoint (applyCrewOps (saveCheckpoint s now E).1 ops) E
        = some (savedCheckpoint s now E epic) := by
      show lookupKey
          (applyCrewOps (saveCheckpoint s now E).1 ops).checkpoints E
        = some (savedCheckpoint s now E epic)
      rw [applyCrewOps_checkpoints ops (saveCheckpoint s now E).1,
        saveCheckpoint_found s now E epic hge]
      show lookupKey (setKey s.checkpoints E (savedCheckpoint s now E epic)) E
        = some (savedCheckpoint s now E epic)
      exact lookupKey_setKey_self s.checkpoints E
        (savedCheckpoint s now E epic)
    rw [restoreCheckpoint_found (applyCrewOps (saveCheckpoint s now E).1 ops)
      E (savedCheckpoint s now E epic) hcp]
    refine ⟨_, rfl, ?_, ?_, ?_, ?_⟩
    · apply restore_fold_getEpic
      apply getEpic_of_epics_eq _
        (putEpic (applyCrewOps (saveCheckpoint s now E).1 ops).epics
          (savedCheckpoint s now E epic).epic) E _ rfl
      rw [← getEpic_id s E epic hge]
      exact find?_putEpic_self _ _
    · apply restore_fold_getEpicSpec
      show lookupKey
          (setKey (applyCrewOps (saveCheckpoint s now E).1 ops).epicSpecs E
            (savedCheckpoint s now E epic).epic_spec) E
        = some (savedCheckpoint s now E epic).epic_spec
      exact lookupKey_setKey_self _ _ _
    · intro t ht
      exact restore_fold_getTask _ _ _ (getTasks_ids_nodup s E hwf) t ht
    · intro t ht sp hsp hne
      exact restore_fold_getTaskSpec _ _ _ (getTasks_ids_nodup s E hwf) t ht
        sp hsp hne

theorem checkpoint_restore_amended_witness :
    WF blockWitnessStore
      ∧ (saveCheckpoint blockWitnessStore "t1" "e").2
          = some (savedCheckpoint blockWitnessStore "t1" "e"
              ⟨"e", "Epic", .active, "t0", "t0", none, 1, 0⟩)
      ∧ ∃ s3, restoreCheckpoint
            (applyCrewOps (saveCheckpoint blockWitnessStore "t1" "e").1
              [.task (.create "t2" "e" "New" none [])]) "e" = some s3
          ∧ getEpic s3 "e"
              = some (savedCheckpoint blockWitnessStore "t1" "e"
                  ⟨"e", "Epic", .active, "t0", "t0", none, 1, 0⟩).epic
          ∧ getEpicSpec s3 "e"
              = some (savedCheckpoint blockWitnessStore "t1" "e"
                  ⟨"e", "Epic", .active, "t0", "t0", none, 1, 0⟩).epic_spec
          ∧ (∀ t ∈ (savedCheckpoint blockWitnessStore "t1" "e"
                ⟨"e", "Epic", .active, "t0", "t0", none, 1, 0⟩).tasks,
              getTask s3 t.id = some t)
          ∧ (∀ t ∈ (savedCheckpoint blockWitnessStore "t1" "e"
                ⟨"e", "Epic", .active, "t0", "t0", none, 1, 0⟩).tasks,
              ∀ sp, lookupKey (savedCheckpoint blockWitnessStore "t1" "e"
                  ⟨"e", "Epic", .active, "t0", "t0", none, 1, 0⟩).task_specs
                  t.id = some sp →
                sp ≠ "" → getTaskSpec s3 t.id = some sp) :=
  ⟨by unfold WF; decide, rfl,
   checkpoint_restore_amended blockWitnessStore "t1" "e"
     [.task (.create "t2" "e" "New" none [])]
     (savedCheckpoint blockWitnessStore "t1" "e"
       ⟨"e", "Epic", .active, "t0", "t0", none, 1, 0⟩)
     (by unfold WF; decide) rfl⟩

end Crew
